import Mathlib

/-!
# liquid-cpp: the AST renderer and the concatenation optimizer

A shallow embedding of `src/context.h` (the simple renderer, the `Variable`
interface and `CPPVariable`) and of `src/context.cpp` (the depth-tracking
renderer and the optimizer), with the properties of the specification proved
about it.

Conventions of the embedding:

* a C++ function that mutates an object through a reference returns the new
  value of that object next to its result;
* undefined behaviour and failed assertions are the result `none`;
* `size_t` arithmetic is arithmetic on `Nat` modulo `2 ^ 64`.
-/

namespace Liquid

/-! ## Data model -/

/-- A `double`, kept as its 64-bit pattern: the code only stores and copies it. -/
abbrev Double := Nat

/-- One step of an access path into a variable store. -/
inductive Link where
  | key (k : String)
  | index (i : Nat)
deriving DecidableEq, Repr

/-- The address of a variable (`Variable*`), represented by the access path
from the root of the store it lives in. -/
abbrev Pointer := List Link

/-- The type `Parser::Variant`: the tagged value of a leaf. -/
inductive Variant where
  | nil
  | bool (b : Bool)
  | int (i : Int)
  | float (f : Double)
  | string (s : String)
  | pointer (p : Pointer)
deriving DecidableEq, Repr

/-- The dynamic class of the `NodeType` object a non-leaf node points to: the
singletons owned by the context, or a type registered by the host. -/
inductive NodeType where
  | concatenation
  | output
  | variable
  | namedVariable
  | group
  | arguments
  | registered (id : Nat)
deriving DecidableEq, Repr

/-- The type `Parser::Node`: a leaf (null `type`, a variant) or an internal node (a
type and its owned children). -/
inductive Node where
  | leaf (variant : Variant)
  | inner (type : NodeType) (children : List Node)
deriving Repr

/-- The constructor `Node()`: the nil node. -/
def Node.nil : Node := Node.leaf Variant.nil

/-- The constructor `Node(s)` for a `std::string`: the string leaf. -/
def Node.ofString (s : String) : Node := Node.leaf (Variant.string s)

/-- Whether `node.type` is non-null. -/
def Node.hasType : Node → Bool
  | Node.leaf _ => false
  | Node.inner _ _ => true

/-- The property of `Node::getString()` the development relies on. The method
is declared in `common.h`, which is not part of the sources, so it is a
parameter `str` throughout; where a result depends on it, a string leaf is
required to convert to its own text. -/
def StringFaithful (str : Node → String) : Prop :=
  ∀ s : String, str (Node.ofString s) = s

/-! ## The depth-tracking renderer of `context.cpp` -/

/-- The enumeration `LiquidRenderErrorType` of `interface.h`. -/
inductive RenderErrorType where
  | NONE
  | EXCEEDED_MEMORY
  | EXCEEDED_TIME
  | EXCEEDED_DEPTH
deriving DecidableEq, Repr

/-- The enumeration `Renderer::Control`. -/
inductive Control where
  | NONE
  | BREAK
  | CONTINUE
  | RETURN
deriving DecidableEq, Repr

/-- Modelled from the spec: `renderer.h` is not part of the sources. The
fields are the renderer state section 4.4 lists and `context.cpp` reads and
writes; the two depth counters are natural numbers. -/
structure Renderer where
  currentRenderingDepth : Nat
  maximumRenderingDepth : Nat
  error : RenderErrorType
  control : Control
  returnValue : Node

/-- Everything a render can change: the renderer, and the part of the host
(`world`: the contents behind the store handle, user data) that render
callbacks reach. -/
structure RenderState (W : Type) where
  renderer : Renderer
  world : W

/-- The virtual call `type->render(renderer, node, store)` for every node type
whose `render` is not `ConcatenationNode::render`: its result and its effect
on the state, as a function of the node (type and children), the store handle
and the state it is called in. -/
abbrev TypeRender (W V : Type) :=
  NodeType → List Node → V → RenderState W → Node × RenderState W

/-- The statement `--renderer.currentRenderingDepth`. -/
def RenderState.leave {W : Type} (st : RenderState W) : RenderState W :=
  { st with renderer :=
      { st.renderer with currentRenderingDepth := st.renderer.currentRenderingDepth - 1 } }

/-- The statement `++renderer.currentRenderingDepth`. -/
def RenderState.enter {W : Type} (st : RenderState W) : RenderState W :=
  { st with renderer :=
      { st.renderer with currentRenderingDepth := st.renderer.currentRenderingDepth + 1 } }

/-- The assignment `renderer.error = e`. -/
def RenderState.setError {W : Type} (st : RenderState W) (e : RenderErrorType) : RenderState W :=
  { st with renderer := { st.renderer with error := e } }

/-- The body of `Context::ConcatenationNode::render` around its loop: the
depth guard of lines 59-63, then `loop`, which stands for the `for` statement
and what follows it, started with the empty accumulator. -/
def ConcatenationNode.renderGuard {W : Type}
    (loop : String → RenderState W → Node × RenderState W) (st : RenderState W) :
    Node × RenderState W :=
  if st.enter.renderer.currentRenderingDepth > st.enter.renderer.maximumRenderingDepth then
    (Node.nil, st.enter.leave.setError RenderErrorType.EXCEEDED_DEPTH)
  else
    loop "" st.enter

mutual
/-- Modelled from the spec: `Renderer::retrieveRenderedNode` lives in the
missing `renderer.h`; per section 4.4 a leaf is returned as it is and an
internal node is rendered by its type (`ConcatenationNode::render` for a
concatenation, the parameter `tr` for every other type). -/
def retrieveRenderedNode {W V : Type} (tr : TypeRender W V) (str : Node → String) :
    Node → V → RenderState W → Node × RenderState W
  | Node.leaf v, _, st => (Node.leaf v, st)
  | Node.inner NodeType.concatenation cs, store, st =>
    ConcatenationNode.renderGuard
      (fun s st1 => ConcatenationNode.renderLoop tr str cs store s st1) st
  | Node.inner t cs, store, st => tr t cs store st
termination_by structural n => n
/-- The `for (auto& child : node.children)` loop of
`ConcatenationNode::render` (lines 64-72) and the two statements after it,
entered with the accumulator `s`. -/
def ConcatenationNode.renderLoop {W V : Type} (tr : TypeRender W V) (str : Node → String) :
    List Node → V → String → RenderState W → Node × RenderState W
  | [], _, s, st => (Node.ofString s, st.leave)
  | child :: rest, store, s, st =>
    let r := retrieveRenderedNode tr str child store st
    let s1 := s ++ str r.1
    if r.2.renderer.error ≠ RenderErrorType.NONE then
      (Node.nil, r.2)
    else if r.2.renderer.control ≠ Control.NONE then
      (Node.ofString s1, r.2.leave)
    else
      ConcatenationNode.renderLoop tr str rest store s1 r.2
termination_by structural cs => cs
end

/-- The method `Context::ConcatenationNode::render` of `context.cpp` (lines 57-75), on
the children of the node it is called for. -/
def ConcatenationNode.render {W V : Type} (tr : TypeRender W V) (str : Node → String)
    (children : List Node) (store : V) (st : RenderState W) : Node × RenderState W :=
  ConcatenationNode.renderGuard
    (fun s st1 => ConcatenationNode.renderLoop tr str children store s st1) st

/-- The loop of `Context::ConcatenationNode::optimize` (lines 83-90): `s` is
the accumulator and `newChildren` the vector built so far; the result is both
after the last child. A `std::string` that has been moved from is empty. -/
def ConcatenationNode.optimizeLoop (str : Node → String) :
    List Node → String → List Node → String × List Node
  | [], s, newChildren => (s, newChildren)
  | child :: rest, s, newChildren =>
    if child.hasType then
      if !s.isEmpty then
        ConcatenationNode.optimizeLoop str rest "" (newChildren ++ [Node.ofString s] ++ [child])
      else
        ConcatenationNode.optimizeLoop str rest s (newChildren ++ [child])
    else
      ConcatenationNode.optimizeLoop str rest (s ++ str child) newChildren

/-- The method `Context::ConcatenationNode::optimize` of `context.cpp` (lines 76-99),
called for the node `Node.inner type children`: the returned flag, the node
as the call leaves it, and the state (`optimizer.renderer`). -/
def ConcatenationNode.optimize {W : Type} (str : Node → String)
    (type : NodeType) (children : List Node) (st : RenderState W) :
    Bool × Node × RenderState W :=
  if st.enter.renderer.currentRenderingDepth > st.enter.renderer.maximumRenderingDepth then
    (false, Node.inner type children, st.enter.leave)
  else
    let r := ConcatenationNode.optimizeLoop str children "" []
    if r.2.length = 0 then
      (true, Node.ofString r.1, st.enter.leave)
    else
      (true, Node.inner type (r.2 ++ [Node.ofString r.1]), st.enter.leave)

/-! ### Registered node types of `context.cpp` -/

/-- A render callback of `interface.h`, called as `userRenderFunction(renderer,
node, store, userData)`: the state it leaves behind. The callback receives
handles on the renderer and the node and returns nothing. -/
abbrev UserRenderFunction (W V D : Type) := RenderState W → Node → V → D → RenderState W

/-- The two members of a `NodeType` that `NodeType::render` reads; they are
declared in the header that goes with `context.cpp`, which is not part of the
sources. A null `userRenderFunction` is `none`. -/
structure RegisteredType (W V D : Type) where
  userRenderFunction : Option (UserRenderFunction W V D)
  userData : D

/-- The method `NodeType::render` of `context.cpp` (lines 19-24). -/
def NodeType.render {W V D : Type} (self : RegisteredType W V D) (node : Node) (store : V)
    (st : RenderState W) : Node × RenderState W :=
  match self.userRenderFunction with
  | none => (Node.nil, st)
  | some f => ((f st node store self.userData).renderer.returnValue, f st node store self.userData)

/-- The method `NodeType::optimize` of `context.cpp` (lines 6-9): the flag, the
node as the call leaves it, and the state. The call `render(...)` is virtual,
so the render of the type the method is called on is the parameter `render`. -/
def NodeType.optimize {W V : Type}
    (render : Node → V → RenderState W → Node × RenderState W)
    (node : Node) (store : V) (st : RenderState W) : Bool × Node × RenderState W :=
  (true, (render node store st).1, (render node store st).2)

/-- The members of `Renderer` and of the store handle `Variable` that
`VariableNode::optimize` calls; they are declared in headers that are not part
of the sources. `getVariable` and `parseVariant` take the renderer and return
the state they leave. -/
structure RendererOps (W V : Type) where
  getVariable : Node → V → RenderState W → V × RenderState W
  variableExists : V → Bool
  parseVariant : V → RenderState W → Variant × RenderState W

/-- The method `Context::VariableNode::optimize` of `context.cpp` (lines
11-17); `variableExists` is `Variable::exists`. -/
def VariableNode.optimize {W V : Type} (ops : RendererOps W V)
    (node : Node) (store : V) (st : RenderState W) : Bool × Node × RenderState W :=
  if !ops.variableExists (ops.getVariable node store st).1 then
    (false, node, (ops.getVariable node store st).2)
  else
    (true,
      Node.leaf (ops.parseVariant (ops.getVariable node store st).1
        (ops.getVariable node store st).2).1,
      (ops.parseVariant (ops.getVariable node store st).1 (ops.getVariable node store st).2).2)

/-- The two tests `context.cpp` makes on the `type` member of a node type,
`type == NodeType::Type::TAG` and `type == NodeType::Type::ARGUMENTS`; the
enumeration is declared in a header that is not part of the sources. -/
structure TypeTags where
  isTag : NodeType → Bool
  isArguments : NodeType → Bool

/-- The cast `(int)` of a `size_t`: the value modulo `2 ^ 32`, read as a signed
32-bit integer. -/
def toInt (n : Nat) : Int := ((n : Int) + 2 ^ 31) % 2 ^ 32 - 2 ^ 31

/-- The expression `node.children[offset]` of `getArgument` and
`getArgumentCount`, as the type and the children of the node it denotes. A
leaf has a null `type` and no `children`, and an index outside the vector
denotes nothing. -/
def argumentsGroup (tags : TypeTags) (node : Node) : Option (NodeType × List Node) :=
  match node with
  | Node.leaf _ => none
  | Node.inner t cs =>
    match cs[if tags.isTag t then 0 else 1]? with
    | some (Node.inner ta args) => some (ta, args)
    | _ => none

/-- The method `NodeType::getArgument` of `context.cpp` (lines 34-40). A
failed assertion and `children[idx]` with a negative `idx` are undefined. -/
def NodeType.getArgument {W V : Type} (tags : TypeTags) (tr : TypeRender W V)
    (str : Node → String) (node : Node) (store : V) (idx : Int) (st : RenderState W) :
    Option (Node × RenderState W) :=
  match argumentsGroup tags node with
  | none => none
  | some (ta, args) =>
    if idx ≥ toInt args.length then some (Node.nil, st)
    else if !tags.isArguments ta then none
    else if idx < 0 then none
    else
      match args[idx.toNat]? with
      | none => none
      | some c => some (retrieveRenderedNode tr str c store st)

/-- The method `NodeType::getArgumentCount` of `context.cpp` (lines 41-45). -/
def NodeType.getArgumentCount (tags : TypeTags) (node : Node) : Option Int :=
  match argumentsGroup tags node with
  | none => none
  | some (ta, args) => if !tags.isArguments ta then none else some (toInt args.length)

/-- The method `NodeType::getChild` of `context.cpp` (lines 47-51). A leaf
has no `children`, and `children[idx]` with a negative `idx` is undefined. -/
def NodeType.getChild {W V : Type} (tr : TypeRender W V) (str : Node → String)
    (node : Node) (store : V) (idx : Int) (st : RenderState W) :
    Option (Node × RenderState W) :=
  match node with
  | Node.leaf _ => none
  | Node.inner _ cs =>
    if idx ≥ toInt cs.length then some (Node.nil, st)
    else if idx < 0 then none
    else
      match cs[idx.toNat]? with
      | none => none
      | some c => some (retrieveRenderedNode tr str c store st)

/-- The method `NodeType::getChildCount` of `context.cpp` (lines 52-54). -/
def NodeType.getChildCount (node : Node) : Option Int :=
  match node with
  | Node.leaf _ => none
  | Node.inner _ cs => some (toInt cs.length)

/-! ## The `Variable` interface and `CPPVariable` of `context.h` -/

/-- The enumeration `Variable::Type`. -/
inductive VariableType where
  | NIL
  | FLOAT
  | INT
  | STRING
  | ARRAY
  | DICTIONARY
  | OTHER
deriving DecidableEq, Repr

/-- The conversion of a `long long` to `size_t` at a call site. -/
def toSizeT (i : Int) : Nat := (i % (2 : Int) ^ 64).toNat

/-- The virtual interface `struct Variable` over objects that live in a heap
of type `S` and are addressed by `Pointer`. Each method takes the heap and
`this`; a reference parameter is passed in and returned; the two lookups also
return the heap as they leave it. -/
structure Variable (S : Type) where
  getType : S → Pointer → Option VariableType
  getString : S → Pointer → String → Option (Bool × String)
  getInteger : S → Pointer → Int → Option (Bool × Int)
  getFloat : S → Pointer → Double → Option (Bool × Double)
  getDictionaryVariable : S → Pointer → Option Pointer → String →
    Option (Bool × Option Pointer × S)
  getArrayVariable : S → Pointer → Option Pointer → Nat →
    Option (Bool × Option Pointer × S)

/-- The default bodies of `struct Variable` (lines 20-25). -/
def Variable.base (S : Type) : Variable S where
  getType := fun _ _ => some VariableType.NIL
  getString := fun _ _ str => some (false, str)
  getInteger := fun _ _ i => some (false, i)
  getFloat := fun _ _ i => some (false, i)
  getDictionaryVariable := fun h _ target _ => some (false, target, h)
  getArrayVariable := fun h _ target _ => some (false, target, h)

/-- The class `Context::CPPVariable`: the `type` tag together with the active member of
the union. The `unordered_map` is an association list in which the first
entry of a key is the entry of the map. -/
inductive CPPVariable where
  | NIL
  | FLOAT (f : Double)
  | INT (i : Int)
  | STRING (s : String)
  | ARRAY (a : List CPPVariable)
  | DICTIONARY (d : List (String × CPPVariable))
deriving Repr

namespace CPPVariable

/-- The method `CPPVariable::getType`. -/
def getType : CPPVariable → VariableType
  | NIL => VariableType.NIL
  | FLOAT _ => VariableType.FLOAT
  | INT _ => VariableType.INT
  | STRING _ => VariableType.STRING
  | ARRAY _ => VariableType.ARRAY
  | DICTIONARY _ => VariableType.DICTIONARY

/-- The method `CPPVariable::getString(std::string& s)`. -/
def getString (this : CPPVariable) (s : String) : Bool × String :=
  match this with
  | STRING s1 => (true, s1)
  | _ => (false, s)

/-- The method `CPPVariable::getInteger(long long& i)`. -/
def getInteger (this : CPPVariable) (i : Int) : Bool × Int :=
  match this with
  | INT i1 => (true, i1)
  | _ => (false, i)

/-- The method `CPPVariable::getFloat(double& i)`: the statement `f = this->f` assigns the
member to itself, so the parameter `i` is returned as it came in. -/
def getFloat (this : CPPVariable) (i : Double) : Bool × Double :=
  match this with
  | FLOAT _ => (true, i)
  | _ => (false, i)

/-- The method `CPPVariable::assign(double f)`. -/
def assignFloat (_this : CPPVariable) (f : Double) : CPPVariable := FLOAT f

/-- The lookup `d.find(s)` on the association list. -/
def find (d : List (String × CPPVariable)) (s : String) : Option CPPVariable :=
  match d with
  | [] => none
  | (k, v) :: rest => if k = s then some v else find rest s

/-- The operator `CPPVariable::operator[](const string& s)`: the object as the call leaves
it. The reference it returns is the entry of `s` in that object. -/
def subscriptKey (this : CPPVariable) (s : String) : Option CPPVariable :=
  match this with
  | NIL => some (DICTIONARY [(s, NIL)])
  | DICTIONARY d =>
    match find d s with
    | some _ => some (DICTIONARY d)
    | none => some (DICTIONARY (d ++ [(s, NIL)]))
  | _ => none

/-- The operator `CPPVariable::operator[](size_t idx)`: the object as the call leaves it,
or `none` when the assertion fails or `a[idx]` is outside the vector. -/
def subscriptIndex (this : CPPVariable) (idx : Nat) : Option CPPVariable :=
  let grow (a : List CPPVariable) : Option CPPVariable :=
    let a1 :=
      if a.length < (idx + 1) % 2 ^ 64 then
        a ++ List.replicate ((idx + 1) % 2 ^ 64 - a.length) NIL
      else a
    if idx < a1.length then some (ARRAY a1) else none
  match this with
  | NIL => grow []
  | ARRAY a => grow a
  | _ => none

/-- The method `CPPVariable::getDictionaryVariable`, on the object: the flag, and the
object as the call leaves it. On `true` the target is set to the entry of
`key`. -/
def getDictionaryVariable (this : CPPVariable) (key : String) : Option (Bool × CPPVariable) :=
  if this.getType ≠ VariableType.DICTIONARY then some (false, this)
  else (this.subscriptKey key).map fun this1 => (true, this1)

/-- The method `CPPVariable::getArrayVariable`, on the object. -/
def getArrayVariable (this : CPPVariable) (idx : Nat) : Option (Bool × CPPVariable) :=
  if this.getType ≠ VariableType.ARRAY then some (false, this)
  else (this.subscriptIndex idx).map fun this1 => (true, this1)

/-- The first entry of key `k` replaced by `v`. -/
def replaceKey (d : List (String × CPPVariable)) (k : String) (v : CPPVariable) :
    List (String × CPPVariable) :=
  match d with
  | [] => []
  | (k1, v1) :: rest => if k1 = k then (k1, v) :: rest else (k1, v1) :: replaceKey rest k v

/-- The object a pointer addresses in the store rooted at `root`; `none` for a
pointer that addresses nothing. -/
def deref (root : CPPVariable) : Pointer → Option CPPVariable
  | [] => some root
  | Link.key k :: p =>
    match root with
    | DICTIONARY d => (find d k).bind fun c => deref c p
    | _ => none
  | Link.index i :: p =>
    match root with
    | ARRAY a => a[i]?.bind fun c => deref c p
    | _ => none

/-- The store after the object a pointer addresses has been overwritten. -/
def store (root : CPPVariable) (p : Pointer) (v : CPPVariable) : CPPVariable :=
  match p with
  | [] => v
  | Link.key k :: p1 =>
    match root with
    | DICTIONARY d =>
      match find d k with
      | some c => DICTIONARY (replaceKey d k (store c p1 v))
      | none => root
    | _ => root
  | Link.index i :: p1 =>
    match root with
    | ARRAY a =>
      match a[i]? with
      | some c => ARRAY (a.set i (store c p1 v))
      | none => root
    | _ => root

/-- The `Variable` interface as `CPPVariable` implements it, over the store
rooted at `root`: a method acts on the object `this` addresses, and a lookup
that succeeds sets the target to the address of the entry. -/
def vtable : Variable CPPVariable where
  getType := fun root this => (deref root this).map fun obj => obj.getType
  getString := fun root this s => (deref root this).map fun obj => obj.getString s
  getInteger := fun root this i => (deref root this).map fun obj => obj.getInteger i
  getFloat := fun root this i => (deref root this).map fun obj => obj.getFloat i
  getDictionaryVariable := fun root this target key =>
    (deref root this).bind fun obj =>
      (obj.getDictionaryVariable key).map fun r =>
        if r.1 then (true, some (this ++ [Link.key key]), store root this r.2)
        else (false, target, root)
  getArrayVariable := fun root this target idx =>
    (deref root this).bind fun obj =>
      (obj.getArrayVariable idx).map fun r =>
        if r.1 then (true, some (this ++ [Link.index idx]), store root this r.2)
        else (false, target, root)

end CPPVariable

/-! ## The simple renderer of `context.h` -/

namespace Header

/-- The values of the locals `double f` and `long long i` of
`VariableNode::render`, which are declared without an initialiser. -/
structure Indeterminate where
  f : Double
  i : Int

/-- The virtual call `type->render(context, node, store)` for a type
registered by the host (`render` is pure virtual in `NodeType`): a function of
the registered type, the children of the node, the store and the heap. -/
abbrev UserRender (S : Type) := Nat → List Node → Pointer → S → Option (Node × S)

/-- The end of `VariableNode::render`, lines 172-196: the value returned once the chain
has been walked and `storePointer` is final. -/
def VariableNode.result {S : Type} (vt : Variable S) (ind : Indeterminate)
    (storePointer : Option Pointer) (h : S) : Option Node :=
  match storePointer with
  | none => some Node.nil
  | some p =>
    (vt.getType h p).bind fun t =>
      match t with
      | VariableType.NIL => some Node.nil
      | VariableType.FLOAT =>
        (vt.getFloat h p ind.f).map fun r => Node.leaf (Variant.float r.2)
      | VariableType.STRING =>
        (vt.getString h p "").map fun r => Node.leaf (Variant.string r.2)
      | VariableType.INT =>
        (vt.getInteger h p ind.i).map fun r => Node.leaf (Variant.int r.2)
      | _ => some (Node.leaf (Variant.pointer p))

/-- The `switch` of `VariableNode::render`, lines 158-170, on the rendered link
`node`: the new `storePointer` and heap. Calling a method through a null
`storePointer` is undefined, and so is a failed `assert(!node.type)`. -/
def VariableNode.step {S : Type} (vt : Variable S) (node : Node)
    (storePointer : Option Pointer) (h : S) : Option (Option Pointer × S) :=
  match node with
  | Node.inner _ _ => none
  | Node.leaf (Variant.int i) =>
    match storePointer with
    | none => none
    | some p =>
      (vt.getArrayVariable h p (some p) (toSizeT i)).map fun r =>
        (if !r.1 then none else r.2.1, r.2.2)
  | Node.leaf (Variant.string s) =>
    match storePointer with
    | none => none
    | some p =>
      (vt.getDictionaryVariable h p (some p) s).map fun r =>
        (if !r.1 then none else r.2.1, r.2.2)
  | Node.leaf _ => some (none, h)

mutual
/-- The virtual call `node.type->render(context, node, store)` of `context.h`,
resolved on the type of the node: `ConcatenationNode::render` (lines
110-120), `OutputNode::render` (126-135), `VariableNode::render` (152-198,
inherited by `NamedVariableNode`), the `assert(false)` of `GroupNode` and
`ArgumentNode`, and `ur` for a registered type. A leaf has a null type. -/
def render {S : Type} (vt : Variable S) (ur : UserRender S) (str : Node → String)
    (ind : Indeterminate) : Node → Pointer → S → Option (Node × S)
  | Node.leaf _, _, _ => none
  | Node.inner NodeType.concatenation cs, store, h =>
    ConcatenationNode.renderLoop vt ur str ind cs store "" h
  | Node.inner NodeType.output [Node.inner _ [Node.leaf v]], _, h => some (Node.leaf v, h)
  | Node.inner NodeType.output [Node.inner _ [Node.inner t cs]], store, h =>
    render vt ur str ind (Node.inner t cs) store h
  | Node.inner NodeType.output _, _, _ => none
  | Node.inner NodeType.variable cs, store, h =>
    (VariableNode.renderLoop vt ur str ind cs store (some store) h).bind fun r =>
      (VariableNode.result vt ind r.1 r.2).map fun n => (n, r.2)
  | Node.inner NodeType.namedVariable cs, store, h =>
    (VariableNode.renderLoop vt ur str ind cs store (some store) h).bind fun r =>
      (VariableNode.result vt ind r.1 r.2).map fun n => (n, r.2)
  | Node.inner NodeType.group _, _, _ => none
  | Node.inner NodeType.arguments _, _, _ => none
  | Node.inner (NodeType.registered id) cs, store, h => ur id cs store h
termination_by structural n => n
/-- The method `ConcatenationNode::render` of `context.h`: the loop of lines 112-118 and
the `return` after it, entered with the accumulator `s`. -/
def ConcatenationNode.renderLoop {S : Type} (vt : Variable S) (ur : UserRender S)
    (str : Node → String) (ind : Indeterminate) :
    List Node → Pointer → String → S → Option (Node × S)
  | [], _, s, h => some (Node.ofString s, h)
  | Node.leaf v :: rest, store, s, h =>
    ConcatenationNode.renderLoop vt ur str ind rest store (s ++ str (Node.leaf v)) h
  | Node.inner t cs :: rest, store, s, h =>
    (render vt ur str ind (Node.inner t cs) store h).bind fun r =>
      ConcatenationNode.renderLoop vt ur str ind rest store (s ++ str r.1) r.2
termination_by structural cs => cs
/-- The loop of `VariableNode::render` over the chain (lines 155-171), entered
with `storePointer`; the result is the final `storePointer` and heap. -/
def VariableNode.renderLoop {S : Type} (vt : Variable S) (ur : UserRender S)
    (str : Node → String) (ind : Indeterminate) :
    List Node → Pointer → Option Pointer → S → Option (Option Pointer × S)
  | [], _, storePointer, h => some (storePointer, h)
  | Node.leaf v :: rest, store, storePointer, h =>
    (VariableNode.step vt (Node.leaf v) storePointer h).bind fun r =>
      VariableNode.renderLoop vt ur str ind rest store r.1 r.2
  | Node.inner t cs :: rest, store, storePointer, h =>
    (render vt ur str ind (Node.inner t cs) store h).bind fun n =>
      (VariableNode.step vt n.1 storePointer n.2).bind fun r =>
        VariableNode.renderLoop vt ur str ind rest store r.1 r.2
termination_by structural cs => cs
end

end Header

/-! ## The node types and the registry of `context.h` -/

namespace Header

/-- The enumeration `NodeType::Type` of `context.h`. -/
inductive NodeTypeType where
  | VARIABLE
  | TAG_ENCLOSED
  | TAG_FREE
  | GROUP
  | OUTPUT
  | ARGUMENTS
  | OPERATOR
deriving DecidableEq, Repr

/-- The enumeration `OperatorNodeType::Arity`. -/
inductive OperatorNodeType.Arity where
  | NONARY
  | UNARY
  | BINARY
  | NARY
deriving DecidableEq, Repr

/-- The enumeration `OperatorNodeType::Fixness`. -/
inductive OperatorNodeType.Fixness where
  | PREFIX
  | INFIX
  | AFFIX
deriving DecidableEq, Repr

/-- The data members of `TagNodeType`, those of its base `NodeType` first
(without `intermediates` and the two function pointers). -/
structure TagNodeType where
  type : NodeTypeType
  symbol : String
  maxChildren : Int
  minArguments : Int
  maxArguments : Int
deriving DecidableEq, Repr

/-- The data members of `OperatorNodeType`, those of its base `NodeType`
first. -/
structure OperatorNodeType where
  type : NodeTypeType
  symbol : String
  maxChildren : Int
  arity : OperatorNodeType.Arity
  priority : Int
  fixness : OperatorNodeType.Fixness
deriving DecidableEq, Repr

/-- The constructor `OperatorNodeType(symbol, arity, priority, fixness)`
(lines 88-103): the base is built by `NodeType(Type::OPERATOR, symbol)`, whose
`maxChildren` defaults to `-1`, and the body then sets `maxChildren`. -/
def OperatorNodeType.new (symbol : String) (arity : OperatorNodeType.Arity) (priority : Int)
    (fixness : OperatorNodeType.Fixness) : OperatorNodeType :=
  let self : OperatorNodeType :=
    { type := NodeTypeType.OPERATOR, symbol := symbol, maxChildren := -1,
      arity := arity, priority := priority, fixness := fixness }
  match arity with
  | OperatorNodeType.Arity.NONARY => { self with maxChildren := 0 }
  | OperatorNodeType.Arity.UNARY => { self with maxChildren := 1 }
  | OperatorNodeType.Arity.BINARY => { self with maxChildren := 2 }
  | OperatorNodeType.Arity.NARY => { self with maxChildren := -1 }

/-- The same constructor called as `OperatorNodeType(symbol, arity)`, with the
default arguments `priority = 0` and `fixness = Fixness::INFIX`. -/
def OperatorNodeType.newDefault (symbol : String) (arity : OperatorNodeType.Arity) :
    OperatorNodeType :=
  OperatorNodeType.new symbol arity 0 OperatorNodeType.Fixness.INFIX

/-- What a `unique_ptr<NodeType>` handed to the registry points to: an object
of a class derived from `NodeType`. -/
inductive NodeTypeObject where
  | other (type : NodeTypeType) (symbol : String) (maxChildren : Int)
  | tag (t : TagNodeType)
  | operator (o : OperatorNodeType)
deriving DecidableEq, Repr

/-- The member `type` of the `NodeType` base of an object. -/
def NodeTypeObject.type : NodeTypeObject → NodeTypeType
  | NodeTypeObject.other t _ _ => t
  | NodeTypeObject.tag t => t.type
  | NodeTypeObject.operator o => o.type

/-- The member `symbol` of the `NodeType` base of an object. -/
def NodeTypeObject.symbol : NodeTypeObject → String
  | NodeTypeObject.other _ s _ => s
  | NodeTypeObject.tag t => t.symbol
  | NodeTypeObject.operator o => o.symbol

/-- The two tables of `struct Context`; an `unordered_map` from symbols to
owned objects is the function giving the object stored under a symbol. -/
structure Context where
  tagTypes : String → Option NodeTypeObject
  operatorTypes : String → Option NodeTypeObject

/-- A context in which nothing is registered. -/
def Context.empty : Context :=
  { tagTypes := fun _ => none, operatorTypes := fun _ => none }

/-- The method `Context::registerType` (lines 327-341): the context as the
call leaves it, or `none` when `assert(false)` is reached. -/
def Context.registerType (self : Context) (type : NodeTypeObject) : Option Context :=
  match type.type with
  | NodeTypeType.TAG_ENCLOSED =>
    some { self with tagTypes := fun s => if s = type.symbol then some type else self.tagTypes s }
  | NodeTypeType.TAG_FREE =>
    some { self with tagTypes := fun s => if s = type.symbol then some type else self.tagTypes s }
  | NodeTypeType.OPERATOR =>
    some { self with
      operatorTypes := fun s => if s = type.symbol then some type else self.operatorTypes s }
  | _ => none

/-- The method `Context::getTagType` (lines 343-348); `nullptr` is `none`. -/
def Context.getTagType (self : Context) (symbol : String) : Option NodeTypeObject :=
  self.tagTypes symbol

/-- The method `Context::getOperatorType` (lines 349-354). -/
def Context.getOperatorType (self : Context) (symbol : String) : Option NodeTypeObject :=
  self.operatorTypes symbol

/-- The calls `registerType(t)` for the objects of a list, in order, on a
context: the context after the last call, or `none` when an assertion
fails. -/
def Context.registerAll (self : Context) : List NodeTypeObject → Option Context
  | [] => some self
  | t :: rest => (self.registerType t).bind fun c => c.registerAll rest

end Header

/-! ## The parser errors of `interface.h` and `parser.h` -/

/-- The enumeration `LiquidParserErrorType` of `interface.h`. -/
inductive ParserErrorType where
  | NONE
  | UNEXPECTED_END
  | UNKNOWN_TAG
  | UNKNOWN_OPERATOR
  | UNKNOWN_OPERATOR_OR_QUALIFIER
  | UNKNOWN_FILTER
  | INVALID_SYMBOL
  | UNBALANCED_GROUP
deriving DecidableEq, Repr

/-- The constant `LIQUID_ERROR_MESSAGE_MAX_LENGTH`. -/
def LIQUID_ERROR_MESSAGE_MAX_LENGTH : Nat := 256

/-- The structure `Parser::Error` (`SLiquidParserError`): `row` and `column`
are `size_t` values, and `message` is the C string held in
`char message[LIQUID_ERROR_MESSAGE_MAX_LENGTH]`, one character of the string
for each `char` in front of the terminator. -/
structure Parser.Error where
  type : ParserErrorType
  row : Nat
  column : Nat
  message : String
deriving DecidableEq, Repr

/-- The conversion `%lu` of `sprintf`: the decimal digits of the value. -/
def formatUnsignedLong (n : Nat) : String := Nat.repr n

/-- The text that the `sprintf` call chosen by the `switch` of lines 120-146
produces for an error; for `NONE` the `switch` writes nothing. -/
def Parser.Exception.format (error : Parser.Error) : Option String :=
  match error.type with
  | ParserErrorType.NONE => none
  | ParserErrorType.UNKNOWN_TAG =>
    some ("Unknown tag '" ++ error.message ++ "' on line " ++ formatUnsignedLong error.row
      ++ ", column " ++ formatUnsignedLong error.column ++ ".")
  | ParserErrorType.UNKNOWN_OPERATOR =>
    some ("Unknown operator '" ++ error.message ++ "' on line "
      ++ formatUnsignedLong error.row ++ ", column " ++ formatUnsignedLong error.column ++ ".")
  | ParserErrorType.UNKNOWN_OPERATOR_OR_QUALIFIER =>
    some ("Unknown operator, or qualifier '" ++ error.message ++ "' on line "
      ++ formatUnsignedLong error.row ++ ", column " ++ formatUnsignedLong error.column ++ ".")
  | ParserErrorType.UNKNOWN_FILTER =>
    some ("Unknown filter '" ++ error.message ++ "' on line " ++ formatUnsignedLong error.row
      ++ ", column " ++ formatUnsignedLong error.column ++ ".")
  | ParserErrorType.INVALID_SYMBOL =>
    some ("Invalid symbol '" ++ error.message ++ "' on line " ++ formatUnsignedLong error.row
      ++ ", column " ++ formatUnsignedLong error.column ++ ".")
  | ParserErrorType.UNEXPECTED_END =>
    if error.message.length ≠ 0 then
      some ("Unexpected end to block '" ++ error.message ++ "' on line "
        ++ formatUnsignedLong error.row ++ ", column " ++ formatUnsignedLong error.column ++ ".")
    else
      some ("Unexpected end to block on line " ++ formatUnsignedLong error.row
        ++ ", column " ++ formatUnsignedLong error.column ++ ".")
  | ParserErrorType.UNBALANCED_GROUP =>
    some ("Unbalanced end to group on line " ++ formatUnsignedLong error.row
      ++ ", column " ++ formatUnsignedLong error.column ++ ".")

/-- The members of `Parser::Exception` that the constructor from a
`Parser::Error` sets. -/
structure Parser.Exception where
  parserError : Parser.Error
  message : String
deriving DecidableEq, Repr

/-- The constructor `Parser::Exception::Exception(const Parser::Error&)` (lines
118-148): `sprintf` writes the text and its terminator into `char
buffer[512]`, and `message = buffer` copies it. Writing past the buffer is
undefined, and so is reading the buffer that nothing was written to. -/
def Parser.Exception.new (error : Parser.Error) : Option Parser.Exception :=
  match Parser.Exception.format error with
  | none => none
  | some text =>
    if text.length + 1 ≤ 512 then some { parserError := error, message := text } else none

/-- The method `Parser::Exception::what` (lines 164-166). -/
def Parser.Exception.what (self : Parser.Exception) : String := self.message

/-! ## Vocabulary of the statements -/

/-- The children of a concatenation rendered one after the other with no test
in between: the rendered values in order, and the state after the last. -/
def renderedChildren {W V : Type} (tr : TypeRender W V) (str : Node → String) :
    List Node → V → RenderState W → List Node × RenderState W
  | [], _, st => ([], st)
  | child :: rest, store, st =>
    let r := retrieveRenderedNode tr str child store st
    let q := renderedChildren tr str rest store r.2
    (r.1 :: q.1, q.2)

/-- No error and no control signal is pending in a state. -/
def RenderState.clean {W : Type} (st : RenderState W) : Bool :=
  decide (st.renderer.error = RenderErrorType.NONE) &&
    decide (st.renderer.control = Control.NONE)

/-- Rendering the children in order from `st`, no child leaves a render error
or a control signal behind. -/
def quiet {W V : Type} (tr : TypeRender W V) (str : Node → String) :
    List Node → V → RenderState W → Bool
  | [], _, _ => true
  | child :: rest, store, st =>
    (retrieveRenderedNode tr str child store st).2.clean &&
      quiet tr str rest store (retrieveRenderedNode tr str child store st).2

/-- Rendering the children in order from `st`, no child sets a render error
or a control signal: after each child the error is `NONE` or the error that
was pending before that child, and the control signal is `NONE` or the signal
that was pending before that child. -/
def noChildSets {W V : Type} (tr : TypeRender W V) (str : Node → String) :
    List Node → V → RenderState W → Bool
  | [], _, _ => true
  | child :: rest, store, st =>
    (decide ((retrieveRenderedNode tr str child store st).2.renderer.error
        = RenderErrorType.NONE) ||
      decide ((retrieveRenderedNode tr str child store st).2.renderer.error
        = st.renderer.error)) &&
    (decide ((retrieveRenderedNode tr str child store st).2.renderer.control
        = Control.NONE) ||
      decide ((retrieveRenderedNode tr str child store st).2.renderer.control
        = st.renderer.control)) &&
    noChildSets tr str rest store (retrieveRenderedNode tr str child store st).2

/-- The children of a concatenation as the renderer of `context.h` renders
them, in order: a leaf is its own value, a non-leaf is rendered by its type. -/
def Header.renderedChildren {S : Type} (vt : Variable S) (ur : Header.UserRender S)
    (str : Node → String) (ind : Header.Indeterminate) :
    List Node → Pointer → S → Option (List Node × S)
  | [], _, h => some ([], h)
  | Node.leaf v :: rest, store, h =>
    (Header.renderedChildren vt ur str ind rest store h).map fun q => (Node.leaf v :: q.1, q.2)
  | Node.inner t cs :: rest, store, h =>
    (Header.render vt ur str ind (Node.inner t cs) store h).bind fun r =>
      (Header.renderedChildren vt ur str ind rest store r.2).map fun q => (r.1 :: q.1, q.2)

/-- A `getString` for concrete evaluations: the text of a string leaf, and the
empty text for every other node. -/
def Node.text : Node → String
  | Node.leaf (Variant.string s) => s
  | _ => ""

mutual
/-- The tree is made of concatenation nodes and leaves only. -/
def Node.onlyConcatenations : Node → Bool
  | Node.leaf _ => true
  | Node.inner NodeType.concatenation cs => Node.allOnlyConcatenations cs
  | Node.inner _ _ => false
/-- Every tree of the list is made of concatenation nodes and leaves only. -/
def Node.allOnlyConcatenations : List Node → Bool
  | [] => true
  | c :: rest => c.onlyConcatenations && Node.allOnlyConcatenations rest
end

mutual
/-- The largest number of concatenation nodes on a path from the node down to
one of its descendants, the node itself included. -/
def Node.concatenationDepth : Node → Nat
  | Node.leaf _ => 0
  | Node.inner NodeType.concatenation cs => 1 + Node.maxConcatenationDepth cs
  | Node.inner _ cs => Node.maxConcatenationDepth cs
/-- The largest `concatenationDepth` among the trees of the list. -/
def Node.maxConcatenationDepth : List Node → Nat
  | [] => 0
  | c :: rest => max c.concatenationDepth (Node.maxConcatenationDepth rest)
end

/-- The chain link of a `VARIABLE` node that names a step of a path: a string
leaf for a key, an int leaf for an index. -/
def linkLeaf : Link → Node
  | Link.key k => Node.leaf (Variant.string k)
  | Link.index i => Node.leaf (Variant.int (i : Int))

/-- The leaf that holds the value of a variable found at address `p`: nil, the
integer, the string, or the pointer to an array or dictionary. A float is
left out. -/
def CPPVariable.leafAt (p : Pointer) : CPPVariable → Option Node
  | CPPVariable.NIL => some Node.nil
  | CPPVariable.INT i => some (Node.leaf (Variant.int i))
  | CPPVariable.STRING s => some (Node.leaf (Variant.string s))
  | CPPVariable.ARRAY _ => some (Node.leaf (Variant.pointer p))
  | CPPVariable.DICTIONARY _ => some (Node.leaf (Variant.pointer p))
  | CPPVariable.FLOAT _ => none

/-- The type is one of the two tag kinds. -/
def Header.NodeTypeType.isTag : Header.NodeTypeType → Bool
  | Header.NodeTypeType.TAG_ENCLOSED => true
  | Header.NodeTypeType.TAG_FREE => true
  | _ => false

/-- The keys of a dictionary, in the order of its entries. -/
def CPPVariable.keys : CPPVariable → List String
  | CPPVariable.DICTIONARY d => d.map Prod.fst
  | _ => []

/-- The length of an array. -/
def CPPVariable.size : CPPVariable → Nat
  | CPPVariable.ARRAY a => a.length
  | _ => 0

/-- The children of a concatenation cut at its non-leaf children: the maximal
runs of adjacent leaves (possibly empty), each with the non-leaf child that
follows it, and the run after the last non-leaf child. -/
def segments : List Node → List (List Node × Node) × List Node
  | [] => ([], [])
  | c :: rest =>
    if c.hasType then (([], c) :: (segments rest).1, (segments rest).2)
    else
      match (segments rest).1 with
      | [] => ([], c :: (segments rest).2)
      | (run, x) :: more => ((c :: run, x) :: more, (segments rest).2)

/-- The list of children that a list of runs with their following non-leaf
child, and a last run, stand for. -/
def unsegment : List (List Node × Node) → List Node → List Node
  | [], last => last
  | (run, x) :: more, last => run ++ x :: unsegment more last

/-- A run of leaves replaced by one string leaf holding its concatenated text;
where there is no leaf there is no run. -/
def foldRun (str : Node → String) (run : List Node) : List Node :=
  if run.isEmpty then [] else [Node.ofString (String.join (run.map str))]

/-- The children C11 describes: every maximal run of adjacent leaves replaced
by one string leaf in the same position, the non-leaf children kept. -/
def foldRuns (str : Node → String) (cs : List Node) : List Node :=
  unsegment ((segments cs).1.map fun p => (foldRun str p.1, p.2)) (foldRun str (segments cs).2)

/-- A run of leaves in front of a non-leaf child as `optimize` leaves it: one
string leaf holding its concatenated text, or nothing when that text is
empty. -/
def foldText (str : Node → String) (run : List Node) : List Node :=
  if (String.join (run.map str)).isEmpty then []
  else [Node.ofString (String.join (run.map str))]

/-- The children of an optimized concatenation: the runs in front of non-leaf
children folded by `foldText`, and the last run, empty or not, replaced by the
string leaf of its text. -/
def optimizedChildren (str : Node → String) (cs : List Node) : List Node :=
  unsegment ((segments cs).1.map fun p => (foldText str p.1, p.2))
    [Node.ofString (String.join ((segments cs).2.map str))]

/-- No two adjacent nodes of the list are both leaves. -/
def noAdjacentLeaves : List Node → Bool
  | a :: b :: rest => (a.hasType || b.hasType) && noAdjacentLeaves (b :: rest)
  | _ => true

/-- Two variables report the same to `getType`, `getString`, `getInteger` and
`getFloat`: the same type and, for a scalar, the same value. -/
def CPPVariable.sameValue : CPPVariable → CPPVariable → Bool
  | CPPVariable.NIL, CPPVariable.NIL => true
  | CPPVariable.FLOAT f, CPPVariable.FLOAT g => decide (f = g)
  | CPPVariable.INT i, CPPVariable.INT j => decide (i = j)
  | CPPVariable.STRING s, CPPVariable.STRING t => decide (s = t)
  | CPPVariable.ARRAY _, CPPVariable.ARRAY _ => true
  | CPPVariable.DICTIONARY _, CPPVariable.DICTIONARY _ => true
  | _, _ => false

/-- The second store results from the first by lookups: each step is a
`getDictionaryVariable` or a `getArrayVariable` that returns `true` on some
object of the store and leaves that object as the call left it. -/
inductive CPPVariable.Reach : CPPVariable → CPPVariable → Prop where
  | refl (h : CPPVariable) : CPPVariable.Reach h h
  | key (h h1 obj obj1 : CPPVariable) (p : Pointer) (k : String) :
      CPPVariable.Reach h h1 → CPPVariable.deref h1 p = some obj →
      obj.getDictionaryVariable k = some (true, obj1) →
      CPPVariable.Reach h (CPPVariable.store h1 p obj1)
  | index (h h1 obj obj1 : CPPVariable) (p : Pointer) (idx : Nat) :
      CPPVariable.Reach h h1 → CPPVariable.deref h1 p = some obj →
      obj.getArrayVariable idx = some (true, obj1) →
      CPPVariable.Reach h (CPPVariable.store h1 p obj1)

/-- Every object of the first store is an object of the second, at the same
address and with the same type and scalar value. -/
def CPPVariable.Extends (h h1 : CPPVariable) : Prop :=
  ∀ (q : Pointer) (v : CPPVariable), CPPVariable.deref h q = some v →
    ∃ v1, CPPVariable.deref h1 q = some v1 ∧ v.sameValue v1 = true

mutual
/-- No node of the tree has a type registered by the host: the tree is built
of the node types of the context and of leaves. -/
def Node.noRegistered : Node → Bool
  | Node.leaf _ => true
  | Node.inner (NodeType.registered _) _ => false
  | Node.inner _ cs => Node.allNoRegistered cs
/-- No tree of the list holds a node of a registered type. -/
def Node.allNoRegistered : List Node → Bool
  | [] => true
  | c :: rest => c.noRegistered && Node.allNoRegistered rest
end

/-- The text C23 gives for a kind whose message is quoted; `none` for the
other kinds. -/
def quotedKind : ParserErrorType → Option String
  | ParserErrorType.UNKNOWN_TAG => some "Unknown tag"
  | ParserErrorType.UNKNOWN_OPERATOR => some "Unknown operator"
  | ParserErrorType.UNKNOWN_OPERATOR_OR_QUALIFIER => some "Unknown operator, or qualifier"
  | ParserErrorType.UNKNOWN_FILTER => some "Unknown filter"
  | ParserErrorType.INVALID_SYMBOL => some "Invalid symbol"
  | _ => none

/-- The end of every text of C23: the row and the column in decimal. -/
def lineColumn (r c : Nat) : String :=
  "on line " ++ Nat.repr r ++ ", column " ++ Nat.repr c ++ "."

/-! ## Sample inputs for the concrete instances -/

/-- A renderer state at depth `depth` of a budget `budget`, with the given
control signal and no error. -/
def sampleState (depth budget : Nat) (control : Control) : RenderState Unit :=
  { renderer :=
      { currentRenderingDepth := depth
        maximumRenderingDepth := budget
        error := RenderErrorType.NONE
        control := control
        returnValue := Node.nil }
    world := () }

/-- A context without registered types: every other render returns the nil
node and changes nothing. -/
def sampleRender : TypeRender Unit Unit := fun _ _ _ st => (Node.nil, st)

/-- The renderer of `context.h` without registered types. -/
def sampleUserRender : Header.UserRender CPPVariable := fun _ _ _ _ => none

/-- Zero for both uninitialised locals. -/
def sampleIndeterminate : Header.Indeterminate := { f := 0, i := 0 }

/-- The children `"a"`, the nested concatenation of `"b"`, and `"c"`. -/
def sampleChildren : List Node :=
  [Node.ofString "a", Node.inner NodeType.concatenation [Node.ofString "b"], Node.ofString "c"]

/-- A registered tag in the manner of `break`: it renders to `"x"` and raises
the control signal `BREAK`. -/
def sampleBreak : TypeRender Unit Unit := fun _ _ _ st =>
  (Node.ofString "x", { st with renderer := { st.renderer with control := Control.BREAK } })

/-- The tree `["a", []]`: a concatenation holding a leaf and an empty
concatenation, two concatenation nodes deep. -/
def sampleNested : Node :=
  Node.inner NodeType.concatenation
    [Node.ofString "a", Node.inner NodeType.concatenation []]

/-- The store `{a: {b: [{c: "x"}, {c: "y"}]}}` of scenario 5. -/
def sampleStore : CPPVariable :=
  CPPVariable.DICTIONARY
    [("a", CPPVariable.DICTIONARY
      [("b", CPPVariable.ARRAY
        [CPPVariable.DICTIONARY [("c", CPPVariable.STRING "x")],
          CPPVariable.DICTIONARY [("c", CPPVariable.STRING "y")]])])]

/-- The path `a.b[1].c`. -/
def samplePath : List Link := [Link.key "a", Link.key "b", Link.index 1, Link.key "c"]

/-- A registered type without a render function. -/
def sampleSilentType : RegisteredType Unit Unit Unit :=
  { userRenderFunction := none, userData := () }

/-- A node of a registered type whose one argument is the variable `missing`. -/
def sampleUnfoldable : Node :=
  Node.inner (NodeType.registered 0)
    [Node.inner NodeType.arguments
      [Node.inner NodeType.variable [Node.ofString "missing"]]]

/-- The tag types `if` (enclosing, registered first) and `if` (free,
registered second), the operator `+`, and a context that holds nothing. -/
def sampleIfEnclosed : Header.NodeTypeObject :=
  Header.NodeTypeObject.tag
    { type := Header.NodeTypeType.TAG_ENCLOSED, symbol := "if", maxChildren := -1,
      minArguments := 1, maxArguments := 1 }

/-- The second tag type registered under the symbol `if`. -/
def sampleIfFree : Header.NodeTypeObject :=
  Header.NodeTypeObject.tag
    { type := Header.NodeTypeType.TAG_FREE, symbol := "if", maxChildren := -1,
      minArguments := -1, maxArguments := -1 }

/-- The tests on the kind of a node type for the samples: a registered type is
a tag, and the arguments type is `ARGUMENTS`. -/
def sampleTags : TypeTags :=
  { isTag := fun t => match t with
      | NodeType.registered _ => true
      | _ => false
    isArguments := fun t => match t with
      | NodeType.arguments => true
      | _ => false }

/-- The arguments `"x"` and the concatenation of `"y"`. -/
def sampleArguments : List Node :=
  [Node.ofString "x", Node.inner NodeType.concatenation [Node.ofString "y"]]

/-- A tag node with the arguments `sampleArguments`. -/
def sampleTagNode : Node :=
  Node.inner (NodeType.registered 0) [Node.inner NodeType.arguments sampleArguments]

/-- A non-leaf child: a node of a registered type without children. -/
def sampleTag : Node := Node.inner (NodeType.registered 0) []

/-- The operator registered under the symbol `if`. -/
def sampleIfOperator : Header.NodeTypeObject :=
  Header.NodeTypeObject.operator
    (Header.OperatorNodeType.newDefault "if" Header.OperatorNodeType.Arity.BINARY)

/-- The context in which the enclosing tag `if` is the only registration. -/
def sampleContext : Header.Context :=
  { tagTypes := fun s => if s = "if" then some sampleIfEnclosed else none
    operatorTypes := fun _ => none }

/-- The context after the tag `if` and the operator `if` have been
registered. -/
def sampleRegistry : Header.Context :=
  { tagTypes := fun s => if s = "if" then some sampleIfEnclosed else none
    operatorTypes := fun s => if s = "if" then some sampleIfOperator else none }

/-- The error for the unknown tag `foo` met on line 12, column 7. -/
def sampleError : Parser.Error :=
  { type := ParserErrorType.UNKNOWN_TAG, row := 12, column := 7, message := "foo" }

/-- An error of the kind with the longest text, at the last row and column. -/
def sampleLongError : Parser.Error :=
  { type := ParserErrorType.UNKNOWN_OPERATOR_OR_QUALIFIER, row := 2 ^ 64 - 1,
    column := 2 ^ 64 - 1, message := "x" }

/-- The error for a block left open at the end of the template, without and
with the name of the tag. -/
def sampleEndError (message : String) : Parser.Error :=
  { type := ParserErrorType.UNEXPECTED_END, row := 3, column := 1, message := message }

/-! ## Basic facts -/

theorem foldl_append_eq (l : List String) (s : String) :
    List.foldl (fun r t => r ++ t) s l = s ++ String.join l := by
  induction l generalizing s with
  | nil => simp [String.join]
  | cons a l ih =>
    simp only [List.foldl_cons, String.join]
    rw [ih, ih ("" ++ a)]
    simp [String.append_assoc]

theorem join_cons (a : String) (l : List String) :
    String.join (a :: l) = a ++ String.join l := by
  show List.foldl (fun r t => r ++ t) ("" ++ a) l = a ++ String.join l
  rw [foldl_append_eq, String.empty_append]

theorem join_nil : String.join [] = "" := rfl

theorem text_faithful : StringFaithful Node.text := fun _ => rfl

theorem enter_leave {W : Type} (st : RenderState W) : st.enter.leave = st := by
  cases st with
  | mk r w => cases r; simp [RenderState.enter, RenderState.leave]

theorem clean_iff {W : Type} (st : RenderState W) :
    st.clean = true ↔
      st.renderer.error = RenderErrorType.NONE ∧ st.renderer.control = Control.NONE := by
  simp [RenderState.clean]

theorem retrieve_leaf {W V : Type} (tr : TypeRender W V) (str : Node → String)
    (v : Variant) (store : V) (st : RenderState W) :
    retrieveRenderedNode tr str (Node.leaf v) store st = (Node.leaf v, st) := by
  simp [retrieveRenderedNode]

theorem retrieve_concatenation {W V : Type} (tr : TypeRender W V) (str : Node → String)
    (cs : List Node) (store : V) (st : RenderState W) :
    retrieveRenderedNode tr str (Node.inner NodeType.concatenation cs) store st =
      ConcatenationNode.render tr str cs store st := by
  simp [retrieveRenderedNode, ConcatenationNode.render]

theorem renderLoop_nil {W V : Type} (tr : TypeRender W V) (str : Node → String)
    (store : V) (s : String) (st : RenderState W) :
    ConcatenationNode.renderLoop tr str [] store s st = (Node.ofString s, st.leave) := by
  simp [ConcatenationNode.renderLoop]

theorem renderLoop_cons {W V : Type} (tr : TypeRender W V) (str : Node → String)
    (child : Node) (rest : List Node) (store : V) (s : String) (st : RenderState W) :
    ConcatenationNode.renderLoop tr str (child :: rest) store s st =
      if (retrieveRenderedNode tr str child store st).2.renderer.error
          ≠ RenderErrorType.NONE then
        (Node.nil, (retrieveRenderedNode tr str child store st).2)
      else if (retrieveRenderedNode tr str child store st).2.renderer.control
          ≠ Control.NONE then
        (Node.ofString (s ++ str (retrieveRenderedNode tr str child store st).1),
          (retrieveRenderedNode tr str child store st).2.leave)
      else
        ConcatenationNode.renderLoop tr str rest store
          (s ++ str (retrieveRenderedNode tr str child store st).1)
          (retrieveRenderedNode tr str child store st).2 := by
  simp [ConcatenationNode.renderLoop]

theorem render_of_budget {W V : Type} (tr : TypeRender W V) (str : Node → String)
    (cs : List Node) (store : V) (st : RenderState W)
    (hdepth : st.renderer.currentRenderingDepth < st.renderer.maximumRenderingDepth) :
    ConcatenationNode.render tr str cs store st =
      ConcatenationNode.renderLoop tr str cs store "" st.enter := by
  have h : ¬ st.enter.renderer.currentRenderingDepth > st.enter.renderer.maximumRenderingDepth := by
    simp only [RenderState.enter]; omega
  simp [ConcatenationNode.render, ConcatenationNode.renderGuard, h]

/-- In a run where no child leaves an error or a control signal, the loop
appends the text of every rendered child to its accumulator. -/
theorem renderLoop_quiet {W V : Type} (tr : TypeRender W V) (str : Node → String)
    (cs : List Node) (store : V) (s : String) (st : RenderState W)
    (hq : quiet tr str cs store st = true) :
    ConcatenationNode.renderLoop tr str cs store s st =
      (Node.ofString (s ++ String.join ((renderedChildren tr str cs store st).1.map str)),
        (renderedChildren tr str cs store st).2.leave) := by
  induction cs generalizing s st with
  | nil => simp [renderLoop_nil, renderedChildren, join_nil]
  | cons c rest ih =>
    simp only [quiet, Bool.and_eq_true, clean_iff] at hq
    obtain ⟨⟨he, hc⟩, hrest⟩ := hq
    rw [renderLoop_cons]
    simp only [he, hc, ne_eq, not_true_eq_false, if_false]
    rw [ih _ _ hrest]
    simp [renderedChildren, join_cons, String.append_assoc]

/-- The loop of the renderer of `context.h` appends the text of every child
value to its accumulator, and fails exactly when a child fails. -/
theorem Header.renderLoop_eq {S : Type} (vt : Variable S) (ur : Header.UserRender S)
    (str : Node → String) (ind : Header.Indeterminate)
    (cs : List Node) (store : Pointer) (s : String) (h : S) :
    Header.ConcatenationNode.renderLoop vt ur str ind cs store s h =
      (Header.renderedChildren vt ur str ind cs store h).map fun q =>
        (Node.ofString (s ++ String.join (q.1.map str)), q.2) := by
  induction cs generalizing s h with
  | nil => simp [Header.ConcatenationNode.renderLoop, Header.renderedChildren, join_nil]
  | cons c rest ih =>
    cases c with
    | leaf v =>
      simp only [Header.ConcatenationNode.renderLoop, Header.renderedChildren, ih]
      rcases hq : Header.renderedChildren vt ur str ind rest store h with _ | q
      · simp
      · simp [join_cons, String.append_assoc]
    | inner t ds =>
      simp only [Header.ConcatenationNode.renderLoop, Header.renderedChildren]
      rcases hr : Header.render vt ur str ind (Node.inner t ds) store h with _ | r
      · simp
      · simp only [Option.some_bind, ih]
        rcases hq : Header.renderedChildren vt ur str ind rest store r.2 with _ | q
        · simp [hq]
        · simp [hq, join_cons, String.append_assoc]

theorem Header.render_concatenation {S : Type} (vt : Variable S) (ur : Header.UserRender S)
    (str : Node → String) (ind : Header.Indeterminate)
    (cs : List Node) (store : Pointer) (h : S) :
    Header.render vt ur str ind (Node.inner NodeType.concatenation cs) store h =
      Header.ConcatenationNode.renderLoop vt ur str ind cs store "" h := by
  simp [Header.render]

theorem optimizeLoop_leaves (str : Node → String) (cs : List Node) (s : String)
    (newChildren : List Node) (hleaves : ∀ c ∈ cs, c.hasType = false) :
    ConcatenationNode.optimizeLoop str cs s newChildren =
      (s ++ String.join (cs.map str), newChildren) := by
  induction cs generalizing s with
  | nil => simp [ConcatenationNode.optimizeLoop, join_nil]
  | cons c rest ih =>
    have hc : c.hasType = false := hleaves c (List.mem_cons_self _ _)
    have hr : ∀ d ∈ rest, d.hasType = false := fun d hd => hleaves d (List.mem_cons_of_mem _ hd)
    simp [ConcatenationNode.optimizeLoop, hc, ih _ hr, join_cons, String.append_assoc]

theorem optimize_of_budget {W : Type} (str : Node → String) (type : NodeType)
    (cs : List Node) (st : RenderState W)
    (hdepth : st.renderer.currentRenderingDepth < st.renderer.maximumRenderingDepth) :
    ConcatenationNode.optimize str type cs st =
      if (ConcatenationNode.optimizeLoop str cs "" []).2.length = 0 then
        (true, Node.ofString (ConcatenationNode.optimizeLoop str cs "" []).1, st)
      else
        (true, Node.inner type ((ConcatenationNode.optimizeLoop str cs "" []).2 ++
          [Node.ofString (ConcatenationNode.optimizeLoop str cs "" []).1]), st) := by
  have h : ¬ st.enter.renderer.currentRenderingDepth > st.enter.renderer.maximumRenderingDepth := by
    simp only [RenderState.enter]; omega
  simp only [ConcatenationNode.optimize, h, if_false, enter_leave]

/-! ## Rendering a concatenation (C1 to C5) -/

/-- Entered with nothing pending, children that set nothing leave nothing
pending. -/
theorem quiet_of_noChildSets {W V : Type} (tr : TypeRender W V) (str : Node → String)
    (cs : List Node) (store : V) (st : RenderState W) (hclean : st.clean = true)
    (hsets : noChildSets tr str cs store st = true) : quiet tr str cs store st = true := by
  induction cs generalizing st with
  | nil => rfl
  | cons c rest ih =>
    obtain ⟨he, hc⟩ := (clean_iff st).1 hclean
    simp only [noChildSets, he, hc, Bool.or_self, Bool.and_eq_true, decide_eq_true_eq] at hsets
    have hafter : (retrieveRenderedNode tr str c store st).2.clean = true :=
      (clean_iff _).2 ⟨hsets.1.1, hsets.1.2⟩
    simp only [quiet, hafter, Bool.true_and]
    exact ih _ hafter hsets.2

/-- C1, as the claim states it, fails: entered with the control signal `BREAK`
pending and budget left, the leaves `"a"`, `"b"` set nothing, and the render
of `context.cpp` returns `"a"` (the test behind the first child returns),
while the concatenation of the children is `"ab"`, which is also what the
renderer of `context.h` returns. -/
theorem concatenation_render_joins_children_counterexample :
    (sampleState 0 5 Control.BREAK).renderer.currentRenderingDepth
        < (sampleState 0 5 Control.BREAK).renderer.maximumRenderingDepth ∧
    noChildSets sampleRender Node.text [Node.ofString "a", Node.ofString "b"] ()
        (sampleState 0 5 Control.BREAK).enter = true ∧
    (renderedChildren sampleRender Node.text [Node.ofString "a", Node.ofString "b"] ()
        (sampleState 0 5 Control.BREAK).enter).2 = (sampleState 0 5 Control.BREAK).enter ∧
    String.join ((renderedChildren sampleRender Node.text [Node.ofString "a", Node.ofString "b"]
        () (sampleState 0 5 Control.BREAK).enter).1.map Node.text) = "ab" ∧
    (ConcatenationNode.render sampleRender Node.text [Node.ofString "a", Node.ofString "b"] ()
        (sampleState 0 5 Control.BREAK)).1 = Node.ofString "a" ∧
    (Header.render CPPVariable.vtable sampleUserRender Node.text sampleIndeterminate
        (Node.inner NodeType.concatenation [Node.ofString "a", Node.ofString "b"]) []
        CPPVariable.NIL).map Prod.fst = some (Node.ofString "ab") :=
  ⟨by decide, rfl, rfl, by decide, rfl, rfl⟩

/-- C1, amended: when the depth budget is not exhausted, the render is entered
with no error and no control signal pending, and no child sets a render error
or a control signal, `ConcatenationNode::render` of `context.cpp` returns the
string leaf whose text is the in-order concatenation of `getString()` of the
rendered children; the renderer of `context.h` returns the same concatenation
over the values its children render to (and fails only if a child does); so
whenever the children render to the same values in both, the two renderers
return the same string leaf. -/
theorem concatenation_render_joins_children {W V S : Type}
    (tr : TypeRender W V) (str : Node → String) (cs : List Node)
    (store : V) (st : RenderState W)
    (vt : Variable S) (ur : Header.UserRender S) (ind : Header.Indeterminate)
    (root : Pointer) (h : S)
    (hdepth : st.renderer.currentRenderingDepth < st.renderer.maximumRenderingDepth)
    (herror : st.renderer.error = RenderErrorType.NONE)
    (hcontrol : st.renderer.control = Control.NONE)
    (hsets : noChildSets tr str cs store st.enter = true) :
    ConcatenationNode.render tr str cs store st =
        (Node.ofString (String.join ((renderedChildren tr str cs store st.enter).1.map str)),
          (renderedChildren tr str cs store st.enter).2.leave) ∧
      Header.render vt ur str ind (Node.inner NodeType.concatenation cs) root h =
        ((Header.renderedChildren vt ur str ind cs root h).map fun q =>
          (Node.ofString (String.join (q.1.map str)), q.2)) ∧
      ∀ q, Header.renderedChildren vt ur str ind cs root h = some q →
        q.1 = (renderedChildren tr str cs store st.enter).1 →
        (Header.render vt ur str ind (Node.inner NodeType.concatenation cs) root h).map Prod.fst =
          some (ConcatenationNode.render tr str cs store st).1 := by
  have hentry : st.enter.clean = true :=
    (clean_iff _).2 ⟨by simpa [RenderState.enter] using herror,
      by simpa [RenderState.enter] using hcontrol⟩
  have hquiet := quiet_of_noChildSets tr str cs store st.enter hentry hsets
  have hnew := renderLoop_quiet tr str cs store "" st.enter hquiet
  rw [String.empty_append] at hnew
  have hold := Header.renderLoop_eq vt ur str ind cs root "" h
  simp only [String.empty_append] at hold
  refine ⟨?_, ?_, ?_⟩
  · rw [render_of_budget tr str cs store st hdepth, hnew]
  · rw [Header.render_concatenation, hold]
  · intro q hq hvals
    rw [Header.render_concatenation, hold, hq, render_of_budget tr str cs store st hdepth, hnew]
    simp [hvals]

/-- C1, concrete instance: `"a"`, the concatenation of `"b"`, `"c"` render to
`"abc"` in both renderers. -/
theorem concatenation_render_joins_children_witness :
    ((sampleState 0 5 Control.NONE).renderer.currentRenderingDepth
        < (sampleState 0 5 Control.NONE).renderer.maximumRenderingDepth ∧
      (sampleState 0 5 Control.NONE).renderer.error = RenderErrorType.NONE ∧
      (sampleState 0 5 Control.NONE).renderer.control = Control.NONE ∧
      noChildSets sampleRender Node.text sampleChildren ()
        (sampleState 0 5 Control.NONE).enter = true) ∧
    (ConcatenationNode.render sampleRender Node.text sampleChildren ()
        (sampleState 0 5 Control.NONE)).1 = Node.ofString "abc" ∧
    (Header.render CPPVariable.vtable sampleUserRender Node.text sampleIndeterminate
        (Node.inner NodeType.concatenation sampleChildren) [] CPPVariable.NIL).map Prod.fst =
      some (Node.ofString "abc") :=
  ⟨⟨by decide, rfl, rfl, rfl⟩,
    (congrArg Prod.fst (concatenation_render_joins_children sampleRender Node.text sampleChildren ()
      (sampleState 0 5 Control.NONE) CPPVariable.vtable sampleUserRender sampleIndeterminate []
      CPPVariable.NIL (by decide) rfl rfl rfl).1).trans rfl,
    rfl⟩

/-- In a clean state a leaf child only appends its text. -/
theorem renderLoop_leaf {W V : Type} (tr : TypeRender W V) (str : Node → String)
    (v : Variant) (rest : List Node) (store : V) (s : String) (st : RenderState W)
    (hclean : st.clean = true) :
    ConcatenationNode.renderLoop tr str (Node.leaf v :: rest) store s st =
      ConcatenationNode.renderLoop tr str rest store (s ++ str (Node.leaf v)) st := by
  obtain ⟨he, hc⟩ := (clean_iff st).1 hclean
  rw [renderLoop_cons, retrieve_leaf]
  simp [he, hc]

/-- Two lists of children that render alike from every clean state still do
so behind a common list of earlier children. -/
theorem renderLoop_behind {W V : Type} (tr : TypeRender W V) (str : Node → String)
    (xs ys : List Node) (store : V)
    (hxy : ∀ (t : String) (st : RenderState W), st.clean = true →
      ConcatenationNode.renderLoop tr str xs store t st =
        ConcatenationNode.renderLoop tr str ys store t st)
    (acc : List Node) (t : String) (st : RenderState W) (hclean : st.clean = true) :
    ConcatenationNode.renderLoop tr str (acc ++ xs) store t st =
      ConcatenationNode.renderLoop tr str (acc ++ ys) store t st := by
  induction acc generalizing t st with
  | nil => simpa using hxy t st hclean
  | cons a acc ih =>
    simp only [List.cons_append, renderLoop_cons]
    by_cases he : (retrieveRenderedNode tr str a store st).2.renderer.error
        = RenderErrorType.NONE
    · by_cases hc : (retrieveRenderedNode tr str a store st).2.renderer.control = Control.NONE
      · simp only [he, hc, ne_eq, not_true_eq_false, if_false]
        exact ih _ _ ((clean_iff _).2 ⟨he, hc⟩)
      · simp [he, hc]
    · simp [he]

/-- The vector `optimize` builds, closed by the leaf of the final accumulator,
renders from a clean state like the vector built so far, the accumulator as
a leaf, and the children still to come. -/
theorem renderLoop_optimizeLoop {W V : Type} (tr : TypeRender W V) (str : Node → String)
    (hstr : StringFaithful str) (store : V) (cs : List Node) (s : String) (acc : List Node)
    (t : String) (st : RenderState W) (hclean : st.clean = true) :
    ConcatenationNode.renderLoop tr str
        ((ConcatenationNode.optimizeLoop str cs s acc).2 ++
          [Node.ofString (ConcatenationNode.optimizeLoop str cs s acc).1]) store t st =
      ConcatenationNode.renderLoop tr str (acc ++ Node.ofString s :: cs) store t st := by
  induction cs generalizing s acc t st with
  | nil => simp [ConcatenationNode.optimizeLoop]
  | cons c rest ih =>
    cases c with
    | leaf v =>
      simp only [ConcatenationNode.optimizeLoop, Node.hasType, Bool.false_eq_true, if_false]
      rw [ih _ _ _ _ hclean]
      apply renderLoop_behind tr str _ _ store _ acc t st hclean
      intro t1 st1 h1
      simp only [Node.ofString]
      rw [renderLoop_leaf tr str _ _ store _ _ h1, renderLoop_leaf tr str _ _ store _ _ h1,
        renderLoop_leaf tr str _ _ store _ _ h1]
      have e1 := hstr (s ++ str (Node.leaf v))
      have e2 := hstr s
      simp only [Node.ofString] at e1 e2
      rw [e1, e2, String.append_assoc]
    | inner ty ds =>
      by_cases hs : s.isEmpty = true
      · have hs0 : s = "" := (String.isEmpty_iff s).mp hs
        subst hs0
        simp only [ConcatenationNode.optimizeLoop, Node.hasType, if_true]
        have hne : (!("" : String).isEmpty) = false := by decide
        simp only [hne, Bool.false_eq_true, if_false]
        rw [ih _ _ _ _ hclean, List.append_assoc]
        apply renderLoop_behind tr str _ _ store _ acc t st hclean
        intro t1 st1 h1
        have e0 := hstr ""
        simp only [Node.ofString] at e0
        simp only [List.singleton_append, Node.ofString]
        rw [renderLoop_leaf tr str _ _ store _ _ h1, e0, String.append_empty]
        conv_lhs => rw [renderLoop_cons]
        conv_rhs => rw [renderLoop_cons]
        by_cases he : (retrieveRenderedNode tr str (Node.inner ty ds) store st1).2.renderer.error
            = RenderErrorType.NONE
        · by_cases hc : (retrieveRenderedNode tr str (Node.inner ty ds) store
              st1).2.renderer.control = Control.NONE
          · simp only [he, hc, ne_eq, not_true_eq_false, if_false]
            rw [renderLoop_leaf tr str _ _ store _ _ ((clean_iff _).2 ⟨he, hc⟩), e0,
              String.append_empty]
          · simp [he, hc]
        · simp [he]
      · have hne : (!s.isEmpty) = true := by simpa using hs
        simp only [ConcatenationNode.optimizeLoop, Node.hasType, if_true, hne]
        rw [ih _ _ _ _ hclean, List.append_assoc, List.append_assoc]
        apply renderLoop_behind tr str _ _ store _ acc t st hclean
        intro t1 st1 h1
        simp only [List.singleton_append]
        apply renderLoop_behind tr str _ _ store _ [Node.ofString s, Node.inner ty ds] t1 st1 h1
        intro t2 st2 h2
        have e0 := hstr ""
        simp only [Node.ofString] at e0
        simp only [Node.ofString]
        rw [renderLoop_leaf tr str _ _ store _ _ h2, e0, String.append_empty]

theorem enter_clean {W : Type} (st : RenderState W) (hclean : st.clean = true) :
    st.enter.clean = true := by
  simpa [RenderState.clean, RenderState.enter] using hclean

/-- C2, as the claim states it, fails: entered with a control signal pending,
the original node `["a", "b"]` renders to `"a"` (the loop returns after its
first child), while the optimized node is the leaf `"ab"`. -/
theorem optimize_preserves_render_counterexample :
    (sampleState 0 5 Control.BREAK).renderer.currentRenderingDepth
        < (sampleState 0 5 Control.BREAK).renderer.maximumRenderingDepth ∧
    (ConcatenationNode.optimize Node.text NodeType.concatenation
        [Node.ofString "a", Node.ofString "b"] (sampleState 0 5 Control.BREAK)).1 = true ∧
    Node.text (retrieveRenderedNode sampleRender Node.text
        (ConcatenationNode.optimize Node.text NodeType.concatenation
          [Node.ofString "a", Node.ofString "b"] (sampleState 0 5 Control.BREAK)).2.1 ()
        (sampleState 0 5 Control.BREAK)).1 = "ab" ∧
    Node.text (ConcatenationNode.render sampleRender Node.text
        [Node.ofString "a", Node.ofString "b"] () (sampleState 0 5 Control.BREAK)).1 = "a" :=
  ⟨by decide, rfl, rfl, rfl⟩

/-- C2, amended: for every concatenation node and store, with the depth budget
not exhausted and the render entered with no error and no control signal
pending, `ConcatenationNode::optimize` returns `true` and leaves the renderer
as it was, and rendering the optimized node returns the same node (hence the
same string) and the same final state as rendering the original node. -/
theorem optimize_preserves_render {W V : Type} (tr : TypeRender W V) (str : Node → String)
    (cs : List Node) (store : V) (st : RenderState W)
    (hstr : StringFaithful str)
    (hdepth : st.renderer.currentRenderingDepth < st.renderer.maximumRenderingDepth)
    (herror : st.renderer.error = RenderErrorType.NONE)
    (hcontrol : st.renderer.control = Control.NONE) :
    (ConcatenationNode.optimize str NodeType.concatenation cs st).1 = true ∧
      (ConcatenationNode.optimize str NodeType.concatenation cs st).2.2 = st ∧
      retrieveRenderedNode tr str
          (ConcatenationNode.optimize str NodeType.concatenation cs st).2.1 store st =
        ConcatenationNode.render tr str cs store st := by
  have hclean : st.clean = true := (clean_iff st).2 ⟨herror, hcontrol⟩
  have hec := enter_clean st hclean
  have key := renderLoop_optimizeLoop tr str hstr store cs "" [] "" st.enter hec
  have e0 := hstr ""
  simp only [Node.ofString] at e0
  have hrhs : ConcatenationNode.renderLoop tr str ([] ++ Node.ofString "" :: cs) store "" st.enter
      = ConcatenationNode.renderLoop tr str cs store "" st.enter := by
    simp only [List.nil_append, Node.ofString]
    rw [renderLoop_leaf tr str _ _ store _ _ hec, e0, String.append_empty]
  rw [hrhs] at key
  rw [optimize_of_budget str NodeType.concatenation cs st hdepth,
    render_of_budget tr str cs store st hdepth]
  by_cases hlen : (ConcatenationNode.optimizeLoop str cs "" []).2.length = 0
  · simp only [hlen, if_true, true_and]
    have hnil : (ConcatenationNode.optimizeLoop str cs "" []).2 = [] :=
      List.length_eq_zero.mp hlen
    rw [hnil] at key
    simp only [List.nil_append, Node.ofString] at key
    rw [renderLoop_leaf tr str _ _ store _ _ hec, renderLoop_nil] at key
    have e1 := hstr (ConcatenationNode.optimizeLoop str cs "" []).1
    simp only [Node.ofString] at e1
    rw [e1, String.empty_append, enter_leave] at key
    simp only [Node.ofString, retrieve_leaf]
    exact key
  · simp only [hlen, if_false, true_and]
    rw [retrieve_concatenation, render_of_budget tr str _ store st hdepth]
    exact key

/-- C2, concrete instance: `"a"`, a nested concatenation of `"b"`, `"c"`. -/
theorem optimize_preserves_render_witness :
    (StringFaithful Node.text ∧
      (sampleState 0 5 Control.NONE).renderer.currentRenderingDepth
        < (sampleState 0 5 Control.NONE).renderer.maximumRenderingDepth ∧
      (sampleState 0 5 Control.NONE).renderer.error = RenderErrorType.NONE ∧
      (sampleState 0 5 Control.NONE).renderer.control = Control.NONE) ∧
    ((ConcatenationNode.optimize Node.text NodeType.concatenation sampleChildren
        (sampleState 0 5 Control.NONE)).1 = true ∧
      (ConcatenationNode.optimize Node.text NodeType.concatenation sampleChildren
        (sampleState 0 5 Control.NONE)).2.2 = sampleState 0 5 Control.NONE ∧
      retrieveRenderedNode sampleRender Node.text
          (ConcatenationNode.optimize Node.text NodeType.concatenation sampleChildren
            (sampleState 0 5 Control.NONE)).2.1 () (sampleState 0 5 Control.NONE) =
        ConcatenationNode.render sampleRender Node.text sampleChildren ()
          (sampleState 0 5 Control.NONE)) :=
  ⟨⟨text_faithful, by decide, rfl, rfl⟩,
    optimize_preserves_render sampleRender Node.text sampleChildren ()
      (sampleState 0 5 Control.NONE) text_faithful (by decide) rfl rfl⟩

theorem render_exhausted {W V : Type} (tr : TypeRender W V) (str : Node → String)
    (cs : List Node) (store : V) (st : RenderState W)
    (hdepth : st.renderer.maximumRenderingDepth ≤ st.renderer.currentRenderingDepth) :
    ConcatenationNode.render tr str cs store st =
      (Node.nil, st.setError RenderErrorType.EXCEEDED_DEPTH) := by
  have h : st.enter.renderer.currentRenderingDepth > st.enter.renderer.maximumRenderingDepth := by
    simp only [RenderState.enter]; omega
  simp [ConcatenationNode.render, ConcatenationNode.renderGuard, h, enter_leave]

mutual
/-- A tree of concatenations and leaves rendered from a clean state: within
the budget the state is left as it was, beyond it the depth error is set. -/
theorem retrieve_onlyConcatenations {W V : Type} (tr : TypeRender W V) (str : Node → String)
    (store : V) : ∀ (n : Node), n.onlyConcatenations = true →
      ∀ (st : RenderState W), st.clean = true →
        st.renderer.currentRenderingDepth ≤ st.renderer.maximumRenderingDepth →
        (st.renderer.currentRenderingDepth + n.concatenationDepth
              ≤ st.renderer.maximumRenderingDepth →
            (retrieveRenderedNode tr str n store st).2 = st) ∧
          (st.renderer.maximumRenderingDepth
              < st.renderer.currentRenderingDepth + n.concatenationDepth →
            (retrieveRenderedNode tr str n store st).2.renderer.error
              = RenderErrorType.EXCEEDED_DEPTH)
  | Node.leaf v, _, st, _, hb => by
    simp only [retrieve_leaf, Node.concatenationDepth, Nat.add_zero, implies_true, true_and]
    intro h
    omega
  | Node.inner NodeType.concatenation cs, hn, st, hclean, hb => by
    have hcs : Node.allOnlyConcatenations cs = true := by
      simpa [Node.onlyConcatenations] using hn
    rw [retrieve_concatenation]
    simp only [Node.concatenationDepth]
    by_cases hd : st.renderer.currentRenderingDepth < st.renderer.maximumRenderingDepth
    · rw [render_of_budget tr str cs store st hd]
      have ih := renderLoop_onlyConcatenations tr str store cs hcs "" st.enter
        (enter_clean st hclean) (by simp only [RenderState.enter]; omega)
      have he : st.enter.renderer.currentRenderingDepth = st.renderer.currentRenderingDepth + 1 := rfl
      have hm : st.enter.renderer.maximumRenderingDepth = st.renderer.maximumRenderingDepth := rfl
      rw [he, hm, enter_leave] at ih
      constructor
      · intro hle
        exact ih.1 (by omega)
      · intro hlt
        exact ih.2 (by omega)
    · rw [render_exhausted tr str cs store st (by omega)]
      constructor
      · intro hle
        omega
      · intro _
        rfl
  | Node.inner NodeType.output _, hn, _, _, _ => by simp [Node.onlyConcatenations] at hn
  | Node.inner NodeType.variable _, hn, _, _, _ => by simp [Node.onlyConcatenations] at hn
  | Node.inner NodeType.namedVariable _, hn, _, _, _ => by simp [Node.onlyConcatenations] at hn
  | Node.inner NodeType.group _, hn, _, _, _ => by simp [Node.onlyConcatenations] at hn
  | Node.inner NodeType.arguments _, hn, _, _, _ => by simp [Node.onlyConcatenations] at hn
  | Node.inner (NodeType.registered _) _, hn, _, _, _ => by simp [Node.onlyConcatenations] at hn
/-- The loop over children that are trees of concatenations and leaves. -/
theorem renderLoop_onlyConcatenations {W V : Type} (tr : TypeRender W V) (str : Node → String)
    (store : V) : ∀ (cs : List Node), Node.allOnlyConcatenations cs = true →
      ∀ (s : String) (st : RenderState W), st.clean = true →
        st.renderer.currentRenderingDepth ≤ st.renderer.maximumRenderingDepth →
        (st.renderer.currentRenderingDepth + Node.maxConcatenationDepth cs
              ≤ st.renderer.maximumRenderingDepth →
            (ConcatenationNode.renderLoop tr str cs store s st).2 = st.leave) ∧
          (st.renderer.maximumRenderingDepth
              < st.renderer.currentRenderingDepth + Node.maxConcatenationDepth cs →
            (ConcatenationNode.renderLoop tr str cs store s st).2.renderer.error
              = RenderErrorType.EXCEEDED_DEPTH)
  | [], _, s, st, _, hb => by
    simp only [renderLoop_nil, Node.maxConcatenationDepth, Nat.add_zero, implies_true, true_and]
    intro h
    omega
  | c :: rest, hcs, s, st, hclean, hb => by
    have hc : c.onlyConcatenations = true ∧ Node.allOnlyConcatenations rest = true := by
      simpa [Node.allOnlyConcatenations] using hcs
    have ihc := retrieve_onlyConcatenations tr str store c hc.1 st hclean hb
    obtain ⟨he, hk⟩ := (clean_iff st).1 hclean
    rw [renderLoop_cons]
    simp only [Node.maxConcatenationDepth]
    by_cases hd : st.renderer.currentRenderingDepth + c.concatenationDepth
        ≤ st.renderer.maximumRenderingDepth
    · have hst := ihc.1 hd
      rw [hst]
      simp only [he, hk, ne_eq, not_true_eq_false, if_false]
      have ihr := renderLoop_onlyConcatenations tr str store rest hc.2
        (s ++ str (retrieveRenderedNode tr str c store st).1) st hclean hb
      constructor
      · intro hle
        exact ihr.1 (by omega)
      · intro hlt
        exact ihr.2 (by omega)
    · have herr := ihc.2 (by omega)
      simp only [herr, ne_eq, reduceCtorEq, not_false_eq_true, if_true]
      constructor
      · intro hle
        omega
      · intro _
        trivial
end

/-- C3, as the claim states it, fails: from depth 0 with no error but a control
signal pending, the tree `["a", []]` is two concatenations deep, the budget
is 1, and the render ends with no error, because the root returns after
its first child. -/
theorem depth_error_counterexample :
    sampleNested.onlyConcatenations = true ∧
    (sampleState 0 1 Control.BREAK).renderer.currentRenderingDepth = 0 ∧
    (sampleState 0 1 Control.BREAK).renderer.error = RenderErrorType.NONE ∧
    (sampleState 0 1 Control.BREAK).renderer.maximumRenderingDepth
      < sampleNested.concatenationDepth ∧
    (retrieveRenderedNode sampleRender Node.text sampleNested ()
      (sampleState 0 1 Control.BREAK)).2.renderer.error = RenderErrorType.NONE :=
  ⟨rfl, rfl, rfl, by decide, rfl⟩

/-- C3, amended: a tree made only of concatenation nodes and leaves, rendered
from `currentRenderingDepth = 0` with `error = NONE` and `control = NONE`,
ends with `error = EXCEEDED_DEPTH` if and only if some path of it holds more
than `maximumRenderingDepth` concatenation nodes, and otherwise `error` stays
`NONE`; and `ConcatenationNode::render` entered with `currentRenderingDepth =
maximumRenderingDepth` returns the nil node and changes nothing in the state
but `error`, which it sets to `EXCEEDED_DEPTH`. -/
theorem depth_error_iff {W V : Type} (tr : TypeRender W V) (str : Node → String)
    (store : V) (n : Node) (st : RenderState W)
    (hn : n.onlyConcatenations = true)
    (hdepth : st.renderer.currentRenderingDepth = 0)
    (herror : st.renderer.error = RenderErrorType.NONE)
    (hcontrol : st.renderer.control = Control.NONE) :
    ((retrieveRenderedNode tr str n store st).2.renderer.error = RenderErrorType.EXCEEDED_DEPTH ↔
        st.renderer.maximumRenderingDepth < n.concatenationDepth) ∧
      (¬ st.renderer.maximumRenderingDepth < n.concatenationDepth →
        (retrieveRenderedNode tr str n store st).2.renderer.error = RenderErrorType.NONE) ∧
      ∀ (cs : List Node) (st1 : RenderState W),
        st1.renderer.currentRenderingDepth = st1.renderer.maximumRenderingDepth →
        ConcatenationNode.render tr str cs store st1 =
          (Node.nil, st1.setError RenderErrorType.EXCEEDED_DEPTH) := by
  have hclean : st.clean = true := (clean_iff st).2 ⟨herror, hcontrol⟩
  have h := retrieve_onlyConcatenations tr str store n hn st hclean (by omega)
  rw [hdepth, Nat.zero_add] at h
  refine ⟨⟨?_, h.2⟩, ?_, ?_⟩
  · intro hex
    by_contra hlt
    have hst := h.1 (by omega)
    rw [hst, herror] at hex
    exact absurd hex (by decide)
  · intro hlt
    rw [h.1 (by omega), herror]
  · intro cs st1 h1
    exact render_exhausted tr str cs store st1 (by omega)

/-- C3, concrete instance: the tree `["a", []]` against a budget of 1. -/
theorem depth_error_iff_witness :
    (sampleNested.onlyConcatenations = true ∧
      (sampleState 0 1 Control.NONE).renderer.currentRenderingDepth = 0 ∧
      (sampleState 0 1 Control.NONE).renderer.error = RenderErrorType.NONE ∧
      (sampleState 0 1 Control.NONE).renderer.control = Control.NONE) ∧
    ((retrieveRenderedNode sampleRender Node.text sampleNested ()
        (sampleState 0 1 Control.NONE)).2.renderer.error = RenderErrorType.EXCEEDED_DEPTH ↔
      (sampleState 0 1 Control.NONE).renderer.maximumRenderingDepth
        < sampleNested.concatenationDepth) :=
  ⟨⟨rfl, rfl, rfl, rfl⟩,
    (depth_error_iff sampleRender Node.text () sampleNested (sampleState 0 1 Control.NONE)
      rfl rfl rfl rfl).1⟩

theorem renderedChildren_append {W V : Type} (tr : TypeRender W V) (str : Node → String)
    (xs ys : List Node) (store : V) (st : RenderState W) :
    renderedChildren tr str (xs ++ ys) store st =
      ((renderedChildren tr str xs store st).1 ++
          (renderedChildren tr str ys store (renderedChildren tr str xs store st).2).1,
        (renderedChildren tr str ys store (renderedChildren tr str xs store st).2).2) := by
  induction xs generalizing st with
  | nil => simp [renderedChildren]
  | cons x xs ih => simp [renderedChildren, ih]

/-- Behind leading children none of which leaves an error or a control
signal, the loop goes on with their text appended. -/
theorem renderLoop_append_quiet {W V : Type} (tr : TypeRender W V) (str : Node → String)
    (pre xs : List Node) (store : V) (s : String) (st : RenderState W)
    (hq : quiet tr str pre store st = true) :
    ConcatenationNode.renderLoop tr str (pre ++ xs) store s st =
      ConcatenationNode.renderLoop tr str xs store
        (s ++ String.join ((renderedChildren tr str pre store st).1.map str))
        (renderedChildren tr str pre store st).2 := by
  induction pre generalizing s st with
  | nil => simp [renderedChildren, join_nil]
  | cons c rest ih =>
    simp only [quiet, Bool.and_eq_true, clean_iff] at hq
    obtain ⟨⟨he, hc⟩, hrest⟩ := hq
    rw [List.cons_append, renderLoop_cons]
    simp only [he, hc, ne_eq, not_true_eq_false, if_false]
    rw [ih _ _ hrest]
    simp [renderedChildren, join_cons, String.append_assoc]

theorem join_append_singleton (l : List String) (a : String) :
    String.join (l ++ [a]) = String.join l ++ a := by
  induction l with
  | nil => simp [join_cons, join_nil]
  | cons b l ih => simp [join_cons, ih, String.append_assoc]

/-- C4, as the claim states it, fails: in `["a", []]` against a budget of 1
the second child sets `EXCEEDED_DEPTH` after the text `"a"` has been
accumulated, and the render returns the nil node, whose text is empty. -/
theorem render_error_counterexample :
    quiet sampleRender Node.text [Node.ofString "a"] ()
        (sampleState 0 1 Control.NONE).enter = true ∧
    String.join ((renderedChildren sampleRender Node.text [Node.ofString "a"] ()
        (sampleState 0 1 Control.NONE).enter).1.map Node.text) = "a" ∧
    (retrieveRenderedNode sampleRender Node.text (Node.inner NodeType.concatenation []) ()
        (sampleState 0 1 Control.NONE).enter).2.renderer.error
      = RenderErrorType.EXCEEDED_DEPTH ∧
    (ConcatenationNode.render sampleRender Node.text
        [Node.ofString "a", Node.inner NodeType.concatenation []] ()
        (sampleState 0 1 Control.NONE)).1 = Node.nil ∧
    Node.text (ConcatenationNode.render sampleRender Node.text
        [Node.ofString "a", Node.inner NodeType.concatenation []] ()
        (sampleState 0 1 Control.NONE)).1 = "" :=
  ⟨rfl, rfl, rfl, rfl, rfl⟩

/-- C4, amended: when, after children that leave no error and no control
signal, rendering a child sets a render error, `ConcatenationNode::render`
halts there and returns the nil node: the text accumulated so far is dropped.
The error, the control signal, the return value and the host state are those
that child left, whatever the later children are. -/
theorem render_error_halts {W V : Type} (tr : TypeRender W V) (str : Node → String)
    (pre : List Node) (c : Node) (post : List Node) (store : V) (st : RenderState W)
    (hdepth : st.renderer.currentRenderingDepth < st.renderer.maximumRenderingDepth)
    (hpre : quiet tr str pre store st.enter = true)
    (herror : (retrieveRenderedNode tr str c store
        (renderedChildren tr str pre store st.enter).2).2.renderer.error
          ≠ RenderErrorType.NONE) :
    (ConcatenationNode.render tr str (pre ++ c :: post) store st).1 = Node.nil ∧
      (ConcatenationNode.render tr str (pre ++ c :: post) store st).2.renderer.error =
        (retrieveRenderedNode tr str c store
          (renderedChildren tr str pre store st.enter).2).2.renderer.error ∧
      (ConcatenationNode.render tr str (pre ++ c :: post) store st).2.renderer.control =
        (retrieveRenderedNode tr str c store
          (renderedChildren tr str pre store st.enter).2).2.renderer.control ∧
      (ConcatenationNode.render tr str (pre ++ c :: post) store st).2.renderer.returnValue =
        (retrieveRenderedNode tr str c store
          (renderedChildren tr str pre store st.enter).2).2.renderer.returnValue ∧
      (ConcatenationNode.render tr str (pre ++ c :: post) store st).2.world =
        (retrieveRenderedNode tr str c store
          (renderedChildren tr str pre store st.enter).2).2.world := by
  rw [render_of_budget tr str _ store st hdepth, renderLoop_append_quiet tr str pre _ store _ _ hpre,
    renderLoop_cons]
  simp [herror]

/-- C4, concrete instance: in `["a", [], "b"]` against a budget of 1 the
second child sets `EXCEEDED_DEPTH`; the render returns the nil node with that
error set. -/
theorem render_error_halts_witness :
    ((sampleState 0 1 Control.NONE).renderer.currentRenderingDepth
        < (sampleState 0 1 Control.NONE).renderer.maximumRenderingDepth ∧
      quiet sampleRender Node.text [Node.ofString "a"] ()
        (sampleState 0 1 Control.NONE).enter = true ∧
      (retrieveRenderedNode sampleRender Node.text (Node.inner NodeType.concatenation []) ()
        (renderedChildren sampleRender Node.text [Node.ofString "a"] ()
          (sampleState 0 1 Control.NONE).enter).2).2.renderer.error ≠ RenderErrorType.NONE) ∧
    (ConcatenationNode.render sampleRender Node.text
        ([Node.ofString "a"] ++ Node.inner NodeType.concatenation [] :: [Node.ofString "b"]) ()
        (sampleState 0 1 Control.NONE)).1 = Node.nil ∧
    (ConcatenationNode.render sampleRender Node.text
        ([Node.ofString "a"] ++ Node.inner NodeType.concatenation [] :: [Node.ofString "b"]) ()
        (sampleState 0 1 Control.NONE)).2.renderer.error = RenderErrorType.EXCEEDED_DEPTH :=
  ⟨⟨by decide, rfl, by decide⟩,
    (render_error_halts sampleRender Node.text [Node.ofString "a"]
      (Node.inner NodeType.concatenation []) [Node.ofString "b"] ()
      (sampleState 0 1 Control.NONE) (by decide) rfl (by decide)).1,
    (render_error_halts sampleRender Node.text [Node.ofString "a"]
      (Node.inner NodeType.concatenation []) [Node.ofString "b"] ()
      (sampleState 0 1 Control.NONE) (by decide) rfl (by decide)).2.1.trans rfl⟩

/-- C5: when, after children that leave no error and no control signal,
rendering child `i` leaves `control` other than `NONE` and `error` at `NONE`,
`ConcatenationNode::render` renders none of the later children (the state it
returns is the state child `i` left, with the depth counter taken back) and
returns the string leaf made of the renders of children `0..i` in order. -/
theorem render_control_halts {W V : Type} (tr : TypeRender W V) (str : Node → String)
    (pre : List Node) (c : Node) (post : List Node) (store : V) (st : RenderState W)
    (hdepth : st.renderer.currentRenderingDepth < st.renderer.maximumRenderingDepth)
    (hpre : quiet tr str pre store st.enter = true)
    (herror : (retrieveRenderedNode tr str c store
        (renderedChildren tr str pre store st.enter).2).2.renderer.error
          = RenderErrorType.NONE)
    (hcontrol : (retrieveRenderedNode tr str c store
        (renderedChildren tr str pre store st.enter).2).2.renderer.control
          ≠ Control.NONE) :
    ConcatenationNode.render tr str (pre ++ c :: post) store st =
      (Node.ofString
          (String.join ((renderedChildren tr str (pre ++ [c]) store st.enter).1.map str)),
        (retrieveRenderedNode tr str c store
          (renderedChildren tr str pre store st.enter).2).2.leave) := by
  rw [render_of_budget tr str _ store st hdepth, renderLoop_append_quiet tr str pre _ store _ _ hpre,
    renderLoop_cons]
  simp [herror, hcontrol, renderedChildren_append, renderedChildren, join_append_singleton]

/-- C5, concrete instance: in `["a", break, "b"]` the tag raises `BREAK`, and
the render returns `"ax"` without the `"b"`. -/
theorem render_control_halts_witness :
    ((sampleState 0 5 Control.NONE).renderer.currentRenderingDepth
        < (sampleState 0 5 Control.NONE).renderer.maximumRenderingDepth ∧
      quiet sampleBreak Node.text [Node.ofString "a"] ()
        (sampleState 0 5 Control.NONE).enter = true ∧
      (retrieveRenderedNode sampleBreak Node.text (Node.inner (NodeType.registered 0) []) ()
        (renderedChildren sampleBreak Node.text [Node.ofString "a"] ()
          (sampleState 0 5 Control.NONE).enter).2).2.renderer.error = RenderErrorType.NONE ∧
      (retrieveRenderedNode sampleBreak Node.text (Node.inner (NodeType.registered 0) []) ()
        (renderedChildren sampleBreak Node.text [Node.ofString "a"] ()
          (sampleState 0 5 Control.NONE).enter).2).2.renderer.control ≠ Control.NONE) ∧
    (ConcatenationNode.render sampleBreak Node.text
        ([Node.ofString "a"] ++ Node.inner (NodeType.registered 0) [] :: [Node.ofString "b"]) ()
        (sampleState 0 5 Control.NONE)).1 = Node.ofString "ax" :=
  ⟨⟨by decide, rfl, rfl, by decide⟩,
    (congrArg Prod.fst (render_control_halts sampleBreak Node.text [Node.ofString "a"]
      (Node.inner (NodeType.registered 0) []) [Node.ofString "b"] ()
      (sampleState 0 5 Control.NONE) (by decide) rfl rfl (by decide))).trans rfl⟩

/-! ## Variable chains over a `CPPVariable` store (C6 to C9) -/

theorem replaceKey_find (d : List (String × CPPVariable)) (k : String) (c : CPPVariable)
    (h : CPPVariable.find d k = some c) : CPPVariable.replaceKey d k c = d := by
  induction d with
  | nil => rfl
  | cons e rest ih =>
    obtain ⟨k1, v1⟩ := e
    by_cases hk : k1 = k
    · simp only [CPPVariable.find, hk, if_true, Option.some.injEq] at h
      simp [CPPVariable.replaceKey, hk, h]
    · simp only [CPPVariable.find, hk, if_false] at h
      simp [CPPVariable.replaceKey, hk, ih h]

theorem set_of_getElem? {α : Type} (a : List α) (i : Nat) (c : α) (h : a[i]? = some c) :
    a.set i c = a := by
  induction a generalizing i with
  | nil => rfl
  | cons x xs ih =>
    cases i with
    | zero =>
      simp only [List.getElem?_cons_zero, Option.some.injEq] at h
      simp [h]
    | succ j =>
      simp only [List.getElem?_cons_succ] at h
      simp [ih j h]

/-- Writing back the object a pointer addresses leaves the store as it is. -/
theorem store_deref (p : Pointer) : ∀ (root obj : CPPVariable),
    CPPVariable.deref root p = some obj → CPPVariable.store root p obj = root := by
  induction p with
  | nil =>
    intro root obj h
    simp only [CPPVariable.deref, Option.some.injEq] at h
    simp [CPPVariable.store, h]
  | cons l p ih =>
    intro root obj h
    cases l with
    | key k =>
      cases root with
      | DICTIONARY d =>
        simp only [CPPVariable.deref] at h
        rcases hf : CPPVariable.find d k with _ | c
        · simp [hf] at h
        · simp only [hf, Option.some_bind] at h
          simp [CPPVariable.store, hf, ih c obj h, replaceKey_find d k c hf]
      | NIL => simp [CPPVariable.store]
      | FLOAT f => simp [CPPVariable.store]
      | INT i => simp [CPPVariable.store]
      | STRING s => simp [CPPVariable.store]
      | ARRAY a => simp [CPPVariable.store]
    | index i =>
      cases root with
      | ARRAY a =>
        simp only [CPPVariable.deref] at h
        rcases hf : a[i]? with _ | c
        · simp [hf] at h
        · simp only [hf, Option.some_bind] at h
          simp only [CPPVariable.store, hf, ih c obj h, set_of_getElem? a i c hf]
      | NIL => simp [CPPVariable.store]
      | FLOAT f => simp [CPPVariable.store]
      | INT i => simp [CPPVariable.store]
      | STRING s => simp [CPPVariable.store]
      | DICTIONARY d => simp [CPPVariable.store]

theorem deref_append (p q : Pointer) : ∀ (root : CPPVariable),
    CPPVariable.deref root (p ++ q) =
      (CPPVariable.deref root p).bind fun obj => CPPVariable.deref obj q := by
  induction p with
  | nil => intro root; simp [CPPVariable.deref]
  | cons l p ih =>
    intro root
    cases l with
    | key k =>
      cases root <;> simp only [List.cons_append, CPPVariable.deref, Option.none_bind]
      rename_i d
      rcases hf : CPPVariable.find d k with _ | c
      · simp
      · simp [ih c]
    | index i =>
      cases root <;> simp only [List.cons_append, CPPVariable.deref, Option.none_bind]
      rename_i a
      rcases hf : a[i]? with _ | c
      · simp
      · simp [ih c]

theorem toSizeT_natCast (i : Nat) (h : i < 2 ^ 64) : toSizeT (i : Int) = i := by
  unfold toSizeT
  have h1 : ((i : Int) % (2 : Int) ^ 64) = (i : Int) := by
    apply Int.emod_eq_of_lt
    · omega
    · have : ((2 : Int) ^ 64) = ((2 ^ 64 : Nat) : Int) := by norm_num
      rw [this]
      exact_mod_cast h
  rw [h1]
  simp

/-- A link that names an existing step moves `storePointer` to the entry and
leaves the store as it is. -/
theorem step_existing (root obj child : CPPVariable) (p : Pointer) (l : Link)
    (hp : CPPVariable.deref root p = some obj)
    (hl : CPPVariable.deref obj [l] = some child)
    (hidx : ∀ i, l = Link.index i → i < 2 ^ 63) :
    Header.VariableNode.step CPPVariable.vtable (linkLeaf l) (some p) root =
      some (some (p ++ [l]), root) := by
  cases l with
  | key k =>
    cases obj with
    | DICTIONARY d =>
      simp only [CPPVariable.deref] at hl
      rcases hf : CPPVariable.find d k with _ | c
      · simp [hf] at hl
      · simp [Header.VariableNode.step, linkLeaf, CPPVariable.vtable, hp,
          CPPVariable.getDictionaryVariable, CPPVariable.getType, CPPVariable.subscriptKey, hf,
          store_deref p root _ hp]
    | NIL => simp [CPPVariable.deref] at hl
    | FLOAT f => simp [CPPVariable.deref] at hl
    | INT i => simp [CPPVariable.deref] at hl
    | STRING s => simp [CPPVariable.deref] at hl
    | ARRAY a => simp [CPPVariable.deref] at hl
  | index i =>
    have hi : i < 2 ^ 63 := hidx i rfl
    cases obj with
    | ARRAY a =>
      simp only [CPPVariable.deref] at hl
      rcases hf : a[i]? with _ | c
      · simp [hf] at hl
      · have hlt : i < a.length := (List.getElem?_eq_some.mp hf).1
        have hmod : (i + 1) % 18446744073709551616 = i + 1 := Nat.mod_eq_of_lt (by omega)
        have hnot : ¬ a.length < i + 1 := by omega
        simp [Header.VariableNode.step, linkLeaf, CPPVariable.vtable, hp,
          CPPVariable.getArrayVariable, CPPVariable.getType, CPPVariable.subscriptIndex,
          toSizeT_natCast i (by omega), hmod, hnot, hlt, store_deref p root _ hp]
    | NIL => simp [CPPVariable.deref] at hl
    | FLOAT f => simp [CPPVariable.deref] at hl
    | INT i => simp [CPPVariable.deref] at hl
    | STRING s => simp [CPPVariable.deref] at hl
    | DICTIONARY d => simp [CPPVariable.deref] at hl

/-- Along an existing path the loop of `VariableNode::render` ends with
`storePointer` at the end of the path and the store as it was. -/
theorem variable_loop_existing (ur : Header.UserRender CPPVariable) (str : Node → String)
    (ind : Header.Indeterminate) (root : CPPVariable) (store : Pointer) (links : List Link) :
    ∀ (p : Pointer) (obj v : CPPVariable),
      CPPVariable.deref root p = some obj → CPPVariable.deref obj links = some v →
      (∀ i, Link.index i ∈ links → i < 2 ^ 63) →
      Header.VariableNode.renderLoop CPPVariable.vtable ur str ind (links.map linkLeaf) store
          (some p) root = some (some (p ++ links), root) ∧
        CPPVariable.deref root (p ++ links) = some v := by
  induction links with
  | nil =>
    intro p obj v hp hl _
    simp only [CPPVariable.deref, Option.some.injEq] at hl
    simp [Header.VariableNode.renderLoop, hp, hl]
  | cons l rest ih =>
    intro p obj v hp hl hidx
    have hsplit := deref_append [l] rest obj
    simp only [List.singleton_append] at hsplit
    rw [hsplit] at hl
    rcases hc : CPPVariable.deref obj [l] with _ | child
    · simp [hc] at hl
    · simp only [hc, Option.some_bind] at hl
      have hstep := step_existing root obj child p l hp hc
        (fun i hi => hidx i (by simp [hi]))
      have hp1 : CPPVariable.deref root (p ++ [l]) = some child := by
        rw [deref_append, hp]
        simpa using hc
      have hrest := ih (p ++ [l]) child v hp1 hl
        (fun i hi => hidx i (List.mem_cons_of_mem _ hi))
      have hleaf : ∃ w, linkLeaf l = Node.leaf w := by
        cases l with
        | key k => exact ⟨_, rfl⟩
        | index i => exact ⟨_, rfl⟩
      obtain ⟨w, hw⟩ := hleaf
      rw [hw] at hstep
      simp only [List.map_cons, hw, Header.VariableNode.renderLoop, hstep, Option.some_bind]
      simpa using hrest

/-- C6: over a `CPPVariable` store, a `VARIABLE` node whose children are the
int and string leaves of a path that exists in the store (every string link a
present key of a dictionary, every int link an index inside an array and,
being a `long long`, below `2 ^ 63`) renders to the leaf holding the value at
the end of the path: the int variant for INT, the string variant for STRING,
nil for NIL, the pointer to the variable for ARRAY and DICTIONARY; the store
is left as it was. -/
theorem variable_render_existing_path (ur : Header.UserRender CPPVariable)
    (str : Node → String) (ind : Header.Indeterminate)
    (store : CPPVariable) (links : List Link) (v : CPPVariable) (n : Node)
    (hpath : CPPVariable.deref store links = some v)
    (hidx : ∀ i, Link.index i ∈ links → i < 2 ^ 63)
    (hleaf : CPPVariable.leafAt links v = some n) :
    Header.render CPPVariable.vtable ur str ind
        (Node.inner NodeType.variable (links.map linkLeaf)) [] store = some (n, store) := by
  have hloop := variable_loop_existing ur str ind store [] links [] store v rfl hpath hidx
  simp only [List.nil_append] at hloop
  simp only [Header.render, hloop.1, Option.some_bind]
  cases v with
  | NIL =>
    simp only [CPPVariable.leafAt, Option.some.injEq] at hleaf
    simp [Header.VariableNode.result, CPPVariable.vtable, hloop.2, CPPVariable.getType, hleaf]
  | INT i =>
    simp only [CPPVariable.leafAt, Option.some.injEq] at hleaf
    simp [Header.VariableNode.result, CPPVariable.vtable, hloop.2, CPPVariable.getType,
      CPPVariable.getInteger, hleaf]
  | STRING t =>
    simp only [CPPVariable.leafAt, Option.some.injEq] at hleaf
    simp [Header.VariableNode.result, CPPVariable.vtable, hloop.2, CPPVariable.getType,
      CPPVariable.getString, hleaf]
  | ARRAY a =>
    simp only [CPPVariable.leafAt, Option.some.injEq] at hleaf
    simp [Header.VariableNode.result, CPPVariable.vtable, hloop.2, CPPVariable.getType, hleaf]
  | DICTIONARY d =>
    simp only [CPPVariable.leafAt, Option.some.injEq] at hleaf
    simp [Header.VariableNode.result, CPPVariable.vtable, hloop.2, CPPVariable.getType, hleaf]
  | FLOAT f => simp [CPPVariable.leafAt] at hleaf

/-- C6, concrete instance: the chain `a`, `b`, `1`, `c` over
`{a: {b: [{c: "x"}, {c: "y"}]}}` renders to the string `"y"`. -/
theorem variable_render_existing_path_witness :
    (CPPVariable.deref sampleStore samplePath = some (CPPVariable.STRING "y") ∧
      (∀ i, Link.index i ∈ samplePath → i < 2 ^ 63) ∧
      CPPVariable.leafAt samplePath (CPPVariable.STRING "y") = some (Node.ofString "y")) ∧
    Header.render CPPVariable.vtable sampleUserRender Node.text sampleIndeterminate
        (Node.inner NodeType.variable (samplePath.map linkLeaf)) [] sampleStore =
      some (Node.ofString "y", sampleStore) :=
  ⟨⟨rfl, by simp [samplePath], rfl⟩,
    variable_render_existing_path sampleUserRender Node.text sampleIndeterminate sampleStore
      samplePath (CPPVariable.STRING "y") (Node.ofString "y") rfl (by simp [samplePath]) rfl⟩

/-- C7 (code evaluated at the failing inputs): once a link has failed and
`storePointer` is null, a following string or int link calls
`getDictionaryVariable` or `getArrayVariable` through the null pointer. Over
`{a: 1}` the chain `a.b` renders to nil, and the chain `a.b.c` does not
complete; over a store with the default `Variable` methods the chain `a.b`
does not complete. -/
theorem variable_render_after_failed_link :
    (∀ (S : Type) (vt : Variable S) (k : String) (h : S),
      Header.VariableNode.step vt (Node.leaf (Variant.string k)) none h = none) ∧
    (∀ (S : Type) (vt : Variable S) (i : Int) (h : S),
      Header.VariableNode.step vt (Node.leaf (Variant.int i)) none h = none) ∧
    Header.render CPPVariable.vtable sampleUserRender Node.text sampleIndeterminate
        (Node.inner NodeType.variable [Node.ofString "a", Node.ofString "b"]) []
        (CPPVariable.DICTIONARY [("a", CPPVariable.INT 1)]) =
      some (Node.nil, CPPVariable.DICTIONARY [("a", CPPVariable.INT 1)]) ∧
    Header.render CPPVariable.vtable sampleUserRender Node.text sampleIndeterminate
        (Node.inner NodeType.variable [Node.ofString "a", Node.ofString "b", Node.ofString "c"])
        [] (CPPVariable.DICTIONARY [("a", CPPVariable.INT 1)]) = none ∧
    Header.render (Variable.base Unit) (fun _ _ _ _ => none) Node.text sampleIndeterminate
        (Node.inner NodeType.variable [Node.ofString "a", Node.ofString "b"]) [] () = none :=
  ⟨fun _ _ _ _ => rfl, fun _ _ _ _ => rfl, rfl, rfl, rfl⟩

/-- C8 (code evaluated): a `CPPVariable` assigned the float `x` reports type
FLOAT and its `getFloat` returns `true`, but the caller's target is returned
as it came in, and a chain ending at the variable renders to the float variant
of the uninitialised local of `VariableNode::render`, whatever `x` is. -/
theorem getFloat_keeps_target (this : CPPVariable) (x target : Double)
    (ur : Header.UserRender CPPVariable) (str : Node → String) (ind : Header.Indeterminate) :
    (this.assignFloat x).getType = VariableType.FLOAT ∧
      (this.assignFloat x).getFloat target = (true, target) ∧
      Header.render CPPVariable.vtable ur str ind (Node.inner NodeType.variable []) []
          (this.assignFloat x) =
        some (Node.leaf (Variant.float ind.f), this.assignFloat x) ∧
      Header.render CPPVariable.vtable ur str ind
          (Node.inner NodeType.variable [Node.ofString "k"]) []
          (CPPVariable.DICTIONARY [("k", this.assignFloat x)]) =
        some (Node.leaf (Variant.float ind.f),
          CPPVariable.DICTIONARY [("k", this.assignFloat x)]) :=
  ⟨rfl, rfl, rfl, rfl⟩

/-- C9: for all strings `p`, `s`, `k`, `v`, the AST
`Concatenation[p, Output[Arguments[Variable[k]]], s]` rendered against the
`CPPVariable` dictionary `{k: v}` yields the string leaf `p ++ v ++ s`, and
leaves the store as it was. -/
theorem hello_render (ur : Header.UserRender CPPVariable) (str : Node → String)
    (ind : Header.Indeterminate) (p s k v : String) (hstr : StringFaithful str) :
    Header.render CPPVariable.vtable ur str ind
        (Node.inner NodeType.concatenation
          [Node.ofString p,
            Node.inner NodeType.output
              [Node.inner NodeType.arguments [Node.inner NodeType.variable [Node.ofString k]]],
            Node.ofString s]) []
        (CPPVariable.DICTIONARY [(k, CPPVariable.STRING v)]) =
      some (Node.ofString (p ++ v ++ s), CPPVariable.DICTIONARY [(k, CPPVariable.STRING v)]) := by
  have hloop := variable_loop_existing ur str ind
    (CPPVariable.DICTIONARY [(k, CPPVariable.STRING v)]) [] [Link.key k] []
    (CPPVariable.DICTIONARY [(k, CPPVariable.STRING v)]) (CPPVariable.STRING v) rfl
    (by simp [CPPVariable.deref, CPPVariable.find]) (by simp)
  have hvar : Header.render CPPVariable.vtable ur str ind
      (Node.inner NodeType.variable ([Link.key k].map linkLeaf)) []
      (CPPVariable.DICTIONARY [(k, CPPVariable.STRING v)]) =
        some (Node.ofString v, CPPVariable.DICTIONARY [(k, CPPVariable.STRING v)]) := by
    simp only [List.nil_append] at hloop
    simp only [Header.render, hloop.1, Option.some_bind]
    simp [Header.VariableNode.result, CPPVariable.vtable, hloop.2,
      CPPVariable.getType, CPPVariable.getString, Node.ofString]
  simp only [List.map_cons, List.map_nil, linkLeaf] at hvar
  have hp := hstr p
  have hv := hstr v
  have hs := hstr s
  simp only [Node.ofString] at hp hv hs hvar ⊢
  simp only [Header.render, Header.ConcatenationNode.renderLoop, hvar, Option.some_bind,
    hp, hv, hs, String.empty_append]
  simp only [Header.render] at hvar
  rw [hvar]
  simp only [Option.some_bind, hv, Node.ofString]

/-- C9, concrete instance: `"Hello, {{ name }}!"` with `{name: "World"}`. -/
theorem hello_render_witness :
    StringFaithful Node.text ∧
    Header.render CPPVariable.vtable sampleUserRender Node.text sampleIndeterminate
        (Node.inner NodeType.concatenation
          [Node.ofString "Hello, ",
            Node.inner NodeType.output
              [Node.inner NodeType.arguments
                [Node.inner NodeType.variable [Node.ofString "name"]]],
            Node.ofString "!"]) []
        (CPPVariable.DICTIONARY [("name", CPPVariable.STRING "World")]) =
      some (Node.ofString "Hello, World!",
        CPPVariable.DICTIONARY [("name", CPPVariable.STRING "World")]) :=
  ⟨text_faithful,
    (hello_render sampleUserRender Node.text sampleIndeterminate "Hello, " "!" "name" "World"
      text_faithful).trans rfl⟩

/-! ## The concatenation optimizer (C10) -/

/-- C10: for a concatenation node all of whose children are leaves (none
included), with the depth budget not exhausted, `ConcatenationNode::optimize`
returns `true` and replaces the node by the single string leaf holding the
in-order concatenation of the children's `getString()`; the renderer state
is as before. -/
theorem optimize_all_leaves {W : Type} (str : Node → String) (type : NodeType)
    (cs : List Node) (st : RenderState W)
    (hdepth : st.renderer.currentRenderingDepth < st.renderer.maximumRenderingDepth)
    (hleaves : ∀ c ∈ cs, c.hasType = false) :
    ConcatenationNode.optimize str type cs st =
      (true, Node.ofString (String.join (cs.map str)), st) := by
  rw [optimize_of_budget str type cs st hdepth, optimizeLoop_leaves str cs "" [] hleaves]
  simp

/-- C10, concrete instance: the leaves `"a"`, `"b"` fold into the leaf `"ab"`. -/
theorem optimize_all_leaves_witness :
    ((sampleState 0 5 Control.NONE).renderer.currentRenderingDepth
        < (sampleState 0 5 Control.NONE).renderer.maximumRenderingDepth ∧
      ∀ c ∈ [Node.ofString "a", Node.ofString "b"], c.hasType = false) ∧
    ConcatenationNode.optimize Node.text NodeType.concatenation
        [Node.ofString "a", Node.ofString "b"] (sampleState 0 5 Control.NONE) =
      (true, Node.ofString (String.join ([Node.ofString "a", Node.ofString "b"].map Node.text)),
        sampleState 0 5 Control.NONE) :=
  ⟨⟨by decide, by simp [Node.hasType, Node.ofString]⟩,
    optimize_all_leaves Node.text NodeType.concatenation [Node.ofString "a", Node.ofString "b"]
      (sampleState 0 5 Control.NONE) (by decide) (by simp [Node.hasType, Node.ofString])⟩

/-! ## Registered node types, the registry and the operator types (C12 to C19) -/

/-- C12: `VariableNode::optimize` returns `false` exactly when the variable
that `getVariable` looks up for the chain of the node does not exist, and then
leaves the node untouched; otherwise it returns `true` and replaces the node by
the leaf holding `parseVariant` of the resolved variable. -/
theorem variable_optimize_iff_exists {W V : Type} (ops : RendererOps W V)
    (node : Node) (store : V) (st : RenderState W) :
    ((VariableNode.optimize ops node store st).1 = false ↔
        ops.variableExists (ops.getVariable node store st).1 = false) ∧
      (VariableNode.optimize ops node store st).1 =
        ops.variableExists (ops.getVariable node store st).1 ∧
      (VariableNode.optimize ops node store st).2.1 =
        (if ops.variableExists (ops.getVariable node store st).1 then
          Node.leaf (ops.parseVariant (ops.getVariable node store st).1
            (ops.getVariable node store st).2).1
        else node) := by
  cases hex : ops.variableExists (ops.getVariable node store st).1 <;>
    simp [VariableNode.optimize, hex]

/-- C13, as the claim states it, fails: a node whose type has no render
function cannot be rendered to a value, and the default `optimize` still
returns `true` and replaces the node, here by the nil node. -/
theorem default_optimize_counterexample :
    NodeType.optimize (NodeType.render sampleSilentType) sampleUnfoldable ()
        (sampleState 0 5 Control.NONE) =
      (true, Node.nil, sampleState 0 5 Control.NONE) ∧
    (NodeType.optimize (NodeType.render sampleSilentType) sampleUnfoldable ()
        (sampleState 0 5 Control.NONE)).1 ≠ false ∧
    Node.hasType (NodeType.optimize (NodeType.render sampleSilentType) sampleUnfoldable ()
        (sampleState 0 5 Control.NONE)).2.1 = false ∧
    sampleUnfoldable.hasType = true :=
  ⟨rfl, by decide, rfl, rfl⟩

/-- C13, amended: the default `NodeType::optimize` always returns `true` and
always replaces the node by the node that rendering it against the store
returns, in the state that render leaves; for a type rendered by
`NodeType::render` that node is the nil node when no render function is set
and the return value of the callback otherwise. -/
theorem default_optimize_always_folds {W V D : Type}
    (render : Node → V → RenderState W → Node × RenderState W)
    (self : RegisteredType W V D) (node : Node) (store : V) (st : RenderState W) :
    NodeType.optimize render node store st =
        (true, (render node store st).1, (render node store st).2) ∧
      (NodeType.optimize render node store st).1 ≠ false ∧
      NodeType.optimize (NodeType.render self) node store st =
        (true, (NodeType.render self node store st).1, (NodeType.render self node store st).2) :=
  ⟨rfl, by simp [NodeType.optimize], rfl⟩

/-- C14: registration is last-write-wins per exact symbol. After
`registerType(t1)` then `registerType(t2)` of two tag types with the same
symbol `getTagType(symbol)` returns `t2`, and likewise for two operator types
and `getOperatorType`; every other symbol keeps the result it had before, so
in a context that held nothing it finds nothing. -/
theorem registerType_last_write_wins (ctx : Header.Context) (t1 t2 : Header.NodeTypeObject)
    (hsymbol : t1.symbol = t2.symbol) :
    (t1.type.isTag = true → t2.type.isTag = true →
        ((ctx.registerType t1).bind fun c => c.registerType t2).map
          (fun c => c.getTagType t2.symbol) = some (some t2)) ∧
      (t1.type = Header.NodeTypeType.OPERATOR → t2.type = Header.NodeTypeType.OPERATOR →
        ((ctx.registerType t1).bind fun c => c.registerType t2).map
          (fun c => c.getOperatorType t2.symbol) = some (some t2)) ∧
      (∀ (s : String) (c : Header.Context), s ≠ t2.symbol →
        ((ctx.registerType t1).bind fun c => c.registerType t2) = some c →
          c.getTagType s = ctx.getTagType s ∧ c.getOperatorType s = ctx.getOperatorType s) ∧
      (∀ (s : String) (c : Header.Context), s ≠ t2.symbol →
        ((Header.Context.empty.registerType t1).bind fun c => c.registerType t2) = some c →
          c.getTagType s = none ∧ c.getOperatorType s = none) := by
  have frame : ∀ (c0 c : Header.Context) (s : String), s ≠ t2.symbol →
      ((c0.registerType t1).bind fun c => c.registerType t2) = some c →
        c.getTagType s = c0.getTagType s ∧ c.getOperatorType s = c0.getOperatorType s := by
    intro c0 c s hs hc
    have hs1 : s ≠ t1.symbol := by rw [hsymbol]; exact hs
    cases h1 : t1.type <;> cases h2 : t2.type <;>
      simp [Header.Context.registerType, h1, h2] at hc <;>
      subst hc <;>
      simp [Header.Context.getTagType, Header.Context.getOperatorType, hs, hs1]
  refine ⟨?_, ?_, ?_, ?_⟩
  · intro h1 h2
    cases h1t : t1.type <;> simp [h1t, Header.NodeTypeType.isTag] at h1 <;>
      cases h2t : t2.type <;> simp [h2t, Header.NodeTypeType.isTag] at h2 <;>
      simp [Header.Context.registerType, h1t, h2t, Header.Context.getTagType]
  · intro h1 h2
    simp [Header.Context.registerType, h1, h2, Header.Context.getOperatorType]
  · intro s c hs hc
    exact frame ctx c s hs hc
  · intro s c hs hc
    exact frame Header.Context.empty c s hs hc

/-- C14, concrete instance: `if` registered twice; the lookup of `if` returns
the second type and the lookup of `If` returns nothing. -/
theorem registerType_last_write_wins_witness :
    sampleIfEnclosed.symbol = sampleIfFree.symbol ∧
    ((Header.Context.empty.registerType sampleIfEnclosed).bind fun c =>
        c.registerType sampleIfFree).map (fun c => c.getTagType "if") =
      some (some sampleIfFree) ∧
    ((Header.Context.empty.registerType sampleIfEnclosed).bind fun c =>
        c.registerType sampleIfFree).map (fun c => c.getTagType "If") = some none :=
  ⟨rfl,
    (registerType_last_write_wins Header.Context.empty sampleIfEnclosed sampleIfFree rfl).1
      rfl rfl,
    rfl⟩

/-- C17: an operator type built by `OperatorNodeType(symbol, arity, priority,
fixness)` has kind OPERATOR, the given symbol, and `maxChildren` 0 for NONARY,
1 for UNARY, 2 for BINARY and -1 for NARY; priority and fixness are stored as
given, and default to 0 and INFIX. -/
theorem operatorNodeType_new (symbol : String) (arity : Header.OperatorNodeType.Arity)
    (priority : Int) (fixness : Header.OperatorNodeType.Fixness) :
    (Header.OperatorNodeType.new symbol arity priority fixness).type
        = Header.NodeTypeType.OPERATOR ∧
      (Header.OperatorNodeType.new symbol arity priority fixness).symbol = symbol ∧
      (Header.OperatorNodeType.new symbol arity priority fixness).arity = arity ∧
      (Header.OperatorNodeType.new symbol arity priority fixness).maxChildren =
        (match arity with
          | Header.OperatorNodeType.Arity.NONARY => 0
          | Header.OperatorNodeType.Arity.UNARY => 1
          | Header.OperatorNodeType.Arity.BINARY => 2
          | Header.OperatorNodeType.Arity.NARY => -1) ∧
      (Header.OperatorNodeType.new symbol arity priority fixness).priority = priority ∧
      (Header.OperatorNodeType.new symbol arity priority fixness).fixness = fixness ∧
      (Header.OperatorNodeType.newDefault symbol arity).priority = 0 ∧
      (Header.OperatorNodeType.newDefault symbol arity).fixness
        = Header.OperatorNodeType.Fixness.INFIX ∧
      (Header.OperatorNodeType.newDefault symbol arity).maxChildren =
        (Header.OperatorNodeType.new symbol arity priority fixness).maxChildren := by
  cases arity <;> simp [Header.OperatorNodeType.new, Header.OperatorNodeType.newDefault]

/-- C19: `NodeType::render` of a type without a user render function returns
the nil node and leaves the state (return value, error, control, depth, host)
as it was; with a render function `f` it returns the `returnValue` of the
state that one call `f(renderer, node, store, userData)` on the entry state
leaves, and that state is the state after the render. -/
theorem nodeType_render_calls_once {W V D : Type} (f : UserRenderFunction W V D)
    (userData : D) (node : Node) (store : V) (st : RenderState W) :
    NodeType.render { userRenderFunction := none, userData := userData } node store st =
        (Node.nil, st) ∧
      NodeType.render { userRenderFunction := some f, userData := userData } node store st =
        ((f st node store userData).renderer.returnValue, f st node store userData) :=
  ⟨rfl, rfl⟩

theorem toInt_of_lt (n : Nat) (h : n < 2 ^ 31) : toInt n = (n : Int) := by
  unfold toInt
  have h1 : ((n : Int) + 2 ^ 31) % 2 ^ 32 = (n : Int) + 2 ^ 31 := by
    apply Int.emod_eq_of_lt <;> omega
  omega

/-- C18: for a node whose ARGUMENTS group sits at child 0 (tag) or child 1
(any other kind) and holds `n` children, `n` fitting an `int`:
`getArgumentCount` returns `n`; for `0 <= idx < n`, `getArgument(idx)` returns
what rendering the `idx`-th child of the group returns; and for `idx >= n` it
returns the nil node and leaves the state as it was. -/
theorem getArgument_spec {W V : Type} (tags : TypeTags) (tr : TypeRender W V)
    (str : Node → String) (t ta : NodeType) (cs args : List Node) (store : V)
    (st : RenderState W)
    (hgroup : cs[if tags.isTag t then 0 else 1]? = some (Node.inner ta args))
    (harguments : tags.isArguments ta = true)
    (hfit : args.length < 2 ^ 31) :
    NodeType.getArgumentCount tags (Node.inner t cs) = some (args.length : Int) ∧
      (∀ (idx : Nat) (c : Node), args[idx]? = some c →
        NodeType.getArgument tags tr str (Node.inner t cs) store (idx : Int) st =
          some (retrieveRenderedNode tr str c store st)) ∧
      (∀ idx : Int, (args.length : Int) ≤ idx →
        NodeType.getArgument tags tr str (Node.inner t cs) store idx st =
          some (Node.nil, st)) := by
  have hg : argumentsGroup tags (Node.inner t cs) = some (ta, args) := by
    simp [argumentsGroup, hgroup]
  refine ⟨?_, ?_, ?_⟩
  · simp [NodeType.getArgumentCount, hg, harguments, toInt_of_lt _ hfit]
  · intro idx c hc
    have hlt : idx < args.length := (List.getElem?_eq_some.mp hc).1
    have h1 : ¬ ((args.length : Int) ≤ (idx : Int)) := by omega
    have h2 : ¬ ((idx : Int) < 0) := by omega
    simp [NodeType.getArgument, hg, harguments, toInt_of_lt _ hfit, h1, h2, hc]
  · intro idx hidx
    simp [NodeType.getArgument, hg, toInt_of_lt _ hfit, hidx]

/-- C18, concrete instance: the tag node with the arguments `"x"` and the
concatenation of `"y"` has two arguments, the second renders to `"y"`, and
the argument of index 2 is the nil node. -/
theorem getArgument_spec_witness :
    ([Node.inner NodeType.arguments sampleArguments][
        if sampleTags.isTag (NodeType.registered 0) then 0 else 1]? =
        some (Node.inner NodeType.arguments sampleArguments) ∧
      sampleTags.isArguments NodeType.arguments = true ∧
      sampleArguments.length < 2 ^ 31) ∧
    NodeType.getArgumentCount sampleTags sampleTagNode = some 2 ∧
    (NodeType.getArgument sampleTags sampleRender Node.text sampleTagNode () 1
        (sampleState 0 5 Control.NONE)).map Prod.fst = some (Node.ofString "y") ∧
    NodeType.getArgument sampleTags sampleRender Node.text sampleTagNode () 2
        (sampleState 0 5 Control.NONE) = some (Node.nil, sampleState 0 5 Control.NONE) :=
  ⟨⟨rfl, rfl, by decide⟩,
    (getArgument_spec sampleTags sampleRender Node.text (NodeType.registered 0)
      NodeType.arguments [Node.inner NodeType.arguments sampleArguments] sampleArguments ()
      (sampleState 0 5 Control.NONE) rfl rfl (by decide)).1.trans rfl,
    rfl,
    (getArgument_spec sampleTags sampleRender Node.text (NodeType.registered 0)
      NodeType.arguments [Node.inner NodeType.arguments sampleArguments] sampleArguments ()
      (sampleState 0 5 Control.NONE) rfl rfl (by decide)).2.2 2 (by decide)⟩

/-! ## The depth counter (C20) -/

/-- The loop of `ConcatenationNode::render` over children that leave the depth
counter as they find it returns either with the counter decremented once, or,
when a child has set an error, with the counter as the loop found it. -/
theorem renderLoop_depth {W V : Type} (tr : TypeRender W V) (str : Node → String)
    (cs : List Node) (store : V)
    (hkeep : ∀ c ∈ cs, ∀ st : RenderState W,
      (retrieveRenderedNode tr str c store st).2.renderer.currentRenderingDepth =
        st.renderer.currentRenderingDepth)
    (s : String) (st : RenderState W) :
    (ConcatenationNode.renderLoop tr str cs store s st).2.renderer.currentRenderingDepth =
        st.renderer.currentRenderingDepth - 1 ∨
      ((ConcatenationNode.renderLoop tr str cs store s st).2.renderer.error
          ≠ RenderErrorType.NONE ∧
        (ConcatenationNode.renderLoop tr str cs store s st).2.renderer.currentRenderingDepth =
          st.renderer.currentRenderingDepth) := by
  induction cs generalizing s st with
  | nil => exact Or.inl (by simp [renderLoop_nil, RenderState.leave])
  | cons c rest ih =>
    have hc := hkeep c (List.mem_cons_self _ _) st
    have hrest : ∀ d ∈ rest, ∀ st : RenderState W,
        (retrieveRenderedNode tr str d store st).2.renderer.currentRenderingDepth =
          st.renderer.currentRenderingDepth :=
      fun d hd => hkeep d (List.mem_cons_of_mem _ hd)
    rw [renderLoop_cons]
    by_cases he : (retrieveRenderedNode tr str c store st).2.renderer.error
        = RenderErrorType.NONE
    · by_cases hk : (retrieveRenderedNode tr str c store st).2.renderer.control = Control.NONE
      · simp only [he, hk, ne_eq, not_true_eq_false, if_false]
        have := ih hrest (s ++ str (retrieveRenderedNode tr str c store st).1)
          (retrieveRenderedNode tr str c store st).2
        rw [hc] at this
        exact this
      · simp only [he, hk, ne_eq, not_true_eq_false, if_false, not_false_eq_true, if_true]
        exact Or.inl (by simp [RenderState.leave, hc])
    · simp only [he, ne_eq, not_false_eq_true, if_true]
      exact Or.inr ⟨trivial, hc⟩

/-- Over children that leave the depth counter as they find it,
`ConcatenationNode::render` returns with the counter at its entry value on
every path but one: when a child has set an error the counter is one above
its entry value. -/
theorem render_depth_balanced_unless_error {W V : Type} (tr : TypeRender W V)
    (str : Node → String) (cs : List Node) (store : V) (st : RenderState W)
    (hkeep : ∀ c ∈ cs, ∀ st : RenderState W,
      (retrieveRenderedNode tr str c store st).2.renderer.currentRenderingDepth =
        st.renderer.currentRenderingDepth) :
    (ConcatenationNode.render tr str cs store st).2.renderer.currentRenderingDepth =
        st.renderer.currentRenderingDepth ∨
      ((ConcatenationNode.render tr str cs store st).2.renderer.error ≠ RenderErrorType.NONE ∧
        (ConcatenationNode.render tr str cs store st).2.renderer.currentRenderingDepth =
          st.renderer.currentRenderingDepth + 1) := by
  by_cases hd : st.renderer.currentRenderingDepth < st.renderer.maximumRenderingDepth
  · rw [render_of_budget tr str cs store st hd]
    rcases renderLoop_depth tr str cs store hkeep "" st.enter with h | h
    · exact Or.inl (by rw [h]; simp [RenderState.enter])
    · exact Or.inr ⟨h.1, by rw [h.2]; simp [RenderState.enter]⟩
  · rw [render_exhausted tr str cs store st (by omega)]
    exact Or.inl rfl

/-- C20 (code evaluated at the failing input): the concatenation `[[]]` is
entered at depth 0 with a budget of 1. Its child, an empty concatenation,
finds the depth at 1, sets `EXCEEDED_DEPTH` and leaves the depth at 1; the
outer render then returns through `return Node()` of line 67 with the depth
still at 1, not at its entry value 0. -/
theorem depth_after_child_error :
    (sampleState 0 1 Control.NONE).renderer.currentRenderingDepth = 0 ∧
    (sampleState 0 1 Control.NONE).enter.renderer.currentRenderingDepth = 1 ∧
    (retrieveRenderedNode sampleRender Node.text (Node.inner NodeType.concatenation []) ()
        (sampleState 0 1 Control.NONE).enter).2.renderer.currentRenderingDepth = 1 ∧
    (retrieveRenderedNode sampleRender Node.text (Node.inner NodeType.concatenation []) ()
        (sampleState 0 1 Control.NONE).enter).2.renderer.error
      = RenderErrorType.EXCEEDED_DEPTH ∧
    (ConcatenationNode.render sampleRender Node.text
        [Node.inner NodeType.concatenation []] ()
        (sampleState 0 1 Control.NONE)).2.renderer.currentRenderingDepth = 1 :=
  ⟨rfl, rfl, rfl, rfl, rfl⟩

/-! ## Lookups in a `CPPVariable` (C15) -/

/-- C15 (code evaluated at the failing inputs): `getDictionaryVariable` of a
key that is absent from an empty dictionary returns `true` and leaves a
dictionary that holds the key; `getArrayVariable(3)` on an empty array
returns `true` and leaves an array of length 4; and rendering the chain `a`
over the empty dictionary leaves the store `{a: nil}`. -/
theorem lookup_creates_entry :
    (∀ key : String,
      (CPPVariable.DICTIONARY []).getDictionaryVariable key =
        some (true, CPPVariable.DICTIONARY [(key, CPPVariable.NIL)])) ∧
    (CPPVariable.DICTIONARY []).keys = [] ∧
    (∀ key : String, (CPPVariable.DICTIONARY [(key, CPPVariable.NIL)]).keys = [key]) ∧
    (CPPVariable.ARRAY []).getArrayVariable 3 =
      some (true, CPPVariable.ARRAY
        [CPPVariable.NIL, CPPVariable.NIL, CPPVariable.NIL, CPPVariable.NIL]) ∧
    (CPPVariable.ARRAY []).size = 0 ∧
    (CPPVariable.ARRAY
      [CPPVariable.NIL, CPPVariable.NIL, CPPVariable.NIL, CPPVariable.NIL]).size = 4 ∧
    Header.render CPPVariable.vtable sampleUserRender Node.text sampleIndeterminate
        (Node.inner NodeType.variable [Node.ofString "a"]) [] (CPPVariable.DICTIONARY []) =
      some (Node.nil, CPPVariable.DICTIONARY [("a", CPPVariable.NIL)]) :=
  ⟨fun _ => rfl, rfl, fun _ => rfl, rfl, rfl, rfl, rfl⟩

/-! ## The shape of an optimized concatenation (C11) -/

theorem unsegment_segments (cs : List Node) :
    unsegment (segments cs).1 (segments cs).2 = cs := by
  induction cs with
  | nil => rfl
  | cons c rest ih =>
    by_cases hc : c.hasType = true
    · simp [segments, hc, unsegment, ih]
    · simp only [segments, hc, Bool.false_eq_true, if_false]
      rcases hs : (segments rest).1 with _ | ⟨⟨run, x⟩, more⟩
      · rw [hs] at ih
        simp only [unsegment] at ih ⊢
        rw [ih]
      · rw [hs] at ih
        simp only [unsegment, List.cons_append] at ih ⊢
        rw [ih]

/-- The runs of `segments` hold leaves only, and each is followed by a
non-leaf child. -/
theorem segments_shape (cs : List Node) :
    (∀ p ∈ (segments cs).1, (∀ c ∈ p.1, c.hasType = false) ∧ p.2.hasType = true) ∧
      ∀ c ∈ (segments cs).2, c.hasType = false := by
  induction cs with
  | nil => simp [segments]
  | cons c rest ih =>
    by_cases hc : c.hasType = true
    · simp only [segments, hc, if_true]
      refine ⟨?_, ih.2⟩
      intro p hp
      rcases List.mem_cons.mp hp with h | h
      · subst h
        simp [hc]
      · exact ih.1 p h
    · have hc0 : c.hasType = false := by simpa using hc
      simp only [segments, hc, Bool.false_eq_true, if_false]
      rcases hs : (segments rest).1 with _ | ⟨⟨run, x⟩, more⟩
      · simp only [List.not_mem_nil, false_implies, implies_true, true_and]
        intro d hd
        rcases List.mem_cons.mp hd with h | h
        · subst h
          exact hc0
        · exact ih.2 d h
      · rw [hs] at ih
        refine ⟨?_, ih.2⟩
        intro p hp
        rcases List.mem_cons.mp hp with h | h
        · subst h
          have h0 := ih.1 (run, x) (List.mem_cons_self _ _)
          refine ⟨?_, h0.2⟩
          intro d hd
          rcases List.mem_cons.mp hd with h1 | h1
          · subst h1
            exact hc0
          · exact h0.1 d h1
        · exact ih.1 p (List.mem_cons_of_mem _ h)

theorem optimizeLoop_append_leaves (str : Node → String) (run ys : List Node) (s : String)
    (newChildren : List Node) (hleaves : ∀ c ∈ run, c.hasType = false) :
    ConcatenationNode.optimizeLoop str (run ++ ys) s newChildren =
      ConcatenationNode.optimizeLoop str ys (s ++ String.join (run.map str)) newChildren := by
  induction run generalizing s with
  | nil => simp [join_nil]
  | cons c rest ih =>
    have hc : c.hasType = false := hleaves c (List.mem_cons_self _ _)
    have hr : ∀ d ∈ rest, d.hasType = false := fun d hd => hleaves d (List.mem_cons_of_mem _ hd)
    simp [ConcatenationNode.optimizeLoop, hc, ih _ hr, join_cons, String.append_assoc]

/-- One run of leaves and the non-leaf child after it, met with an empty
accumulator. -/
theorem optimizeLoop_segment (str : Node → String) (run : List Node) (x : Node)
    (ys newChildren : List Node) (hleaves : ∀ c ∈ run, c.hasType = false)
    (hx : x.hasType = true) :
    ConcatenationNode.optimizeLoop str (run ++ x :: ys) "" newChildren =
      ConcatenationNode.optimizeLoop str ys "" (newChildren ++ foldText str run ++ [x]) := by
  rw [optimizeLoop_append_leaves str run _ _ _ hleaves, String.empty_append]
  by_cases he : (String.join (run.map str)).isEmpty = true
  · have h0 : String.join (run.map str) = "" := (String.isEmpty_iff _).mp he
    have hE : ("" : String).isEmpty = true := by decide
    simp [ConcatenationNode.optimizeLoop, hx, foldText, h0, hE]
  · simp [ConcatenationNode.optimizeLoop, hx, foldText, he]

theorem optimizeLoop_unsegment (str : Node → String) (segs : List (List Node × Node))
    (last newChildren : List Node)
    (hsegs : ∀ p ∈ segs, (∀ c ∈ p.1, c.hasType = false) ∧ p.2.hasType = true)
    (hlast : ∀ c ∈ last, c.hasType = false) :
    ConcatenationNode.optimizeLoop str (unsegment segs last) "" newChildren =
      (String.join (last.map str),
        newChildren ++ unsegment (segs.map fun p => (foldText str p.1, p.2)) []) := by
  induction segs generalizing newChildren with
  | nil =>
    simp only [unsegment, List.map_nil, List.append_nil]
    rw [optimizeLoop_leaves str last "" newChildren hlast, String.empty_append]
  | cons p more ih =>
    obtain ⟨run, x⟩ := p
    have hp := hsegs (run, x) (List.mem_cons_self _ _)
    have hmore : ∀ q ∈ more, (∀ c ∈ q.1, c.hasType = false) ∧ q.2.hasType = true :=
      fun q hq => hsegs q (List.mem_cons_of_mem _ hq)
    simp only [unsegment, List.map_cons]
    rw [optimizeLoop_segment str run x _ _ hp.1 hp.2, ih _ hmore]
    simp [List.append_assoc]

theorem unsegment_append (segs : List (List Node × Node)) (last extra : List Node) :
    unsegment segs last ++ extra = unsegment segs (last ++ extra) := by
  induction segs with
  | nil => rfl
  | cons p more ih =>
    obtain ⟨run, x⟩ := p
    simp [unsegment, ih]

theorem filter_unsegment (segs : List (List Node × Node)) (last : List Node)
    (hsegs : ∀ p ∈ segs, (∀ c ∈ p.1, c.hasType = false) ∧ p.2.hasType = true)
    (hlast : ∀ c ∈ last, c.hasType = false) :
    (unsegment segs last).filter Node.hasType = segs.map Prod.snd := by
  have hnone : ∀ l : List Node, (∀ c ∈ l, c.hasType = false) → l.filter Node.hasType = [] := by
    intro l hl
    simp only [List.filter_eq_nil_iff]
    intro c hc
    simp [hl c hc]
  induction segs with
  | nil => simpa [unsegment] using hnone last hlast
  | cons p more ih =>
    obtain ⟨run, x⟩ := p
    have hp := hsegs (run, x) (List.mem_cons_self _ _)
    have hmore : ∀ q ∈ more, (∀ c ∈ q.1, c.hasType = false) ∧ q.2.hasType = true :=
      fun q hq => hsegs q (List.mem_cons_of_mem _ hq)
    simp only [unsegment, List.filter_append, hnone run hp.1, List.nil_append, List.map_cons]
    rw [List.filter_cons_of_pos (by simpa using hp.2), ih hmore]

theorem foldText_shape (str : Node → String) (run : List Node) :
    foldText str run = [] ∨ ∃ s, foldText str run = [Node.ofString s] := by
  unfold foldText
  split
  · exact Or.inl rfl
  · exact Or.inr ⟨_, rfl⟩

theorem noAdjacentLeaves_cons (x : Node) (l : List Node) (hx : x.hasType = true)
    (hl : noAdjacentLeaves l = true) : noAdjacentLeaves (x :: l) = true := by
  cases l with
  | nil => rfl
  | cons b rest => simp [noAdjacentLeaves, hx, hl]

theorem noAdjacentLeaves_optimized (str : Node → String) (segs : List (List Node × Node))
    (t : String) (hsegs : ∀ p ∈ segs, p.2.hasType = true) :
    noAdjacentLeaves
      (unsegment (segs.map fun p => (foldText str p.1, p.2)) [Node.ofString t]) = true := by
  induction segs with
  | nil => rfl
  | cons p more ih =>
    obtain ⟨run, x⟩ := p
    have hx : x.hasType = true := hsegs (run, x) (List.mem_cons_self _ _)
    have hmore : ∀ q ∈ more, q.2.hasType = true :=
      fun q hq => hsegs q (List.mem_cons_of_mem _ hq)
    have ih1 := ih hmore
    have htail : noAdjacentLeaves
        (x :: unsegment (more.map fun p => (foldText str p.1, p.2)) [Node.ofString t]) = true :=
      noAdjacentLeaves_cons x _ hx ih1
    simp only [List.map_cons, unsegment]
    rcases foldText_shape str run with h | ⟨s, h⟩
    · rw [h]
      simpa using htail
    · rw [h]
      simp only [List.singleton_append, noAdjacentLeaves, hx, Bool.or_true, Bool.true_and]
      exact htail

theorem segments_nonempty (cs : List Node) (hsome : ∃ c ∈ cs, c.hasType = true) :
    (segments cs).1 ≠ [] := by
  intro hnil
  have hcs := unsegment_segments cs
  rw [hnil] at hcs
  simp only [unsegment] at hcs
  obtain ⟨c, hc, ht⟩ := hsome
  rw [← hcs] at hc
  have := (segments_shape cs).2 c hc
  rw [this] at ht
  exact absurd ht (by decide)

/-- C11, as the claim states it, fails: in `["", tag]` the run in front of the
tag is one leaf with empty text. The claim has the children `["", tag]`
after `optimize`; the code drops the empty run and appends the closing leaf,
leaving `[tag, ""]`, whose first child is not a leaf. And with the depth
budget exhausted `["a", "b", tag]` is left as it is, two adjacent leaves
included. -/
theorem optimize_shape_counterexample :
    (∃ c ∈ [Node.ofString "", sampleTag], c.hasType = true) ∧
    ConcatenationNode.optimize Node.text NodeType.concatenation
        [Node.ofString "", sampleTag] (sampleState 0 5 Control.NONE) =
      (true, Node.inner NodeType.concatenation [sampleTag, Node.ofString ""],
        sampleState 0 5 Control.NONE) ∧
    foldRuns Node.text [Node.ofString "", sampleTag] = [Node.ofString "", sampleTag] ∧
    ([sampleTag, Node.ofString ""].head?.map Node.hasType) = some true ∧
    ((foldRuns Node.text [Node.ofString "", sampleTag]).head?.map Node.hasType) = some false ∧
    ConcatenationNode.optimize Node.text NodeType.concatenation
        [Node.ofString "a", Node.ofString "b", sampleTag] (sampleState 5 5 Control.NONE) =
      (false, Node.inner NodeType.concatenation
        [Node.ofString "a", Node.ofString "b", sampleTag], sampleState 5 5 Control.NONE) ∧
    noAdjacentLeaves [Node.ofString "a", Node.ofString "b", sampleTag] = false :=
  ⟨⟨sampleTag, by simp, rfl⟩, rfl, rfl, rfl, rfl, rfl, rfl⟩

/-- C11, amended: for a concatenation node with at least one non-leaf child and
the depth budget not exhausted, `optimize` returns `true` and leaves a
concatenation whose children are: for every maximal run of adjacent leaves in
front of a non-leaf child, one string leaf holding the run's concatenated text
when that text is not empty and nothing when it is empty, then that non-leaf
child; and at the end one string leaf holding the text of the leaves after the
last non-leaf child. The non-leaf children are exactly the original ones in
their order, and no two adjacent children are both leaves. The cut into runs
is the original list, its runs are leaves and its separators are not. -/
theorem optimize_shape {W : Type} (str : Node → String) (type : NodeType)
    (cs : List Node) (st : RenderState W)
    (hdepth : st.renderer.currentRenderingDepth < st.renderer.maximumRenderingDepth)
    (hsome : ∃ c ∈ cs, c.hasType = true) :
    ConcatenationNode.optimize str type cs st =
        (true, Node.inner type (optimizedChildren str cs), st) ∧
      (optimizedChildren str cs).filter Node.hasType = cs.filter Node.hasType ∧
      noAdjacentLeaves (optimizedChildren str cs) = true ∧
      unsegment (segments cs).1 (segments cs).2 = cs ∧
      (∀ p ∈ (segments cs).1, (∀ c ∈ p.1, c.hasType = false) ∧ p.2.hasType = true) ∧
      (∀ c ∈ (segments cs).2, c.hasType = false) := by
  have hshape := segments_shape cs
  have hcs := unsegment_segments cs
  have hne := segments_nonempty cs hsome
  have hloop := optimizeLoop_unsegment str (segments cs).1 (segments cs).2 [] hshape.1 hshape.2
  rw [hcs, List.nil_append] at hloop
  have hmapshape : ∀ p ∈ (segments cs).1.map (fun p => (foldText str p.1, p.2)),
      (∀ c ∈ p.1, c.hasType = false) ∧ p.2.hasType = true := by
    intro p hp
    obtain ⟨q, hq, rfl⟩ := List.mem_map.mp hp
    refine ⟨?_, (hshape.1 q hq).2⟩
    intro c hc
    rcases foldText_shape str q.1 with h | ⟨s, h⟩
    · simp [h] at hc
    · simp only [h, List.mem_singleton] at hc
      subst hc
      rfl
  refine ⟨?_, ?_, ?_, hcs, hshape.1, hshape.2⟩
  · rw [optimize_of_budget str type cs st hdepth, hloop]
    have hlen : (unsegment ((segments cs).1.map fun p => (foldText str p.1, p.2)) []).length
        ≠ 0 := by
      rcases hs : (segments cs).1 with _ | ⟨⟨run, x⟩, more⟩
      · exact absurd hs hne
      · simp [unsegment]
    simp only [hlen, if_false, optimizedChildren, unsegment_append, List.nil_append]
  · have h1 := filter_unsegment _ [Node.ofString (String.join ((segments cs).2.map str))]
      hmapshape (by intro c hc; simp only [List.mem_singleton] at hc; subst hc; rfl)
    have h2 := filter_unsegment (segments cs).1 (segments cs).2 hshape.1 hshape.2
    rw [hcs] at h2
    rw [optimizedChildren, h1, h2]
    simp [List.map_map, Function.comp]
  · exact noAdjacentLeaves_optimized str (segments cs).1 _ (fun p hp => (hshape.1 p hp).2)

/-- C11, concrete instance: `["a", "b", tag, "", tag, "c"]` becomes
`["ab", tag, tag, "c"]`. -/
theorem optimize_shape_witness :
    ((sampleState 0 5 Control.NONE).renderer.currentRenderingDepth
        < (sampleState 0 5 Control.NONE).renderer.maximumRenderingDepth ∧
      ∃ c ∈ [Node.ofString "a", Node.ofString "b", sampleTag, Node.ofString "", sampleTag,
        Node.ofString "c"], c.hasType = true) ∧
    (ConcatenationNode.optimize Node.text NodeType.concatenation
        [Node.ofString "a", Node.ofString "b", sampleTag, Node.ofString "", sampleTag,
          Node.ofString "c"] (sampleState 0 5 Control.NONE)).2.1 =
      Node.inner NodeType.concatenation
        [Node.ofString "ab", sampleTag, sampleTag, Node.ofString "c"] :=
  ⟨⟨by decide, sampleTag, by simp, rfl⟩,
    (congrArg (fun r => r.2.1) (optimize_shape Node.text NodeType.concatenation
      [Node.ofString "a", Node.ofString "b", sampleTag, Node.ofString "", sampleTag,
        Node.ofString "c"] (sampleState 0 5 Control.NONE) (by decide)
      ⟨sampleTag, by simp, rfl⟩).1).trans rfl⟩

/-! ## Two renders of one template (C16) -/

/-- C16 (code evaluated at the failing input): over the store `{x: v}` with a
float `v`, the template `{{ x }}` renders to the float variant of the
uninitialised local `f` of `VariableNode::render`, whatever `v` is, and leaves
the store as it was. A first render in which that local holds 0 and a second
one, on the store the first left, in which it holds 1 return different
values. -/
theorem render_float_follows_indeterminate :
    (∀ (ind : Header.Indeterminate) (v : Double),
      Header.render CPPVariable.vtable sampleUserRender Node.text ind
          (Node.inner NodeType.output
            [Node.inner NodeType.arguments [Node.inner NodeType.variable [Node.ofString "x"]]])
          [] (CPPVariable.DICTIONARY [("x", CPPVariable.FLOAT v)]) =
        some (Node.leaf (Variant.float ind.f),
          CPPVariable.DICTIONARY [("x", CPPVariable.FLOAT v)])) ∧
    Header.render CPPVariable.vtable sampleUserRender Node.text { f := 0, i := 0 }
        (Node.inner NodeType.output
          [Node.inner NodeType.arguments [Node.inner NodeType.variable [Node.ofString "x"]]])
        [] (CPPVariable.DICTIONARY [("x", CPPVariable.FLOAT 4609434218613702656)]) =
      some (Node.leaf (Variant.float 0),
        CPPVariable.DICTIONARY [("x", CPPVariable.FLOAT 4609434218613702656)]) ∧
    Header.render CPPVariable.vtable sampleUserRender Node.text { f := 1, i := 0 }
        (Node.inner NodeType.output
          [Node.inner NodeType.arguments [Node.inner NodeType.variable [Node.ofString "x"]]])
        [] (CPPVariable.DICTIONARY [("x", CPPVariable.FLOAT 4609434218613702656)]) =
      some (Node.leaf (Variant.float 1),
        CPPVariable.DICTIONARY [("x", CPPVariable.FLOAT 4609434218613702656)]) ∧
    Variant.float 0 ≠ Variant.float 1 :=
  ⟨fun _ _ => rfl, rfl, rfl, by decide⟩

theorem sameValue_refl (v : CPPVariable) : v.sameValue v = true := by
  cases v <;> simp [CPPVariable.sameValue]

theorem sameValue_trans (a b c : CPPVariable) (hab : a.sameValue b = true)
    (hbc : b.sameValue c = true) : a.sameValue c = true := by
  cases a <;> cases b <;> simp [CPPVariable.sameValue] at hab <;>
    cases c <;> simp [CPPVariable.sameValue] at hbc ⊢ <;> simp [hab, hbc]

theorem find_replaceKey (d : List (String × CPPVariable)) (k k1 : String) (c : CPPVariable) :
    CPPVariable.find (CPPVariable.replaceKey d k c) k1 =
      if k1 = k then (CPPVariable.find d k).map (fun _ => c) else CPPVariable.find d k1 := by
  induction d with
  | nil => simp [CPPVariable.replaceKey, CPPVariable.find]
  | cons e rest ih =>
    obtain ⟨k0, v0⟩ := e
    by_cases h0 : k0 = k
    · subst h0
      by_cases h1 : k1 = k0
      · subst h1
        simp [CPPVariable.replaceKey, CPPVariable.find]
      · have h1s : ¬ k0 = k1 := fun h => h1 h.symm
        simp [CPPVariable.replaceKey, CPPVariable.find, h1, h1s]
    · by_cases h1 : k1 = k
      · subst h1
        simp [CPPVariable.replaceKey, CPPVariable.find, h0, ih]
      · simp only [CPPVariable.replaceKey, h0, if_false, CPPVariable.find, ih, h1]

theorem find_append_some (d e : List (String × CPPVariable)) (k : String) (c : CPPVariable)
    (h : CPPVariable.find d k = some c) : CPPVariable.find (d ++ e) k = some c := by
  induction d with
  | nil => simp [CPPVariable.find] at h
  | cons x rest ih =>
    obtain ⟨k0, v0⟩ := x
    by_cases h0 : k0 = k
    · simp only [CPPVariable.find, h0, if_true] at h
      simp [CPPVariable.find, h0, h]
    · simp only [CPPVariable.find, h0, if_false] at h
      simp [CPPVariable.find, h0, ih h]

theorem find_append_none (d : List (String × CPPVariable)) (k : String) (c : CPPVariable)
    (h : CPPVariable.find d k = none) : CPPVariable.find (d ++ [(k, c)]) k = some c := by
  induction d with
  | nil => simp [CPPVariable.find]
  | cons x rest ih =>
    obtain ⟨k0, v0⟩ := x
    by_cases h0 : k0 = k
    · simp [CPPVariable.find, h0] at h
    · simp only [CPPVariable.find, h0, if_false] at h
      simp [CPPVariable.find, h0, ih h]

/-- The object written at an address is the object found there afterwards. -/
theorem deref_store_self (p : Pointer) : ∀ (root obj v : CPPVariable),
    CPPVariable.deref root p = some obj →
      CPPVariable.deref (CPPVariable.store root p v) p = some v := by
  induction p with
  | nil => intro root obj v _; simp [CPPVariable.store, CPPVariable.deref]
  | cons l p ih =>
    intro root obj v h
    cases l with
    | key k =>
      cases root <;> simp only [CPPVariable.deref] at h <;> try (simp at h)
      rename_i d
      rcases hf : CPPVariable.find d k with _ | c
      · simp [hf] at h
      · simp only [hf, Option.some_bind] at h
        simp [CPPVariable.store, hf, CPPVariable.deref, find_replaceKey, ih c obj v h]
    | index i =>
      cases root <;> simp only [CPPVariable.deref] at h <;> try (simp at h)
      rename_i a
      rcases hf : a[i]? with _ | c
      · simp [hf] at h
      · simp only [hf, Option.some_bind] at h
        have hlt : i < a.length := (List.getElem?_eq_some.mp hf).1
        simp [CPPVariable.store, hf, CPPVariable.deref, hlt, ih c obj v h]

theorem extends_refl (h : CPPVariable) : CPPVariable.Extends h h :=
  fun _ v hv => ⟨v, hv, sameValue_refl v⟩

theorem extends_trans (a b c : CPPVariable) (hab : CPPVariable.Extends a b)
    (hbc : CPPVariable.Extends b c) : CPPVariable.Extends a c := by
  intro q v hv
  obtain ⟨v1, h1, s1⟩ := hab q v hv
  obtain ⟨v2, h2, s2⟩ := hbc q v1 h1
  exact ⟨v2, h2, sameValue_trans v v1 v2 s1 s2⟩

/-- Replacing an object of a store by one that extends it extends the store. -/
theorem extends_store (p : Pointer) : ∀ (h obj obj1 : CPPVariable),
    CPPVariable.deref h p = some obj → CPPVariable.Extends obj obj1 →
      CPPVariable.Extends h (CPPVariable.store h p obj1) := by
  induction p with
  | nil =>
    intro h obj obj1 hp hext
    simp only [CPPVariable.deref, Option.some.injEq] at hp
    subst hp
    simpa [CPPVariable.store] using hext
  | cons l p ih =>
    intro h obj obj1 hp hext
    cases l with
    | key k =>
      cases h <;> simp only [CPPVariable.deref] at hp <;> try (simp at hp)
      rename_i d
      rcases hf : CPPVariable.find d k with _ | c
      · simp [hf] at hp
      · simp only [hf, Option.some_bind] at hp
        have ihc := ih c obj obj1 hp hext
        intro q v hq
        simp only [CPPVariable.store, hf]
        cases q with
        | nil =>
          simp only [CPPVariable.deref, Option.some.injEq] at hq
          subst hq
          exact ⟨_, rfl, rfl⟩
        | cons l1 q1 =>
          cases l1 with
          | key k1 =>
            simp only [CPPVariable.deref] at hq ⊢
            rw [find_replaceKey]
            by_cases hk : k1 = k
            · subst hk
              simp only [hf, Option.some_bind] at hq
              simp only [if_true, hf, Option.map_some', Option.some_bind]
              exact ihc q1 v hq
            · simp only [hk, if_false]
              exact ⟨v, hq, sameValue_refl v⟩
          | index i1 => simp [CPPVariable.deref] at hq
    | index i =>
      cases h <;> simp only [CPPVariable.deref] at hp <;> try (simp at hp)
      rename_i a
      rcases hf : a[i]? with _ | c
      · simp [hf] at hp
      · simp only [hf, Option.some_bind] at hp
        have hlt : i < a.length := (List.getElem?_eq_some.mp hf).1
        have ihc := ih c obj obj1 hp hext
        intro q v hq
        simp only [CPPVariable.store, hf]
        cases q with
        | nil =>
          simp only [CPPVariable.deref, Option.some.injEq] at hq
          subst hq
          exact ⟨_, rfl, rfl⟩
        | cons l1 q1 =>
          cases l1 with
          | key k1 => simp [CPPVariable.deref] at hq
          | index i1 =>
            simp only [CPPVariable.deref] at hq ⊢
            by_cases hi : i = i1
            · subst hi
              simp only [hf, Option.some_bind] at hq
              simp only [List.getElem?_set_self hlt, Option.some_bind]
              exact ihc q1 v hq
            · rw [List.getElem?_set_ne hi]
              exact ⟨v, hq, sameValue_refl v⟩

/-- A dictionary lookup that returns `true` leaves a dictionary that extends
the object and holds the key. -/
theorem extends_getDictionaryVariable (obj obj1 : CPPVariable) (k : String)
    (h : obj.getDictionaryVariable k = some (true, obj1)) :
    CPPVariable.Extends obj obj1 ∧
      ∃ d1 c, obj1 = CPPVariable.DICTIONARY d1 ∧ CPPVariable.find d1 k = some c := by
  cases obj <;> simp [CPPVariable.getDictionaryVariable, CPPVariable.getType] at h
  rename_i d
  rcases hf : CPPVariable.find d k with _ | c
  · simp only [CPPVariable.subscriptKey, hf, Option.some.injEq] at h
    subst h
    refine ⟨?_, _, CPPVariable.NIL, rfl, find_append_none d k _ hf⟩
    intro q v hq
    cases q with
    | nil =>
      simp only [CPPVariable.deref, Option.some.injEq] at hq
      subst hq
      exact ⟨_, rfl, rfl⟩
    | cons l1 q1 =>
      cases l1 with
      | key k1 =>
        simp only [CPPVariable.deref] at hq ⊢
        rcases hf1 : CPPVariable.find d k1 with _ | c1
        · simp [hf1] at hq
        · rw [find_append_some d _ k1 c1 hf1]
          simp only [hf1, Option.some_bind] at hq ⊢
          exact ⟨v, hq, sameValue_refl v⟩
      | index i1 => simp [CPPVariable.deref] at hq
  · simp only [CPPVariable.subscriptKey, hf, Option.some.injEq] at h
    subst h
    exact ⟨extends_refl _, d, c, rfl, hf⟩

/-- An array lookup that returns `true` leaves an array that extends the
object and holds the index. -/
theorem extends_getArrayVariable (obj obj1 : CPPVariable) (idx : Nat)
    (h : obj.getArrayVariable idx = some (true, obj1)) :
    CPPVariable.Extends obj obj1 ∧
      ∃ a1, obj1 = CPPVariable.ARRAY a1 ∧ idx < a1.length := by
  cases obj <;> simp [CPPVariable.getArrayVariable, CPPVariable.getType] at h
  rename_i a
  simp only [CPPVariable.subscriptIndex] at h
  by_cases hgrow : a.length < (idx + 1) % 2 ^ 64
  · simp only [hgrow, if_true] at h
    by_cases hlt : idx < (a ++ List.replicate ((idx + 1) % 2 ^ 64 - a.length) CPPVariable.NIL).length
    · simp only [hlt, if_true, Option.some.injEq] at h
      subst h
      refine ⟨?_, _, rfl, hlt⟩
      intro q v hq
      cases q with
      | nil =>
        simp only [CPPVariable.deref, Option.some.injEq] at hq
        subst hq
        exact ⟨_, rfl, rfl⟩
      | cons l1 q1 =>
        cases l1 with
        | key k1 => simp [CPPVariable.deref] at hq
        | index i1 =>
          simp only [CPPVariable.deref] at hq ⊢
          rcases hf1 : a[i1]? with _ | c1
          · simp [hf1] at hq
          · have hl1 : i1 < a.length := (List.getElem?_eq_some.mp hf1).1
            rw [List.getElem?_append_left hl1]
            simp only [hf1, Option.some_bind] at hq ⊢
            exact ⟨v, hq, sameValue_refl v⟩
    · rw [if_neg hlt] at h
      cases h
  · simp only [hgrow, if_false] at h
    by_cases hlt : idx < a.length
    · simp only [hlt, if_true, Option.some.injEq] at h
      subst h
      exact ⟨extends_refl _, a, rfl, hlt⟩
    · rw [if_neg hlt] at h
      cases h

theorem reach_extends (h h1 : CPPVariable) (hr : CPPVariable.Reach h h1) :
    CPPVariable.Extends h h1 := by
  induction hr with
  | refl => exact extends_refl _
  | key h1 obj obj1 p k _ hp hk ih =>
    exact extends_trans _ _ _ ih
      (extends_store p h1 obj obj1 hp (extends_getDictionaryVariable obj obj1 k hk).1)
  | index h1 obj obj1 p idx _ hp hk ih =>
    exact extends_trans _ _ _ ih
      (extends_store p h1 obj obj1 hp (extends_getArrayVariable obj obj1 idx hk).1)

theorem reach_trans (a b c : CPPVariable) (hab : CPPVariable.Reach a b)
    (hbc : CPPVariable.Reach b c) : CPPVariable.Reach a c := by
  induction hbc with
  | refl => exact hab
  | key h1 obj obj1 p k _ hp hk ih => exact CPPVariable.Reach.key a h1 obj obj1 p k ih hp hk
  | index h1 obj obj1 p idx _ hp hk ih =>
    exact CPPVariable.Reach.index a h1 obj obj1 p idx ih hp hk

theorem sameValue_getters (a b : CPPVariable) (h : a.sameValue b = true) :
    a.getType = b.getType ∧ (∀ s, a.getString s = b.getString s) ∧
      (∀ i, a.getInteger i = b.getInteger i) ∧ (∀ f, a.getFloat f = b.getFloat f) := by
  cases a <;> cases b <;> simp [CPPVariable.sameValue] at h <;>
    simp [CPPVariable.getType, CPPVariable.getString, CPPVariable.getInteger,
      CPPVariable.getFloat, h]

theorem getDictionaryVariable_flag (obj : CPPVariable) (k : String) (ok : Bool)
    (obj1 : CPPVariable) (h : obj.getDictionaryVariable k = some (ok, obj1)) :
    ok = decide (obj.getType = VariableType.DICTIONARY) := by
  cases obj <;> simp [CPPVariable.getDictionaryVariable, CPPVariable.getType] at h ⊢ <;>
    first
      | exact h.1
      | exact h.2

theorem getArrayVariable_flag (obj : CPPVariable) (idx : Nat) (ok : Bool)
    (obj1 : CPPVariable) (h : obj.getArrayVariable idx = some (ok, obj1)) :
    ok = decide (obj.getType = VariableType.ARRAY) := by
  cases obj <;> simp [CPPVariable.getArrayVariable, CPPVariable.getType] at h ⊢ <;>
    first
      | exact h.1
      | exact h.2

theorem getDictionaryVariable_other (obj : CPPVariable) (k : String)
    (h : obj.getType ≠ VariableType.DICTIONARY) :
    obj.getDictionaryVariable k = some (false, obj) := by
  simp [CPPVariable.getDictionaryVariable, h]

theorem getArrayVariable_other (obj : CPPVariable) (idx : Nat)
    (h : obj.getType ≠ VariableType.ARRAY) :
    obj.getArrayVariable idx = some (false, obj) := by
  simp [CPPVariable.getArrayVariable, h]

theorem getDictionaryVariable_present (d : List (String × CPPVariable)) (k : String)
    (c : CPPVariable) (h : CPPVariable.find d k = some c) :
    (CPPVariable.DICTIONARY d).getDictionaryVariable k =
      some (true, CPPVariable.DICTIONARY d) := by
  simp [CPPVariable.getDictionaryVariable, CPPVariable.getType, CPPVariable.subscriptKey, h]

theorem getArrayVariable_present (a : List CPPVariable) (idx : Nat) (h : idx < a.length) :
    (CPPVariable.ARRAY a).getArrayVariable idx = some (true, CPPVariable.ARRAY a) := by
  have hle : (idx + 1) % 2 ^ 64 ≤ idx + 1 := Nat.mod_le _ _
  have hnot : ¬ a.length < (idx + 1) % 2 ^ 64 := by omega
  simp only [CPPVariable.getArrayVariable, CPPVariable.getType, ne_eq, not_true_eq_false,
    if_false, CPPVariable.subscriptIndex, hnot, h, if_true, Option.map_some']

/-- A dictionary lookup through the interface, repeated on a store reached
from the one it left, returns the same flag and target and changes nothing. -/
theorem vtable_getDictionaryVariable_again (h : CPPVariable) (p : Pointer)
    (t : Option Pointer) (k : String) (r : Bool × Option Pointer × CPPVariable)
    (hr : CPPVariable.vtable.getDictionaryVariable h p t k = some r) :
    CPPVariable.Reach h r.2.2 ∧
      ∀ h1, CPPVariable.Reach r.2.2 h1 →
        CPPVariable.vtable.getDictionaryVariable h1 p t k = some (r.1, r.2.1, h1) := by
  simp only [CPPVariable.vtable] at hr ⊢
  rcases hd : CPPVariable.deref h p with _ | obj
  · simp [hd] at hr
  · simp only [hd, Option.some_bind] at hr
    rcases ho : obj.getDictionaryVariable k with _ | ⟨ok, obj1⟩
    · simp [ho] at hr
    · simp only [ho, Option.map_some', Option.some.injEq] at hr
      have hflag := getDictionaryVariable_flag obj k ok obj1 ho
      cases ok with
      | false =>
        simp only [Bool.false_eq_true, if_false] at hr
        subst hr
        refine ⟨CPPVariable.Reach.refl h, ?_⟩
        intro h1 hreach
        obtain ⟨obj2, hd2, hs⟩ := reach_extends h h1 hreach p obj hd
        have hty : obj2.getType ≠ VariableType.DICTIONARY := by
          rw [← (sameValue_getters obj obj2 hs).1]
          simpa using hflag
        simp [hd2, getDictionaryVariable_other obj2 k hty]
      | true =>
        simp only [if_true] at hr
        subst hr
        refine ⟨CPPVariable.Reach.key h h obj obj1 p k (CPPVariable.Reach.refl h) hd ho, ?_⟩
        intro h1 hreach
        obtain ⟨_, d1, c, hobj1, hfind⟩ := extends_getDictionaryVariable obj obj1 k ho
        subst hobj1
        have hself := deref_store_self p h obj (CPPVariable.DICTIONARY d1) hd
        have hchild : CPPVariable.deref (CPPVariable.store h p (CPPVariable.DICTIONARY d1))
            (p ++ [Link.key k]) = some c := by
          rw [deref_append, hself]
          simp [CPPVariable.deref, hfind]
        obtain ⟨obj2, hd2, hs⟩ := reach_extends _ h1 hreach p _ hself
        obtain ⟨c2, hc2, _⟩ := reach_extends _ h1 hreach _ _ hchild
        cases obj2 <;> simp [CPPVariable.sameValue] at hs
        rename_i d2
        rw [deref_append, hd2] at hc2
        simp only [Option.some_bind, CPPVariable.deref] at hc2
        rcases hf2 : CPPVariable.find d2 k with _ | c3
        · simp [hf2] at hc2
        · simp [hd2, getDictionaryVariable_present d2 k c3 hf2, store_deref p h1 _ hd2]

/-- An array lookup through the interface, repeated on a store reached from
the one it left, returns the same flag and target and changes nothing. -/
theorem vtable_getArrayVariable_again (h : CPPVariable) (p : Pointer)
    (t : Option Pointer) (idx : Nat) (r : Bool × Option Pointer × CPPVariable)
    (hr : CPPVariable.vtable.getArrayVariable h p t idx = some r) :
    CPPVariable.Reach h r.2.2 ∧
      ∀ h1, CPPVariable.Reach r.2.2 h1 →
        CPPVariable.vtable.getArrayVariable h1 p t idx = some (r.1, r.2.1, h1) := by
  simp only [CPPVariable.vtable] at hr ⊢
  rcases hd : CPPVariable.deref h p with _ | obj
  · simp [hd] at hr
  · simp only [hd, Option.some_bind] at hr
    rcases ho : obj.getArrayVariable idx with _ | ⟨ok, obj1⟩
    · simp [ho] at hr
    · simp only [ho, Option.map_some', Option.some.injEq] at hr
      have hflag := getArrayVariable_flag obj idx ok obj1 ho
      cases ok with
      | false =>
        simp only [Bool.false_eq_true, if_false] at hr
        subst hr
        refine ⟨CPPVariable.Reach.refl h, ?_⟩
        intro h1 hreach
        obtain ⟨obj2, hd2, hs⟩ := reach_extends h h1 hreach p obj hd
        have hty : obj2.getType ≠ VariableType.ARRAY := by
          rw [← (sameValue_getters obj obj2 hs).1]
          simpa using hflag
        simp [hd2, getArrayVariable_other obj2 idx hty]
      | true =>
        simp only [if_true] at hr
        subst hr
        refine ⟨CPPVariable.Reach.index h h obj obj1 p idx (CPPVariable.Reach.refl h) hd ho, ?_⟩
        intro h1 hreach
        obtain ⟨_, a1, hobj1, hlt⟩ := extends_getArrayVariable obj obj1 idx ho
        subst hobj1
        have hself := deref_store_self p h obj (CPPVariable.ARRAY a1) hd
        have hchild : ∃ c, CPPVariable.deref (CPPVariable.store h p (CPPVariable.ARRAY a1))
            (p ++ [Link.index idx]) = some c := by
          rw [deref_append, hself]
          simp [CPPVariable.deref, hlt]
        obtain ⟨c, hchild⟩ := hchild
        obtain ⟨obj2, hd2, hs⟩ := reach_extends _ h1 hreach p _ hself
        obtain ⟨c2, hc2, _⟩ := reach_extends _ h1 hreach _ _ hchild
        cases obj2 <;> simp [CPPVariable.sameValue] at hs
        rename_i a2
        rw [deref_append, hd2] at hc2
        simp only [Option.some_bind, CPPVariable.deref] at hc2
        rcases hf2 : a2[idx]? with _ | c3
        · simp [hf2] at hc2
        · have hlt2 : idx < a2.length := (List.getElem?_eq_some.mp hf2).1
          simp [hd2, getArrayVariable_present a2 idx hlt2, store_deref p h1 _ hd2]

/-- One link of a chain, walked again on a store reached from the one the
first walk left, moves `storePointer` alike and changes nothing. -/
theorem step_again (node : Node) (sp : Option Pointer) (h : CPPVariable)
    (r : Option Pointer × CPPVariable)
    (hr : Header.VariableNode.step CPPVariable.vtable node sp h = some r) :
    CPPVariable.Reach h r.2 ∧
      ∀ h1, CPPVariable.Reach r.2 h1 →
        Header.VariableNode.step CPPVariable.vtable node sp h1 = some (r.1, h1) := by
  cases node with
  | inner t cs => simp [Header.VariableNode.step] at hr
  | leaf v =>
    cases v with
    | int i =>
      cases sp with
      | none => simp [Header.VariableNode.step] at hr
      | some p =>
        simp only [Header.VariableNode.step] at hr ⊢
        rcases hop : CPPVariable.vtable.getArrayVariable h p (some p) (toSizeT i) with _ | q
        · simp [hop] at hr
        · simp only [hop, Option.map_some', Option.some.injEq] at hr
          subst hr
          obtain ⟨h1r, h2r⟩ := vtable_getArrayVariable_again h p (some p) (toSizeT i) q hop
          refine ⟨h1r, ?_⟩
          intro h1 hreach
          simp [h2r h1 hreach]
    | string s =>
      cases sp with
      | none => simp [Header.VariableNode.step] at hr
      | some p =>
        simp only [Header.VariableNode.step] at hr ⊢
        rcases hop : CPPVariable.vtable.getDictionaryVariable h p (some p) s with _ | q
        · simp [hop] at hr
        · simp only [hop, Option.map_some', Option.some.injEq] at hr
          subst hr
          obtain ⟨h1r, h2r⟩ := vtable_getDictionaryVariable_again h p (some p) s q hop
          refine ⟨h1r, ?_⟩
          intro h1 hreach
          simp [h2r h1 hreach]
    | nil =>
      simp only [Header.VariableNode.step, Option.some.injEq] at hr
      subst hr
      exact ⟨CPPVariable.Reach.refl h, fun h1 _ => by simp [Header.VariableNode.step]⟩
    | bool b =>
      simp only [Header.VariableNode.step, Option.some.injEq] at hr
      subst hr
      exact ⟨CPPVariable.Reach.refl h, fun h1 _ => by simp [Header.VariableNode.step]⟩
    | float f =>
      simp only [Header.VariableNode.step, Option.some.injEq] at hr
      subst hr
      exact ⟨CPPVariable.Reach.refl h, fun h1 _ => by simp [Header.VariableNode.step]⟩
    | pointer q =>
      simp only [Header.VariableNode.step, Option.some.injEq] at hr
      subst hr
      exact ⟨CPPVariable.Reach.refl h, fun h1 _ => by simp [Header.VariableNode.step]⟩

/-- The value at the end of a chain is the same on a store reached from the
one it was first read in, when the uninitialised locals hold the same. -/
theorem result_again (ind : Header.Indeterminate) (sp : Option Pointer) (h h1 : CPPVariable)
    (n : Node) (hres : Header.VariableNode.result CPPVariable.vtable ind sp h = some n)
    (hreach : CPPVariable.Reach h h1) :
    Header.VariableNode.result CPPVariable.vtable ind sp h1 = some n := by
  cases sp with
  | none => simpa [Header.VariableNode.result] using hres
  | some p =>
    simp only [Header.VariableNode.result, CPPVariable.vtable] at hres ⊢
    rcases hd : CPPVariable.deref h p with _ | obj
    · simp [hd] at hres
    · obtain ⟨obj2, hd2, hs⟩ := reach_extends h h1 hreach p obj hd
      obtain ⟨hty, hstr, hint, hflt⟩ := sameValue_getters obj obj2 hs
      simp only [hd, Option.map_some', Option.some_bind] at hres
      simp only [hd2, Option.map_some', Option.some_bind, ← hty, ← hstr, ← hint, ← hflt]
      exact hres

theorem noRegistered_children (t : NodeType) (cs : List Node)
    (h : (Node.inner t cs).noRegistered = true) : Node.allNoRegistered cs = true := by
  cases t <;> simp [Node.noRegistered] at h ⊢ <;> exact h

theorem allNoRegistered_cons (c : Node) (rest : List Node)
    (h : Node.allNoRegistered (c :: rest) = true) :
    c.noRegistered = true ∧ Node.allNoRegistered rest = true := by
  simpa [Node.allNoRegistered] using h

theorem noRegistered_output_child (ta : NodeType) (c : Node)
    (h : (Node.inner NodeType.output [Node.inner ta [c]]).noRegistered = true) :
    c.noRegistered = true :=
  (allNoRegistered_cons c []
    (noRegistered_children ta [c]
      (allNoRegistered_cons _ [] (noRegistered_children NodeType.output _ h)).1)).1

theorem noRegistered_registered (id : Nat) (cs : List Node)
    (h : (Node.inner (NodeType.registered id) cs).noRegistered = true) : False := by
  simp [Node.noRegistered] at h

mutual
/-- A render that completes over a `CPPVariable` store only adds entries by
lookups, and the same render on any store reached from the one it left
returns the same value and changes nothing. -/
theorem render_again (ur : Header.UserRender CPPVariable) (str : Node → String)
    (ind : Header.Indeterminate) (store : Pointer) :
    ∀ (n : Node), n.noRegistered = true → ∀ (h : CPPVariable) (r : Node × CPPVariable),
      Header.render CPPVariable.vtable ur str ind n store h = some r →
        CPPVariable.Reach h r.2 ∧
          ∀ h1, CPPVariable.Reach r.2 h1 →
            Header.render CPPVariable.vtable ur str ind n store h1 = some (r.1, h1)
  | Node.leaf _, _, h, r, hr => by simp [Header.render] at hr
  | Node.inner NodeType.concatenation cs, hn, h, r, hr => by
    simp only [Header.render] at hr ⊢
    exact concatenation_again ur str ind store cs
      (noRegistered_children _ cs hn) "" h r hr
  | Node.inner NodeType.output [], _, h, r, hr => by simp [Header.render] at hr
  | Node.inner NodeType.output [Node.leaf _], _, h, r, hr => by simp [Header.render] at hr
  | Node.inner NodeType.output [Node.inner _ []], _, h, r, hr => by
    simp [Header.render] at hr
  | Node.inner NodeType.output [Node.inner _ [Node.leaf v]], _, h, r, hr => by
    simp only [Header.render, Option.some.injEq] at hr
    subst hr
    exact ⟨CPPVariable.Reach.refl h, fun h1 _ => by simp [Header.render]⟩
  | Node.inner NodeType.output [Node.inner ta [Node.inner t cs]], hn, h, r, hr => by
    have hsub : (Node.inner t cs).noRegistered = true :=
      noRegistered_output_child ta (Node.inner t cs) hn
    simp only [Header.render] at hr ⊢
    exact render_again ur str ind store (Node.inner t cs) hsub h r hr
  | Node.inner NodeType.output [Node.inner _ (_ :: _ :: _)], _, h, r, hr => by
    simp [Header.render] at hr
  | Node.inner NodeType.output (_ :: _ :: _), _, h, r, hr => by
    simp [Header.render] at hr
  | Node.inner NodeType.variable cs, hn, h, r, hr => by
    simp only [Header.render] at hr ⊢
    rcases hl : Header.VariableNode.renderLoop CPPVariable.vtable ur str ind cs store
      (some store) h with _ | q
    · simp [hl] at hr
    · simp only [hl, Option.some_bind] at hr
      rcases hres : Header.VariableNode.result CPPVariable.vtable ind q.1 q.2 with _ | n
      · simp [hres] at hr
      · simp only [hres, Option.map_some', Option.some.injEq] at hr
        subst hr
        obtain ⟨hreach, hagain⟩ := chain_again ur str ind store cs
          (noRegistered_children _ cs hn) (some store) h q hl
        refine ⟨hreach, ?_⟩
        intro h1 hr1
        simp [hagain h1 hr1, result_again ind q.1 q.2 h1 n hres hr1]
  | Node.inner NodeType.namedVariable cs, hn, h, r, hr => by
    simp only [Header.render] at hr ⊢
    rcases hl : Header.VariableNode.renderLoop CPPVariable.vtable ur str ind cs store
      (some store) h with _ | q
    · simp [hl] at hr
    · simp only [hl, Option.some_bind] at hr
      rcases hres : Header.VariableNode.result CPPVariable.vtable ind q.1 q.2 with _ | n
      · simp [hres] at hr
      · simp only [hres, Option.map_some', Option.some.injEq] at hr
        subst hr
        obtain ⟨hreach, hagain⟩ := chain_again ur str ind store cs
          (noRegistered_children _ cs hn) (some store) h q hl
        refine ⟨hreach, ?_⟩
        intro h1 hr1
        simp [hagain h1 hr1, result_again ind q.1 q.2 h1 n hres hr1]
  | Node.inner NodeType.group _, _, h, r, hr => by simp [Header.render] at hr
  | Node.inner NodeType.arguments _, _, h, r, hr => by simp [Header.render] at hr
  | Node.inner (NodeType.registered id) cs, hn, _, _, _ =>
    (noRegistered_registered id cs hn).elim
/-- The loop of `ConcatenationNode::render` of `context.h`, run again. -/
theorem concatenation_again (ur : Header.UserRender CPPVariable) (str : Node → String)
    (ind : Header.Indeterminate) (store : Pointer) :
    ∀ (cs : List Node), Node.allNoRegistered cs = true →
      ∀ (s : String) (h : CPPVariable) (r : Node × CPPVariable),
        Header.ConcatenationNode.renderLoop CPPVariable.vtable ur str ind cs store s h = some r →
          CPPVariable.Reach h r.2 ∧
            ∀ h1, CPPVariable.Reach r.2 h1 →
              Header.ConcatenationNode.renderLoop CPPVariable.vtable ur str ind cs store s h1 =
                some (r.1, h1)
  | [], _, s, h, r, hr => by
    simp only [Header.ConcatenationNode.renderLoop, Option.some.injEq] at hr
    subst hr
    exact ⟨CPPVariable.Reach.refl h, fun h1 _ => by simp [Header.ConcatenationNode.renderLoop]⟩
  | Node.leaf v :: rest, hn, s, h, r, hr => by
    simp only [Header.ConcatenationNode.renderLoop] at hr ⊢
    exact concatenation_again ur str ind store rest
      (allNoRegistered_cons _ rest hn).2 _ h r hr
  | Node.inner t cs :: rest, hn, s, h, r, hr => by
    have hn2 : (Node.inner t cs).noRegistered = true ∧ Node.allNoRegistered rest = true :=
      allNoRegistered_cons _ rest hn
    simp only [Header.ConcatenationNode.renderLoop] at hr ⊢
    rcases hc : Header.render CPPVariable.vtable ur str ind (Node.inner t cs) store h with _ | q
    · simp [hc] at hr
    · simp only [hc, Option.some_bind] at hr
      obtain ⟨hreach1, hagain1⟩ := render_again ur str ind store (Node.inner t cs) hn2.1 h q hc
      obtain ⟨hreach2, hagain2⟩ := concatenation_again ur str ind store rest hn2.2 _ q.2 r hr
      refine ⟨reach_trans _ _ _ hreach1 hreach2, ?_⟩
      intro h1 hr1
      rw [hagain1 h1 (reach_trans _ _ _ hreach2 hr1)]
      simp only [Option.some_bind]
      exact hagain2 h1 hr1
/-- The loop of `VariableNode::render` over the chain, run again. -/
theorem chain_again (ur : Header.UserRender CPPVariable) (str : Node → String)
    (ind : Header.Indeterminate) (store : Pointer) :
    ∀ (cs : List Node), Node.allNoRegistered cs = true →
      ∀ (sp : Option Pointer) (h : CPPVariable) (r : Option Pointer × CPPVariable),
        Header.VariableNode.renderLoop CPPVariable.vtable ur str ind cs store sp h = some r →
          CPPVariable.Reach h r.2 ∧
            ∀ h1, CPPVariable.Reach r.2 h1 →
              Header.VariableNode.renderLoop CPPVariable.vtable ur str ind cs store sp h1 =
                some (r.1, h1)
  | [], _, sp, h, r, hr => by
    simp only [Header.VariableNode.renderLoop, Option.some.injEq] at hr
    subst hr
    exact ⟨CPPVariable.Reach.refl h, fun h1 _ => by simp [Header.VariableNode.renderLoop]⟩
  | Node.leaf v :: rest, hn, sp, h, r, hr => by
    simp only [Header.VariableNode.renderLoop] at hr ⊢
    rcases hs : Header.VariableNode.step CPPVariable.vtable (Node.leaf v) sp h with _ | q
    · simp [hs] at hr
    · simp only [hs, Option.some_bind] at hr
      obtain ⟨hreach1, hagain1⟩ := step_again (Node.leaf v) sp h q hs
      obtain ⟨hreach2, hagain2⟩ := chain_again ur str ind store rest
        (allNoRegistered_cons _ rest hn).2 q.1 q.2 r hr
      refine ⟨reach_trans _ _ _ hreach1 hreach2, ?_⟩
      intro h1 hr1
      rw [hagain1 h1 (reach_trans _ _ _ hreach2 hr1)]
      simp only [Option.some_bind]
      exact hagain2 h1 hr1
  | Node.inner t cs :: rest, hn, sp, h, r, hr => by
    have hn2 : (Node.inner t cs).noRegistered = true ∧ Node.allNoRegistered rest = true :=
      allNoRegistered_cons _ rest hn
    simp only [Header.VariableNode.renderLoop] at hr ⊢
    rcases hc : Header.render CPPVariable.vtable ur str ind (Node.inner t cs) store h with _ | n
    · simp [hc] at hr
    · simp only [hc, Option.some_bind] at hr
      rcases hs : Header.VariableNode.step CPPVariable.vtable n.1 sp n.2 with _ | q
      · simp [hs] at hr
      · simp only [hs, Option.some_bind] at hr
        obtain ⟨hreach0, hagain0⟩ := render_again ur str ind store (Node.inner t cs) hn2.1 h n hc
        obtain ⟨hreach1, hagain1⟩ := step_again n.1 sp n.2 q hs
        obtain ⟨hreach2, hagain2⟩ := chain_again ur str ind store rest hn2.2 q.1 q.2 r hr
        refine ⟨reach_trans _ _ _ (reach_trans _ _ _ hreach0 hreach1) hreach2, ?_⟩
        intro h1 hr1
        rw [hagain0 h1 (reach_trans _ _ _ (reach_trans _ _ _ hreach1 hreach2) hr1)]
        simp only [Option.some_bind]
        rw [hagain1 h1 (reach_trans _ _ _ hreach2 hr1)]
        simp only [Option.some_bind]
        exact hagain2 h1 hr1
end

/-- Two renders of a template built of the node types of the context and of
leaves: when the first completes, the second, run on the store the first left
and with the same values in the uninitialised locals, returns the same value
and leaves the store as it found it. -/
theorem render_twice_alike (ur : Header.UserRender CPPVariable) (str : Node → String)
    (ind : Header.Indeterminate) (n : Node) (store : Pointer) (h : CPPVariable)
    (r : Node × CPPVariable) (hn : n.noRegistered = true)
    (hr : Header.render CPPVariable.vtable ur str ind n store h = some r) :
    Header.render CPPVariable.vtable ur str ind n store r.2 = some (r.1, r.2) :=
  (render_again ur str ind store n hn h r hr).2 r.2 (CPPVariable.Reach.refl r.2)


/-! ## The depth bound and the closing leaf of `optimize` (C21, C22, C24) -/

theorem optimize_state {W : Type} (str : Node → String) (type : NodeType)
    (cs : List Node) (st : RenderState W) :
    (ConcatenationNode.optimize str type cs st).2.2 = st := by
  unfold ConcatenationNode.optimize
  split
  · exact enter_leave st
  · simp only []
    split <;> exact enter_leave st

theorem optimize_turned_away {W : Type} (str : Node → String) (type : NodeType)
    (cs : List Node) (st : RenderState W)
    (hdepth : st.renderer.maximumRenderingDepth ≤ st.renderer.currentRenderingDepth) :
    ConcatenationNode.optimize str type cs st = (false, Node.inner type cs, st) := by
  have h : st.enter.renderer.currentRenderingDepth > st.enter.renderer.maximumRenderingDepth := by
    simp only [RenderState.enter]; omega
  simp only [ConcatenationNode.optimize, h, if_true, enter_leave]

/-- C21: `ConcatenationNode::optimize` entered with `currentRenderingDepth >=
maximumRenderingDepth` returns `false` and leaves the node, type and
children, as it was; and after every call, whatever it returns, the renderer
(the depth counter and the error field in particular) and the host are as
they were before the call. -/
theorem optimize_depth_bounded {W : Type} (str : Node → String) (type : NodeType)
    (cs : List Node) (st : RenderState W) :
    (st.renderer.maximumRenderingDepth ≤ st.renderer.currentRenderingDepth →
        ConcatenationNode.optimize str type cs st = (false, Node.inner type cs, st)) ∧
      (ConcatenationNode.optimize str type cs st).2.2.renderer.currentRenderingDepth =
        st.renderer.currentRenderingDepth ∧
      (ConcatenationNode.optimize str type cs st).2.2.renderer.error = st.renderer.error ∧
      (ConcatenationNode.optimize str type cs st).2.2 = st := by
  refine ⟨optimize_turned_away str type cs st, ?_, ?_, optimize_state str type cs st⟩
  · rw [optimize_state]
  · rw [optimize_state]

/-- C21, concrete instance: with depth 5 of 5 the node `["a", "b", tag]` is
left as it is and `false` is returned; with depth 4 of 5 the call folds it
and the depth is 4 again. -/
theorem optimize_depth_bounded_witness :
    (sampleState 5 5 Control.NONE).renderer.maximumRenderingDepth
        ≤ (sampleState 5 5 Control.NONE).renderer.currentRenderingDepth ∧
    ConcatenationNode.optimize Node.text NodeType.concatenation
        [Node.ofString "a", Node.ofString "b", sampleTag] (sampleState 5 5 Control.NONE) =
      (false, Node.inner NodeType.concatenation
        [Node.ofString "a", Node.ofString "b", sampleTag], sampleState 5 5 Control.NONE) ∧
    ConcatenationNode.optimize Node.text NodeType.concatenation
        [Node.ofString "a", Node.ofString "b", sampleTag] (sampleState 4 5 Control.NONE) =
      (true, Node.inner NodeType.concatenation [Node.ofString "ab", sampleTag, Node.ofString ""],
        sampleState 4 5 Control.NONE) :=
  ⟨by decide,
    (optimize_depth_bounded Node.text NodeType.concatenation
      [Node.ofString "a", Node.ofString "b", sampleTag] (sampleState 5 5 Control.NONE)).1
      (by decide),
    rfl⟩

theorem optimizeLoop_append (str : Node → String) (pre ys : List Node) (s : String)
    (newChildren : List Node) :
    ConcatenationNode.optimizeLoop str (pre ++ ys) s newChildren =
      ConcatenationNode.optimizeLoop str ys
        (ConcatenationNode.optimizeLoop str pre s newChildren).1
        (ConcatenationNode.optimizeLoop str pre s newChildren).2 := by
  induction pre generalizing s newChildren with
  | nil => simp [ConcatenationNode.optimizeLoop]
  | cons c rest ih =>
    simp only [List.cons_append, ConcatenationNode.optimizeLoop]
    split
    · split <;> exact ih _ _
    · exact ih _ _

/-- The loop of `optimize` on a non-leaf child followed by leaves only: the
accumulator ends as the text of those leaves, and the new children end with
the non-leaf child. -/
theorem optimizeLoop_last_segment (str : Node → String) (x : Node) (last : List Node)
    (s : String) (newChildren : List Node) (hx : x.hasType = true)
    (hlast : ∀ c ∈ last, c.hasType = false) :
    ∃ front, ConcatenationNode.optimizeLoop str (x :: last) s newChildren =
      (String.join (last.map str), front ++ [x]) := by
  by_cases he : s.isEmpty = true
  · have h0 : s = "" := (String.isEmpty_iff _).mp he
    refine ⟨newChildren, ?_⟩
    simp only [ConcatenationNode.optimizeLoop, hx, he, if_true, Bool.not_true,
      Bool.false_eq_true, if_false]
    rw [optimizeLoop_leaves str last _ _ hlast, h0, String.empty_append]
  · refine ⟨newChildren ++ [Node.ofString s], ?_⟩
    simp only [ConcatenationNode.optimizeLoop, hx, he, if_true, Bool.not_false]
    rw [optimizeLoop_leaves str last _ _ hlast, String.empty_append]

/-- C22, as the claim states it, fails: called with the depth budget exhausted
(depth 5 of 5), `optimize` returns `false` and leaves the node `["a", tag]`,
which has a non-leaf child, the concatenation it was; its last child is the
tag, not a string leaf. -/
theorem optimize_ends_with_leaf_counterexample :
    (∃ c ∈ [Node.ofString "a", sampleTag], c.hasType = true) ∧
    ConcatenationNode.optimize Node.text NodeType.concatenation
        [Node.ofString "a", sampleTag] (sampleState 5 5 Control.NONE) =
      (false, Node.inner NodeType.concatenation [Node.ofString "a", sampleTag],
        sampleState 5 5 Control.NONE) ∧
    [Node.ofString "a", sampleTag].getLast? = some sampleTag ∧
    sampleTag.hasType = true :=
  ⟨⟨sampleTag, by simp, rfl⟩, rfl, rfl, rfl⟩

/-- C22, amended: when `optimize` is called with the depth budget not
exhausted on a concatenation whose children are `pre`, then a non-leaf child
`x`, then leaves `last` only (none, when the last child is the non-leaf `x`),
it returns `true` and the node stays a concatenation of the same type whose
last child is the string leaf of the concatenated text of `last`; with `last`
empty that leaf is the empty string. -/
theorem optimize_ends_with_leaf {W : Type} (str : Node → String) (type : NodeType)
    (pre : List Node) (x : Node) (last : List Node) (st : RenderState W)
    (hx : x.hasType = true) (hlast : ∀ c ∈ last, c.hasType = false)
    (hdepth : st.renderer.currentRenderingDepth < st.renderer.maximumRenderingDepth) :
    (∃ front, ConcatenationNode.optimize str type (pre ++ x :: last) st =
        (true, Node.inner type (front ++ [Node.ofString (String.join (last.map str))]), st)) ∧
      (last = [] → ∃ front, ConcatenationNode.optimize str type (pre ++ x :: last) st =
        (true, Node.inner type (front ++ [Node.ofString ""]), st)) := by
  have hmain : ∃ front, ConcatenationNode.optimize str type (pre ++ x :: last) st =
      (true, Node.inner type (front ++ [Node.ofString (String.join (last.map str))]), st) := by
    obtain ⟨front, hfront⟩ := optimizeLoop_last_segment str x last
      (ConcatenationNode.optimizeLoop str pre "" []).1
      (ConcatenationNode.optimizeLoop str pre "" []).2 hx hlast
    refine ⟨front ++ [x], ?_⟩
    rw [optimize_of_budget str type _ st hdepth, optimizeLoop_append, hfront]
    simp
  refine ⟨hmain, ?_⟩
  intro hnil
  subst hnil
  exact hmain

/-- C22, concrete instance: `["a", tag, "b", "c"]` ends with the leaf `"bc"`
and `["a", tag]` with the leaf `""`. -/
theorem optimize_ends_with_leaf_witness :
    (sampleTag.hasType = true ∧ (∀ c ∈ [Node.ofString "b", Node.ofString "c"], c.hasType = false) ∧
      (sampleState 0 5 Control.NONE).renderer.currentRenderingDepth
        < (sampleState 0 5 Control.NONE).renderer.maximumRenderingDepth) ∧
    (∃ front, ConcatenationNode.optimize Node.text NodeType.concatenation
        ([Node.ofString "a"] ++ sampleTag :: [Node.ofString "b", Node.ofString "c"])
        (sampleState 0 5 Control.NONE) =
      (true, Node.inner NodeType.concatenation
        (front ++ [Node.ofString (String.join
          ([Node.ofString "b", Node.ofString "c"].map Node.text))]),
        sampleState 0 5 Control.NONE)) ∧
    ConcatenationNode.optimize Node.text NodeType.concatenation
        [Node.ofString "a", sampleTag, Node.ofString "b", Node.ofString "c"]
        (sampleState 0 5 Control.NONE) =
      (true, Node.inner NodeType.concatenation
        [Node.ofString "a", sampleTag, Node.ofString "bc"], sampleState 0 5 Control.NONE) ∧
    ConcatenationNode.optimize Node.text NodeType.concatenation
        [Node.ofString "a", sampleTag] (sampleState 0 5 Control.NONE) =
      (true, Node.inner NodeType.concatenation
        [Node.ofString "a", sampleTag, Node.ofString ""], sampleState 0 5 Control.NONE) :=
  ⟨⟨rfl, by simp [Node.hasType, Node.ofString], by decide⟩,
    (optimize_ends_with_leaf Node.text NodeType.concatenation [Node.ofString "a"] sampleTag
      [Node.ofString "b", Node.ofString "c"] (sampleState 0 5 Control.NONE) rfl
      (by simp [Node.hasType, Node.ofString]) (by decide)).1,
    rfl, rfl⟩

/-- The folded runs are leaves and keep their non-leaf child. -/
theorem folded_segments_shape (str : Node → String) (cs : List Node) :
    ∀ p ∈ (segments cs).1.map (fun p => (foldText str p.1, p.2)),
      (∀ c ∈ p.1, c.hasType = false) ∧ p.2.hasType = true := by
  intro p hp
  obtain ⟨q, hq, rfl⟩ := List.mem_map.mp hp
  refine ⟨?_, ((segments_shape cs).1 q hq).2⟩
  intro c hc
  rcases foldText_shape str q.1 with h | ⟨s, h⟩
  · simp [h] at hc
  · simp only [h, List.mem_singleton] at hc
    subst hc
    rfl

/-- With budget left, a concatenation with a non-leaf child becomes the
concatenation of `optimizedChildren`. -/
theorem optimize_children {W : Type} (str : Node → String) (type : NodeType)
    (cs : List Node) (st : RenderState W)
    (hdepth : st.renderer.currentRenderingDepth < st.renderer.maximumRenderingDepth)
    (hsome : ∃ c ∈ cs, c.hasType = true) :
    ConcatenationNode.optimize str type cs st =
      (true, Node.inner type (optimizedChildren str cs), st) := by
  have hshape := segments_shape cs
  have hcs := unsegment_segments cs
  have hne := segments_nonempty cs hsome
  have hloop := optimizeLoop_unsegment str (segments cs).1 (segments cs).2 [] hshape.1 hshape.2
  rw [hcs, List.nil_append] at hloop
  rw [optimize_of_budget str type cs st hdepth, hloop]
  have hlen : (unsegment ((segments cs).1.map fun p => (foldText str p.1, p.2)) []).length
      ≠ 0 := by
    rcases hs : (segments cs).1 with _ | ⟨⟨run, x⟩, more⟩
    · exact absurd hs hne
    · simp [unsegment]
  simp only [hlen, if_false, optimizedChildren, unsegment_append, List.nil_append]

/-- Folding a folded run changes nothing when a string leaf converts to its
own text. -/
theorem foldText_foldText (str : Node → String) (hstr : StringFaithful str)
    (run : List Node) : foldText str (foldText str run) = foldText str run := by
  by_cases he : (String.join (run.map str)).isEmpty = true
  · have h1 : foldText str run = [] := by simp [foldText, he]
    have hE : ("" : String).isEmpty = true := by decide
    rw [h1]
    simp [foldText, join_nil, hE]
  · have h1 : foldText str run = [Node.ofString (String.join (run.map str))] := by
      simp [foldText, he]
    have h2 : String.join ([Node.ofString (String.join (run.map str))].map str) =
        String.join (run.map str) := by
      rw [List.map_singleton, join_cons, join_nil, String.append_empty, hstr]
    rw [h1]
    simp only [foldText, h2, he, Bool.false_eq_true, if_false]

/-- The children that `optimize` leaves are children that `optimize` leaves as
they are. -/
theorem optimizedChildren_fixed {W : Type} (str : Node → String) (hstr : StringFaithful str)
    (type : NodeType) (cs : List Node) (st : RenderState W)
    (hdepth : st.renderer.currentRenderingDepth < st.renderer.maximumRenderingDepth)
    (hsome : ∃ c ∈ cs, c.hasType = true) :
    ConcatenationNode.optimize str type (optimizedChildren str cs) st =
      (true, Node.inner type (optimizedChildren str cs), st) := by
  have hne := segments_nonempty cs hsome
  have hloop := optimizeLoop_unsegment str
    ((segments cs).1.map fun p => (foldText str p.1, p.2))
    [Node.ofString (String.join ((segments cs).2.map str))] []
    (folded_segments_shape str cs)
    (by intro c hc; simp only [List.mem_singleton] at hc; subst hc; rfl)
  have hmap : ((segments cs).1.map fun p => (foldText str p.1, p.2)).map
      (fun p => (foldText str p.1, p.2)) =
      (segments cs).1.map fun p => (foldText str p.1, p.2) := by
    rw [List.map_map]
    apply List.map_congr_left
    intro p _
    simp [Function.comp, foldText_foldText str hstr]
  have hjoin : String.join ([Node.ofString (String.join ((segments cs).2.map str))].map str) =
      String.join ((segments cs).2.map str) := by
    rw [List.map_singleton, join_cons, join_nil, String.append_empty, hstr]
  rw [hmap, hjoin, List.nil_append] at hloop
  have hlen : (unsegment ((segments cs).1.map fun p => (foldText str p.1, p.2)) []).length
      ≠ 0 := by
    rcases hs : (segments cs).1 with _ | ⟨⟨run, x⟩, more⟩
    · exact absurd hs hne
    · simp [unsegment]
  rw [optimize_of_budget str type _ st hdepth]
  unfold optimizedChildren
  rw [hloop]
  simp only [hlen, if_false, unsegment_append, List.nil_append]

/-- C24, as the claim states it, fails: the node `["a", "b", tag]` has a
non-leaf child and `optimize` with budget left (depth 4 of 5) makes it
`["ab", tag, ""]`; a second application to that node with the depth budget
exhausted (depth 5 of 5) returns `false`, not `true`. With the budget
exhausted at the first application too, both applications return `false`. -/
theorem optimize_idempotent_counterexample :
    (∃ c ∈ [Node.ofString "a", Node.ofString "b", sampleTag], c.hasType = true) ∧
    ConcatenationNode.optimize Node.text NodeType.concatenation
        [Node.ofString "a", Node.ofString "b", sampleTag] (sampleState 4 5 Control.NONE) =
      (true, Node.inner NodeType.concatenation [Node.ofString "ab", sampleTag, Node.ofString ""],
        sampleState 4 5 Control.NONE) ∧
    ConcatenationNode.optimize Node.text NodeType.concatenation
        [Node.ofString "ab", sampleTag, Node.ofString ""] (sampleState 5 5 Control.NONE) =
      (false, Node.inner NodeType.concatenation
        [Node.ofString "ab", sampleTag, Node.ofString ""], sampleState 5 5 Control.NONE) ∧
    (ConcatenationNode.optimize Node.text NodeType.concatenation
        [Node.ofString "a", Node.ofString "b", sampleTag] (sampleState 5 5 Control.NONE)).1 =
      false ∧
    (ConcatenationNode.optimize Node.text NodeType.concatenation
        [Node.ofString "a", Node.ofString "b", sampleTag]
        (ConcatenationNode.optimize Node.text NodeType.concatenation
          [Node.ofString "a", Node.ofString "b", sampleTag]
          (sampleState 5 5 Control.NONE)).2.2).1 = false :=
  ⟨⟨sampleTag, by simp, rfl⟩, rfl, rfl, rfl, rfl⟩

/-- C24, amended: for a concatenation node with at least one non-leaf child
and the depth budget not exhausted, `optimize` returns `true` and leaves a
concatenation; a second `optimize` of that node, in the state the first call
left, returns `true` and leaves the same type and the same list of children;
and so does a second call in any other state with budget left. A string leaf
is taken to convert to its own text. -/
theorem optimize_idempotent {W : Type} (str : Node → String) (hstr : StringFaithful str)
    (type : NodeType) (cs : List Node) (st : RenderState W)
    (hsome : ∃ c ∈ cs, c.hasType = true)
    (hdepth : st.renderer.currentRenderingDepth < st.renderer.maximumRenderingDepth) :
    ∃ cs1, ConcatenationNode.optimize str type cs st = (true, Node.inner type cs1, st) ∧
      ConcatenationNode.optimize str type cs1 (ConcatenationNode.optimize str type cs st).2.2 =
        (true, Node.inner type cs1, st) ∧
      ∀ st2 : RenderState W,
        st2.renderer.currentRenderingDepth < st2.renderer.maximumRenderingDepth →
          ConcatenationNode.optimize str type cs1 st2 = (true, Node.inner type cs1, st2) := by
  refine ⟨optimizedChildren str cs, optimize_children str type cs st hdepth hsome, ?_, ?_⟩
  · rw [optimize_state]
    exact optimizedChildren_fixed str hstr type cs st hdepth hsome
  · intro st2 h2
    exact optimizedChildren_fixed str hstr type cs st2 h2 hsome

/-- C24, concrete instance: `["a", "b", tag, "", tag, "c"]` becomes
`["ab", tag, tag, "c"]`, which a second call leaves as it is. -/
theorem optimize_idempotent_witness :
    (StringFaithful Node.text ∧
      (∃ c ∈ [Node.ofString "a", Node.ofString "b", sampleTag, Node.ofString "", sampleTag,
        Node.ofString "c"], c.hasType = true) ∧
      (sampleState 0 5 Control.NONE).renderer.currentRenderingDepth
        < (sampleState 0 5 Control.NONE).renderer.maximumRenderingDepth) ∧
    (∃ cs1, ConcatenationNode.optimize Node.text NodeType.concatenation
        [Node.ofString "a", Node.ofString "b", sampleTag, Node.ofString "", sampleTag,
          Node.ofString "c"] (sampleState 0 5 Control.NONE) =
        (true, Node.inner NodeType.concatenation cs1, sampleState 0 5 Control.NONE) ∧
      ConcatenationNode.optimize Node.text NodeType.concatenation cs1
          (sampleState 0 5 Control.NONE) =
        (true, Node.inner NodeType.concatenation cs1, sampleState 0 5 Control.NONE)) ∧
    ConcatenationNode.optimize Node.text NodeType.concatenation
        [Node.ofString "a", Node.ofString "b", sampleTag, Node.ofString "", sampleTag,
          Node.ofString "c"] (sampleState 0 5 Control.NONE) =
      (true, Node.inner NodeType.concatenation
        [Node.ofString "ab", sampleTag, sampleTag, Node.ofString "c"],
        sampleState 0 5 Control.NONE) ∧
    ConcatenationNode.optimize Node.text NodeType.concatenation
        [Node.ofString "ab", sampleTag, sampleTag, Node.ofString "c"]
        (sampleState 0 5 Control.NONE) =
      (true, Node.inner NodeType.concatenation
        [Node.ofString "ab", sampleTag, sampleTag, Node.ofString "c"],
        sampleState 0 5 Control.NONE) :=
  ⟨⟨text_faithful, ⟨sampleTag, by simp, rfl⟩, by decide⟩,
    (optimize_idempotent Node.text text_faithful NodeType.concatenation
      [Node.ofString "a", Node.ofString "b", sampleTag, Node.ofString "", sampleTag,
        Node.ofString "c"] (sampleState 0 5 Control.NONE) ⟨sampleTag, by simp, rfl⟩
      (by decide)).imp
      (fun _ h => ⟨h.1, h.2.2 (sampleState 0 5 Control.NONE) (by decide)⟩),
    rfl, rfl⟩

/-! ## The registry, table by table and symbol by symbol (C25) -/

/-- One `registerType`: what the two lookups return afterwards. -/
theorem registerType_lookups (ctx c : Header.Context) (t : Header.NodeTypeObject)
    (hc : ctx.registerType t = some c) :
    (t.type.isTag = true ∨ t.type = Header.NodeTypeType.OPERATOR) ∧
      (t.type.isTag = true →
        c.getTagType t.symbol = some t ∧
        (∀ s, s ≠ t.symbol → c.getTagType s = ctx.getTagType s) ∧
        ∀ s, c.getOperatorType s = ctx.getOperatorType s) ∧
      (t.type = Header.NodeTypeType.OPERATOR →
        c.getOperatorType t.symbol = some t ∧
        (∀ s, s ≠ t.symbol → c.getOperatorType s = ctx.getOperatorType s) ∧
        ∀ s, c.getTagType s = ctx.getTagType s) := by
  cases ht : t.type <;>
    simp [Header.Context.registerType, ht] at hc <;>
    subst hc <;>
    simp +contextual [Header.NodeTypeType.isTag,
      Header.Context.getTagType, Header.Context.getOperatorType]

/-- The lookups after a list of registrations. -/
theorem registerAll_lookups (ts : List Header.NodeTypeObject) (ctx c : Header.Context)
    (s : String) (hc : ctx.registerAll ts = some c) :
    (c.getTagType s = none ↔
        ctx.getTagType s = none ∧ ∀ t ∈ ts, t.type.isTag = true → t.symbol ≠ s) ∧
      (c.getOperatorType s = none ↔
        ctx.getOperatorType s = none ∧
          ∀ t ∈ ts, t.type = Header.NodeTypeType.OPERATOR → t.symbol ≠ s) := by
  induction ts generalizing ctx with
  | nil =>
    simp only [Header.Context.registerAll, Option.some.injEq] at hc
    subst hc
    simp
  | cons t rest ih =>
    simp only [Header.Context.registerAll] at hc
    rcases h1 : ctx.registerType t with _ | c1
    · rw [h1] at hc
      simp at hc
    · rw [h1, Option.some_bind] at hc
      have hrest := ih c1 hc
      have hone := registerType_lookups ctx c1 t h1
      by_cases hs : s = t.symbol
      · subst hs
        rcases hone.1 with htag | hop
        · have hnop : t.type ≠ Header.NodeTypeType.OPERATOR := by
            intro h
            rw [h] at htag
            exact absurd htag (by decide)
          have h2 := hone.2.1 htag
          rw [hrest.1, hrest.2, h2.1, h2.2.2]
          simp [htag, hnop]
        · have hntag : Header.NodeTypeType.OPERATOR.isTag = false := rfl
          have h2 := hone.2.2 hop
          rw [hrest.1, hrest.2, h2.1, h2.2.2]
          simp [hop, hntag]
      · have hs1 : t.symbol ≠ s := fun h => hs h.symm
        rcases hone.1 with htag | hop
        · have h2 := hone.2.1 htag
          rw [hrest.1, hrest.2, h2.2.1 s hs, h2.2.2]
          simp [hs1]
        · have h2 := hone.2.2 hop
          rw [hrest.1, hrest.2, h2.2.1 s hs, h2.2.2]
          simp [hs1]

/-- Registering tag and operator types never reaches `assert(false)`. -/
theorem registerAll_total (ts : List Header.NodeTypeObject) (ctx : Header.Context)
    (hkinds : ∀ t ∈ ts, t.type.isTag = true ∨ t.type = Header.NodeTypeType.OPERATOR) :
    ∃ c, ctx.registerAll ts = some c := by
  induction ts generalizing ctx with
  | nil => exact ⟨ctx, rfl⟩
  | cons t rest ih =>
    have hrest : ∀ t ∈ rest, t.type.isTag = true ∨ t.type = Header.NodeTypeType.OPERATOR :=
      fun u hu => hkinds u (List.mem_cons_of_mem _ hu)
    have ht := hkinds t (List.mem_cons_self _ _)
    have h1 : ∃ c1, ctx.registerType t = some c1 := by
      cases hty : t.type <;> simp [hty, Header.NodeTypeType.isTag] at ht <;>
        simp [Header.Context.registerType, hty]
    obtain ⟨c1, hc1⟩ := h1
    obtain ⟨c, hc⟩ := ih c1 hrest
    exact ⟨c, by simp [Header.Context.registerAll, hc1, hc]⟩

/-- C25: after the registrations `ts` on a context in which nothing was
registered, `getTagType(s)` returns null exactly when no type of `ts` is a tag
type with symbol `s`, and `getOperatorType(s)` returns null exactly when no
type of `ts` is an operator type with symbol `s`. One `registerType` of a tag
type leaves the tag lookup of every other symbol and the operator lookup of
every symbol, its own included, as they were, and sets the tag lookup of its
own symbol to itself; the same holds for an operator type with the two tables
exchanged. Registrations of tag and operator types always go through. -/
theorem registry_lookups_framed (ts : List Header.NodeTypeObject)
    (ctx c c1 : Header.Context) (t : Header.NodeTypeObject) (s : String) :
    (Header.Context.empty.registerAll ts = some c →
        (c.getTagType s = none ↔ ∀ u ∈ ts, u.type.isTag = true → u.symbol ≠ s) ∧
        (c.getOperatorType s = none ↔
          ∀ u ∈ ts, u.type = Header.NodeTypeType.OPERATOR → u.symbol ≠ s)) ∧
      (ctx.registerType t = some c1 →
        (t.type.isTag = true ∨ t.type = Header.NodeTypeType.OPERATOR) ∧
        (t.type.isTag = true →
          c1.getTagType t.symbol = some t ∧
          (∀ s1, s1 ≠ t.symbol → c1.getTagType s1 = ctx.getTagType s1) ∧
          ∀ s1, c1.getOperatorType s1 = ctx.getOperatorType s1) ∧
        (t.type = Header.NodeTypeType.OPERATOR →
          c1.getOperatorType t.symbol = some t ∧
          (∀ s1, s1 ≠ t.symbol → c1.getOperatorType s1 = ctx.getOperatorType s1) ∧
          ∀ s1, c1.getTagType s1 = ctx.getTagType s1)) ∧
      ((∀ u ∈ ts, u.type.isTag = true ∨ u.type = Header.NodeTypeType.OPERATOR) →
        ∃ c2, Header.Context.empty.registerAll ts = some c2) := by
  refine ⟨?_, registerType_lookups ctx c1 t, registerAll_total ts Header.Context.empty⟩
  intro hc
  have h := registerAll_lookups ts Header.Context.empty c s hc
  simpa [Header.Context.empty, Header.Context.getTagType, Header.Context.getOperatorType]
    using h

/-- C25, concrete instance: the tag `if` registered on the empty context. The
tag lookup of `if` finds it, the tag lookup of `unless` and the operator
lookup of `if` return null as before; and after the tag `if` and the operator
`if` have both been registered, the tag lookup of `unless` returns null and
the two lookups of `if` return the tag and the operator. -/
theorem registry_lookups_framed_witness :
    (Header.Context.empty.registerType sampleIfEnclosed = some sampleContext ∧
      sampleIfEnclosed.type.isTag = true ∧
      Header.Context.empty.registerAll [sampleIfEnclosed, sampleIfOperator] =
        some sampleRegistry) ∧
    (sampleContext.getTagType "if" = some sampleIfEnclosed ∧
      sampleContext.getTagType "unless" = none ∧
      sampleContext.getOperatorType "if" = none) ∧
    sampleRegistry.getTagType "unless" = none ∧
    sampleRegistry.getTagType "if" = some sampleIfEnclosed ∧
    sampleRegistry.getOperatorType "if" = some sampleIfOperator :=
  ⟨⟨rfl, rfl, rfl⟩,
    ⟨(((registry_lookups_framed [] Header.Context.empty Header.Context.empty sampleContext
        sampleIfEnclosed "").2.1 rfl).2.1 rfl).1,
      (((registry_lookups_framed [] Header.Context.empty Header.Context.empty sampleContext
        sampleIfEnclosed "").2.1 rfl).2.1 rfl).2.1 "unless" (by decide),
      (((registry_lookups_framed [] Header.Context.empty Header.Context.empty sampleContext
        sampleIfEnclosed "").2.1 rfl).2.1 rfl).2.2 "if"⟩,
    ((registry_lookups_framed [sampleIfEnclosed, sampleIfOperator] Header.Context.empty
        sampleRegistry Header.Context.empty sampleIfEnclosed "unless").1 rfl).1.mpr
      (by intro u hu _; simp only [List.mem_cons, List.mem_singleton, List.not_mem_nil,
            or_false] at hu; rcases hu with h | h <;> subst h <;> decide),
    rfl, rfl⟩

/-! ## Indices outside the sequence (C26, C27) -/

/-- An index whose successor fits `size_t`: `operator[]` returns an element
inside the array, and the elements the array had keep their values. -/
theorem subscriptIndex_inside (a : List CPPVariable) (idx : Nat) (h : idx + 1 < 2 ^ 64) :
    ∃ a1, (CPPVariable.ARRAY a).subscriptIndex idx = some (CPPVariable.ARRAY a1) ∧
      idx < a1.length ∧ ∀ j, j < a.length → a1[j]? = a[j]? := by
  have hmod : (idx + 1) % 2 ^ 64 = idx + 1 := Nat.mod_eq_of_lt h
  by_cases hlt : a.length < idx + 1
  · refine ⟨a ++ List.replicate (idx + 1 - a.length) CPPVariable.NIL, ?_, ?_, ?_⟩
    · have hlen : idx < (a ++ List.replicate (idx + 1 - a.length) CPPVariable.NIL).length := by
        rw [List.length_append, List.length_replicate]
        omega
      simp only [CPPVariable.subscriptIndex, hmod, hlt, if_true, hlen]
    · rw [List.length_append, List.length_replicate]
      omega
    · intro j hj
      exact List.getElem?_append_left hj
  · refine ⟨a, ?_, by omega, fun _ _ => rfl⟩
    have hlen : idx < a.length := by omega
    simp only [CPPVariable.subscriptIndex, hmod, hlt, if_false, hlen, if_true]

/-- The index `2^64 - 1`, whose successor wraps to 0: the vector is not
resized, and `a[idx]` lies outside every vector. -/
theorem subscriptIndex_wrapped (a : List CPPVariable) (h : a.length < 2 ^ 64) :
    (CPPVariable.ARRAY a).subscriptIndex (2 ^ 64 - 1) = none := by
  have hmod : (2 ^ 64 - 1 + 1) % 2 ^ 64 = 0 := by decide
  have h1 : ¬ a.length < 0 := by omega
  have h2 : ¬ 2 ^ 64 - 1 < a.length := by omega
  simp only [CPPVariable.subscriptIndex, hmod, h1, if_false, h2]

/-- C26 (code evaluated at the failing input): the integer link `-1` is the
`size_t` index `2^64 - 1`, for which `idx+1` is 0. On the array `[7]` the
test `a.size() < idx+1` fails, nothing is resized, and `a[idx]` is an element
outside the vector: `operator[]`, `getArrayVariable` and the render of the
chain `a`, `-1` over the store `{a: [7]}` have no defined result. The same
holds on a nil variable, which `operator[]` turns into an empty array. The
index 2 on the same array is inside after the call. -/
theorem getArrayVariable_index_wraps :
    toSizeT (-1) = 2 ^ 64 - 1 ∧
    (toSizeT (-1) + 1) % 2 ^ 64 = 0 ∧
    (CPPVariable.ARRAY [CPPVariable.INT 7]).subscriptIndex (toSizeT (-1)) = none ∧
    (CPPVariable.ARRAY [CPPVariable.INT 7]).getArrayVariable (toSizeT (-1)) = none ∧
    CPPVariable.NIL.subscriptIndex (toSizeT (-1)) = none ∧
    Header.render CPPVariable.vtable sampleUserRender Node.text sampleIndeterminate
        (Node.inner NodeType.variable [Node.ofString "a", Node.leaf (Variant.int (-1))]) []
        (CPPVariable.DICTIONARY [("a", CPPVariable.ARRAY [CPPVariable.INT 7])]) = none ∧
    (CPPVariable.ARRAY [CPPVariable.INT 7]).getArrayVariable 2 =
      some (true, CPPVariable.ARRAY [CPPVariable.INT 7, CPPVariable.NIL, CPPVariable.NIL]) :=
  ⟨by decide, by decide, rfl, rfl, rfl, rfl, rfl⟩

/-- A negative index passes the test `idx >= (int)children.size()` and reaches
`children[idx]`. -/
theorem getChild_negative {W V : Type} (tr : TypeRender W V) (str : Node → String)
    (t : NodeType) (cs : List Node) (store : V) (idx : Int) (st : RenderState W)
    (hfit : cs.length < 2 ^ 31) (hidx : idx < 0) :
    NodeType.getChild tr str (Node.inner t cs) store idx st = none := by
  have h1 : ¬ (idx ≥ toInt cs.length) := by
    rw [toInt_of_lt _ hfit]
    omega
  simp only [NodeType.getChild, h1, if_false, hidx, if_true]

/-- An index from the child count on: the nil node, nothing rendered. -/
theorem getChild_beyond {W V : Type} (tr : TypeRender W V) (str : Node → String)
    (t : NodeType) (cs : List Node) (store : V) (idx : Int) (st : RenderState W)
    (hfit : cs.length < 2 ^ 31) (hidx : (cs.length : Int) ≤ idx) :
    NodeType.getChild tr str (Node.inner t cs) store idx st = some (Node.nil, st) := by
  have h1 : idx ≥ toInt cs.length := by
    rw [toInt_of_lt _ hfit]
    omega
  simp only [NodeType.getChild, h1, if_true]

/-- C27 (code evaluated at the failing input): on the node with the one child
`"x"`, `getChild` with any negative index passes the only test, `idx >=
(int)node.children.size()`, and evaluates `node.children[idx]`, an element
outside the vector: no defined result, where the claim has the nil node. The
same holds for `getArgument` with a negative index on a tag with two
arguments. From the count on both return the nil node and leave the state as
it was, and `getChild(0)` renders the child. -/
theorem getChild_negative_index :
    (∀ n : Nat, NodeType.getChild sampleRender Node.text
        (Node.inner NodeType.concatenation [Node.ofString "x"]) () (Int.negSucc n)
        (sampleState 0 5 Control.NONE) = none) ∧
    (∀ n : Nat, NodeType.getArgument sampleTags sampleRender Node.text sampleTagNode ()
        (Int.negSucc n) (sampleState 0 5 Control.NONE) = none) ∧
    NodeType.getChildCount (Node.inner NodeType.concatenation [Node.ofString "x"]) = some 1 ∧
    NodeType.getChild sampleRender Node.text
        (Node.inner NodeType.concatenation [Node.ofString "x"]) () (-1)
        (sampleState 0 5 Control.NONE) = none ∧
    NodeType.getChild sampleRender Node.text
        (Node.inner NodeType.concatenation [Node.ofString "x"]) () 0
        (sampleState 0 5 Control.NONE) =
      some (Node.ofString "x", sampleState 0 5 Control.NONE) ∧
    NodeType.getChild sampleRender Node.text
        (Node.inner NodeType.concatenation [Node.ofString "x"]) () 1
        (sampleState 0 5 Control.NONE) = some (Node.nil, sampleState 0 5 Control.NONE) ∧
    NodeType.getArgument sampleTags sampleRender Node.text sampleTagNode () (-1)
        (sampleState 0 5 Control.NONE) = none ∧
    NodeType.getArgument sampleTags sampleRender Node.text sampleTagNode () 2
        (sampleState 0 5 Control.NONE) = some (Node.nil, sampleState 0 5 Control.NONE) := by
  refine ⟨?_, ?_, rfl, rfl, rfl, rfl, rfl, rfl⟩
  · intro n
    exact getChild_negative sampleRender Node.text _ _ () _ _ (by decide)
      (Int.negSucc_lt_zero n)
  · intro n
    have h1 : ¬ (Int.negSucc n ≥ toInt 2) := by
      have h2 : toInt 2 = 2 := by decide
      have h3 := Int.negSucc_lt_zero n
      rw [h2]
      omega
    have hg : argumentsGroup sampleTags sampleTagNode =
        some (NodeType.arguments, sampleArguments) := rfl
    have ha : sampleTags.isArguments NodeType.arguments = true := rfl
    have hl : sampleArguments.length = 2 := rfl
    simp only [NodeType.getArgument, hg, hl, h1, if_false, ha, Bool.not_true,
      Bool.false_eq_true, Int.negSucc_lt_zero n, if_true]

/-! ## The text of a parser exception (C23, C28) -/

theorem string_length_eq_zero (s : String) : s.length = 0 ↔ s = "" := by
  constructor
  · intro h
    apply String.ext
    exact List.length_eq_zero.mp h
  · intro h
    subst h
    rfl

/-- A `size_t` value has at most 20 decimal digits. -/
theorem formatUnsignedLong_length (n : Nat) (h : n < 2 ^ 64) :
    (formatUnsignedLong n).length ≤ 20 :=
  Nat.repr_length n 20 (by decide) (lt_trans h (by norm_num))

/-- Every kind but `NONE` has a `sprintf` call. -/
theorem format_defined (e : Parser.Error) (hkind : e.type ≠ ParserErrorType.NONE) :
    ∃ text, Parser.Exception.format e = some text := by
  unfold Parser.Exception.format
  cases h : e.type
  · exact absurd h hkind
  · simp only []
    split <;> exact ⟨_, rfl⟩
  all_goals exact ⟨_, rfl⟩

/-- The formatted text and its terminator fit the buffer of 512 `char`. -/
theorem format_fits (e : Parser.Error) (text : String)
    (hmsg : e.message.length < LIQUID_ERROR_MESSAGE_MAX_LENGTH)
    (hrow : e.row < 2 ^ 64) (hcolumn : e.column < 2 ^ 64)
    (htext : Parser.Exception.format e = some text) : text.length + 1 ≤ 512 := by
  have hr := formatUnsignedLong_length e.row hrow
  have hc := formatUnsignedLong_length e.column hcolumn
  have hm : e.message.length < 256 := hmsg
  have l1 : ("Unknown tag '" : String).length = 13 := rfl
  have l2 : ("Unknown operator '" : String).length = 18 := rfl
  have l3 : ("Unknown operator, or qualifier '" : String).length = 32 := rfl
  have l4 : ("Unknown filter '" : String).length = 16 := rfl
  have l5 : ("Invalid symbol '" : String).length = 16 := rfl
  have l6 : ("Unexpected end to block '" : String).length = 25 := rfl
  have l7 : ("Unexpected end to block on line " : String).length = 32 := rfl
  have l8 : ("Unbalanced end to group on line " : String).length = 32 := rfl
  have l9 : ("' on line " : String).length = 10 := rfl
  have l10 : (", column " : String).length = 9 := rfl
  have l11 : ("." : String).length = 1 := rfl
  unfold Parser.Exception.format at htext
  cases h : e.type <;> rw [h] at htext <;> simp only [] at htext
  · exact absurd htext (by simp)
  · split at htext <;>
      · simp only [Option.some.injEq] at htext
        subst htext
        simp only [String.length_append, l6, l7, l9, l10, l11]
        omega
  all_goals
    simp only [Option.some.injEq] at htext
    subst htext
    simp only [String.length_append, l1, l2, l3, l4, l5, l8, l9, l10, l11]
    omega

/-- The constructor copies the formatted text. -/
theorem exception_new (e : Parser.Error) (text : String)
    (hmsg : e.message.length < LIQUID_ERROR_MESSAGE_MAX_LENGTH)
    (hrow : e.row < 2 ^ 64) (hcolumn : e.column < 2 ^ 64)
    (htext : Parser.Exception.format e = some text) :
    Parser.Exception.new e = some { parserError := e, message := text } := by
  have hfit := format_fits e text hmsg hrow hcolumn htext
  simp only [Parser.Exception.new, htext, hfit, if_true]

/-- C28: for every parser error of a kind other than `NONE` whose message has
at most 255 characters (it fits the field of `LIQUID_ERROR_MESSAGE_MAX_LENGTH`
bytes together with its terminator) and whose row and column are 64-bit
values, the switch formats a text, and that text with its terminator is at
most 512 bytes long. -/
theorem exception_text_fits_buffer (e : Parser.Error)
    (hkind : e.type ≠ ParserErrorType.NONE)
    (hmsg : e.message.length < LIQUID_ERROR_MESSAGE_MAX_LENGTH)
    (hrow : e.row < 2 ^ 64) (hcolumn : e.column < 2 ^ 64) :
    ∃ text, Parser.Exception.format e = some text ∧ text.length + 1 ≤ 512 := by
  obtain ⟨text, htext⟩ := format_defined e hkind
  exact ⟨text, htext, format_fits e text hmsg hrow hcolumn htext⟩

/-- C28, concrete instance: the unknown tag `foo` on line 12, column 7 gives a
text of 39 characters; an unknown operator or qualifier at the last row and
column gives 90 characters, 20 digits for each number. -/
theorem exception_text_fits_buffer_witness :
    (sampleLongError.type ≠ ParserErrorType.NONE ∧
      sampleLongError.message.length < LIQUID_ERROR_MESSAGE_MAX_LENGTH ∧
      sampleLongError.row < 2 ^ 64 ∧ sampleLongError.column < 2 ^ 64) ∧
    (∃ text, Parser.Exception.format sampleLongError = some text ∧ text.length + 1 ≤ 512) ∧
    Parser.Exception.format sampleLongError =
      some ("Unknown operator, or qualifier 'x' on line 18446744073709551615, " ++
        "column 18446744073709551615.") ∧
    Parser.Exception.format sampleError = some "Unknown tag 'foo' on line 12, column 7." ∧
    ("Unknown tag 'foo' on line 12, column 7." : String).length = 39 :=
  ⟨⟨by decide, by decide, by decide, by decide⟩,
    exception_text_fits_buffer sampleLongError (by decide) (by decide) (by decide) (by decide),
    by decide, by decide, by decide⟩

theorem append_ends (a m q r : String) : ∃ front, a ++ (m ++ (q ++ r)) = front ++ r :=
  ⟨a ++ (m ++ q), by simp only [String.append_assoc]⟩

/-- C23: for a parser error of a kind other than `NONE` (message of at most
255 characters, 64-bit row `r` and column `c`) the exception is built and
`what()` is: for "Unknown tag", "Unknown operator", "Unknown operator, or
qualifier", "Unknown filter" and "Invalid symbol", that text, the message in
single quotes, and "on line r, column c."; for UNBALANCED_GROUP "Unbalanced
end to group on line r, column c."; for UNEXPECTED_END "Unexpected end to
block", the message in single quotes when it is not empty and nothing when it
is, and "on line r, column c.". In every case the text ends in "on line r,
column c." with `r` and `c` in decimal. -/
theorem exception_what_text (e : Parser.Error)
    (hkind : e.type ≠ ParserErrorType.NONE)
    (hmsg : e.message.length < LIQUID_ERROR_MESSAGE_MAX_LENGTH)
    (hrow : e.row < 2 ^ 64) (hcolumn : e.column < 2 ^ 64) :
    ∃ x, Parser.Exception.new e = some x ∧ x.parserError = e ∧
      (∀ k, quotedKind e.type = some k →
        x.what = k ++ " '" ++ e.message ++ "' " ++ lineColumn e.row e.column) ∧
      (e.type = ParserErrorType.UNBALANCED_GROUP →
        x.what = "Unbalanced end to group " ++ lineColumn e.row e.column) ∧
      (e.type = ParserErrorType.UNEXPECTED_END → e.message ≠ "" →
        x.what = "Unexpected end to block '" ++ e.message ++ "' " ++
          lineColumn e.row e.column) ∧
      (e.type = ParserErrorType.UNEXPECTED_END → e.message = "" →
        x.what = "Unexpected end to block " ++ lineColumn e.row e.column) ∧
      ∃ front, x.what = front ++ lineColumn e.row e.column := by
  obtain ⟨text, htext⟩ := format_defined e hkind
  refine ⟨_, exception_new e text hmsg hrow hcolumn htext, rfl, ?_⟩
  have s1 : ("Unknown tag '" : String) = "Unknown tag" ++ " '" := rfl
  have s2 : ("Unknown operator '" : String) = "Unknown operator" ++ " '" := rfl
  have s3 : ("Unknown operator, or qualifier '" : String) =
      "Unknown operator, or qualifier" ++ " '" := rfl
  have s4 : ("Unknown filter '" : String) = "Unknown filter" ++ " '" := rfl
  have s5 : ("Invalid symbol '" : String) = "Invalid symbol" ++ " '" := rfl
  have s6 : ("' on line " : String) = "' " ++ "on line " := rfl
  have s7 : ("Unexpected end to block on line " : String) =
      "Unexpected end to block " ++ "on line " := rfl
  have s8 : ("Unbalanced end to group on line " : String) =
      "Unbalanced end to group " ++ "on line " := rfl
  unfold Parser.Exception.format at htext
  simp only [Parser.Exception.what, lineColumn]
  cases h : e.type <;> rw [h] at htext <;> simp only [] at htext
  · exact absurd h hkind
  · by_cases hm : e.message = ""
    · have hl : ¬ e.message.length ≠ 0 := by
        simp [(string_length_eq_zero e.message).mpr hm]
      rw [if_neg hl] at htext
      simp only [Option.some.injEq] at htext
      subst htext
      refine ⟨by simp [quotedKind], by simp, fun _ h1 => absurd hm h1, ?_, ?_⟩
      · intro _ _
        rw [s7]
        simp only [formatUnsignedLong, String.append_assoc]
      · refine ⟨"Unexpected end to block ", ?_⟩
        rw [s7]
        simp only [formatUnsignedLong, String.append_assoc]
    · have hl : e.message.length ≠ 0 := fun h0 => hm ((string_length_eq_zero e.message).mp h0)
      rw [if_pos hl] at htext
      simp only [Option.some.injEq] at htext
      subst htext
      refine ⟨by simp [quotedKind], by simp, ?_, fun _ h1 => absurd h1 hm, ?_⟩
      · intro _ _
        rw [s6]
        simp only [formatUnsignedLong, String.append_assoc]
      · refine ⟨"Unexpected end to block '" ++ e.message ++ "' ", ?_⟩
        rw [s6]
        simp only [formatUnsignedLong, String.append_assoc]
  case UNBALANCED_GROUP =>
    simp only [Option.some.injEq] at htext
    subst htext
    refine ⟨by simp [quotedKind], ?_, by simp, by simp, ?_⟩
    · intro _
      rw [s8]
      simp only [formatUnsignedLong, String.append_assoc]
    · refine ⟨"Unbalanced end to group ", ?_⟩
      rw [s8]
      simp only [formatUnsignedLong, String.append_assoc]
  all_goals
    simp only [Option.some.injEq] at htext
    subst htext
    refine ⟨?_, by simp, by simp, by simp, ?_⟩
    · intro k hk
      simp only [quotedKind, Option.some.injEq] at hk
      subst hk
      rw [s6]
      first
        | rw [s1]
        | rw [s2]
        | rw [s3]
        | rw [s4]
        | rw [s5]
      simp only [formatUnsignedLong, String.append_assoc]
    · rw [s6]
      simp only [formatUnsignedLong, String.append_assoc]
      exact append_ends _ _ _ _

/-- C23, concrete instance: the unknown tag `foo` on line 12, column 7, and a
block left open on line 3, column 1, without and with the tag name `if`. -/
theorem exception_what_text_witness :
    (sampleError.type ≠ ParserErrorType.NONE ∧
      sampleError.message.length < LIQUID_ERROR_MESSAGE_MAX_LENGTH ∧
      sampleError.row < 2 ^ 64 ∧ sampleError.column < 2 ^ 64) ∧
    (∃ x, Parser.Exception.new sampleError = some x ∧
      x.what = "Unknown tag" ++ " '" ++ sampleError.message ++ "' " ++
        lineColumn sampleError.row sampleError.column) ∧
    (Parser.Exception.new sampleError).map Parser.Exception.what =
      some "Unknown tag 'foo' on line 12, column 7." ∧
    (Parser.Exception.new (sampleEndError "")).map Parser.Exception.what =
      some "Unexpected end to block on line 3, column 1." ∧
    (Parser.Exception.new (sampleEndError "if")).map Parser.Exception.what =
      some "Unexpected end to block 'if' on line 3, column 1." :=
  ⟨⟨by decide, by decide, by decide, by decide⟩,
    (exception_what_text sampleError (by decide) (by decide) (by decide) (by decide)).imp
      (fun _ h => ⟨h.1, h.2.2.1 "Unknown tag" rfl⟩),
    by decide, by decide, by decide⟩

end Liquid
